import Mathlib

/-!
# EDRModel: histogram builder, bin locator, sampler and commands

A shallow embedding of `binary_search`, `generate_CDR_network` and
`generate_EDR_network` (src/src/network/network.c), of
`export_distance_histogram` and `read_distance_matrix`
(src/src/distance/distance.c) and of `check_input_args` and `main`
(src/src/network/generate_network.c), with the properties the specification
states about them.

Modelling conventions

* `double` values are rationals (`ℚ`); comparisons and `floor` are exact.
  The definitions `binary_search`, `makeBins`, `binIndex`, `buildHistogram`
  and `export_distance_histogram` take `+`, `-`, `*`, `/` as the exact
  operations. The builder is also given in the arithmetic of the code
  (`makeBinsFl`, `binIndexFl`, `buildHistogramFl`,
  `export_distance_histogram_fl`), every operation followed by a rounding
  `fl`; `roundDouble` is the rounding of IEEE 754 binary64. Infinities and
  NaN are outside the model.
* `size_t` values are naturals below `2 ^ 64`; `+` and `-` on them wrap
  (`sizeAdd`, `sizeSub`), so `middle - 1` at `middle = 0` is `2 ^ 64 - 1`.
* `int` values (the result of `binary_search`, the counters `hist[k]`, the
  stored node ids, the weights) are mathematical integers / naturals: every
  index, count and weight is taken to fit in an `int`.
* An array is a list; an access outside an array is undefined behaviour in C
  and is an explicit outcome here (`Outcome.outOfBounds`, `Fault`). The writes
  `hist[k]++` of the builder are shown to stay inside the array.
* Memory returned by `malloc` holds arbitrary values until it is written; it is
  a parameter of the function that allocates it.
* The random number generator of GSL is a parameter: a type of states and the
  three calls the sampler makes.
* A `while` loop is a recursion on a fuel argument, `none` meaning that the
  fuel ran out; the theorems give the fuel that suffices.
-/

namespace EDRModel

/-! ## Machine arithmetic on `size_t` -/

/-- Number of values of the type `size_t` (64 bit). -/
def SIZE_MOD : Nat := 2 ^ 64

/-- Addition of two `size_t` values. -/
def sizeAdd (a b : Nat) : Nat := (a + b) % SIZE_MOD

/-- Subtraction of two `size_t` values; it wraps below zero. -/
def sizeSub (a b : Nat) : Nat := (a + SIZE_MOD - b % SIZE_MOD) % SIZE_MOD

/-! ## `binary_search` (network.c, lines 26-53) -/

/-- What a call of `binary_search` does: it returns an `int`, or it reads
`bins[idx]` outside the array. -/
inductive Outcome
  | returned (r : Int)
  | outOfBounds (idx : Nat)
  deriving DecidableEq, Repr

/-- The `while (lower <= upper)` loop of `binary_search`; one unit of fuel per
evaluation of the loop condition. -/
def searchLoop (bins : List ℚ) (bin_width value : ℚ) : Nat → Nat → Nat → Option Outcome
  | 0, _, _ => none
  | fuel + 1, lower, upper =>
    if lower ≤ upper then
      let middle := sizeAdd lower (sizeSub upper lower / 2)
      match bins[middle]? with
      | none => some (Outcome.outOfBounds middle)
      | some lower_bin =>
        let upper_bin := lower_bin + bin_width
        if lower_bin < value ∧ value ≤ upper_bin then
          some (Outcome.returned (middle : Int))
        else if value ≤ lower_bin then
          searchLoop bins bin_width value fuel lower (sizeSub middle 1)
        else
          searchLoop bins bin_width value fuel (sizeAdd middle 1) upper
    else some (Outcome.returned (-1))

/-- The function `binary_search(bins, nr_bins, bin_width, value)`:
`lower = 0`, `upper = nr_bins - 1`, then the loop. -/
def binary_search (fuel : Nat) (bins : List ℚ) (nr_bins : Nat) (bin_width value : ℚ) :
    Option Outcome :=
  searchLoop bins bin_width value fuel 0 (sizeSub nr_bins 1)

/-- The array has uniform spacing: `bins[k] = bins[0] + k * bin_width`. -/
def UniformBins (bins : List ℚ) (bin_width : ℚ) : Prop :=
  ∀ k, k < bins.length → bins[k]? = some (bins.headD 0 + (k : ℚ) * bin_width)

/-- The array is ascending. -/
def Ascending (bins : List ℚ) : Prop :=
  ∀ j k, j ≤ k → k < bins.length → bins.getD j 0 ≤ bins.getD k 0

/-- The value lies in bin `i`: `bins[i] < value <= bins[i] + bin_width`. -/
def InBin (bins : List ℚ) (bin_width value : ℚ) (i : Nat) : Prop :=
  ∃ b, bins[i]? = some b ∧ b < value ∧ value ≤ b + bin_width

/-! ## `export_distance_histogram` (distance.c, lines 28-190)

The distance matrix `double ** distances` of dimension `nr_nodes` is a function of
row and column. Allocations and the opening of the three output files are taken
to succeed; the result of the model is what the function has in `bins`, `hist`
and `indices` when it prints them. -/

/-- The loop `for (size_t x = lo; x < hi; x++)`: the body is run for
`lo, lo + 1, ..., hi - 1` in this order. -/
def forLoop {σ : Type} (lo hi : Nat) (body : σ → Nat → σ) (init : σ) : σ :=
  (List.range' lo (hi - lo)).foldl body init

/-- The two nested loops over the matrix that every pass of the function
repeats: rows `i` ascending; columns `j` from `i + 1` when `is_symm == 1`, from
`0` when `is_symm == 0`. For another flag no pass runs any body. -/
def scanLoop {σ : Type} (is_symm : Int) (nr_nodes : Nat) (body : σ → Nat → Nat → σ)
    (init : σ) : σ :=
  if is_symm = 1 then
    forLoop 0 nr_nodes (fun s i => forLoop (i + 1) nr_nodes (fun t j => body t i j) s) init
  else if is_symm = 0 then
    forLoop 0 nr_nodes (fun s i => forLoop 0 nr_nodes (fun t j => body t i j) s) init
  else init

/-- Body of the first pass (lines 37-38 and 48-49) on the pair
`(min_bins, max_bins)`. -/
def minMaxStep (distances : Nat → Nat → ℚ) (acc : ℚ × ℚ) (i j : Nat) : ℚ × ℚ :=
  let min_bins := if distances i j < acc.1 then distances i j else acc.1
  let max_bins := if distances i j > acc.2 then distances i j else acc.2
  (min_bins, max_bins)

/-- The array `bins` (lines 60-63): `bins[i] = min_bins + i * bin_width` for
`i = 0 .. nr_bins`, in exact arithmetic; `makeBinsFl` rounds the product and the sum as the
code does. -/
def makeBins (min_bins bin_width : ℚ) (nr_bins : Nat) : List ℚ :=
  (List.range (nr_bins + 1)).map (fun (i : Nat) => min_bins + (i : ℚ) * bin_width)

/-- The bin index of the entry `(i, j)` (lines 78-79, repeated at 93-94, 119-120
and 138-139): `(size_t) floor((d - min_bins) / bin_width)`, decremented when
`d == bins[nr_bins]`, in exact arithmetic; `binIndexFl` rounds the difference and the quotient
as the code does. -/
def binIndex (distances : Nat → Nat → ℚ) (min_bins bin_width : ℚ) (bins : List ℚ)
    (nr_bins i j : Nat) : Nat :=
  let idx_bins := Int.toNat ⌊(distances i j - min_bins) / bin_width⌋
  if distances i j = bins.getD nr_bins 0 then sizeSub idx_bins 1 else idx_bins

/-- The update `hist[k]++`; a write outside the array leaves the list as it is. -/
def incrAt : List Nat → Nat → List Nat
  | [], _ => []
  | c :: cs, 0 => (c + 1) :: cs
  | c :: cs, k + 1 => c :: incrAt cs k

/-- Body of the counting pass (lines 76-81 and 91-96). -/
def histStep (distances : Nat → Nat → ℚ) (min_bins bin_width : ℚ) (bins : List ℚ)
    (nr_bins : Nat) (hist : List Nat) (i j : Nat) : List Nat :=
  if distances i j ≠ 0 then
    incrAt hist (binIndex distances min_bins bin_width bins nr_bins i j)
  else hist

/-- Body of the index pass for bin `k` (lines 117-126 and 136-145). The state
is the part of `indices[k]` written so far, `idx_edges` being its length: the
two writes `indices[k][idx_edges++] = i; indices[k][idx_edges++] = j` append
`i` and `j`. -/
def indexStep (distances : Nat → Nat → ℚ) (min_bins bin_width : ℚ) (bins : List ℚ)
    (nr_bins k : Nat) (written : List Nat) (i j : Nat) : List Nat :=
  if distances i j ≠ 0 then
    if binIndex distances min_bins bin_width bins nr_bins i j = k then written ++ [i, j]
    else written
  else written

/-- What the function exports. -/
structure Histogram where
  min_bins : ℚ
  max_bins : ℚ
  bin_width : ℚ
  bins : List ℚ
  hist : List Nat
  indices : List (List Nat)

/-- Lines 30-149 for a flag `1` or `0`: the first pass for `min_bins` and
`max_bins` (both start at `0.0`), the boundaries, the counting pass on
`hist` (all zero at the start) and, for every bin `k = 0 .. nr_bins`, the index
pass that fills `indices[k]`. -/
def buildHistogram (distances : Nat → Nat → ℚ) (nr_nodes : Nat) (is_symm : Int)
    (nr_bins : Nat) : Histogram :=
  let mm := scanLoop is_symm nr_nodes (minMaxStep distances) ((0 : ℚ), (0 : ℚ))
  let min_bins := mm.1
  let max_bins := mm.2
  let bin_width := (max_bins - min_bins) / (nr_bins : ℚ)
  let bins := makeBins min_bins bin_width nr_bins
  let hist := scanLoop is_symm nr_nodes (histStep distances min_bins bin_width bins nr_bins)
    (List.replicate (nr_bins + 1) 0)
  let indices := (List.range (nr_bins + 1)).map (fun k =>
    scanLoop is_symm nr_nodes (indexStep distances min_bins bin_width bins nr_bins k) [])
  { min_bins := min_bins, max_bins := max_bins, bin_width := bin_width, bins := bins,
    hist := hist, indices := indices }

/-- The function `export_distance_histogram(output_root, distances, nr_nodes,
is_symm, nr_bins)`: the error code `1` for a flag other than `1` and `0`
(line 53), else the exported histogram (and the code `0`). -/
def export_distance_histogram (distances : Nat → Nat → ℚ) (nr_nodes : Nat) (is_symm : Int)
    (nr_bins : Nat) : Except Int Histogram :=
  if is_symm = 1 ∨ is_symm = 0 then
    Except.ok (buildHistogram distances nr_nodes is_symm nr_bins)
  else Except.error 1

/-- The pairs `(source, target)` of a flattened list
`source_1 target_1 source_2 target_2 ...`. -/
def toPairs : List Nat → List (Nat × Nat)
  | a :: b :: rest => (a, b) :: toPairs rest
  | _ => []

/-- The entries visited by the two nested loops, in the order of the visit. -/
def pairsOf : List Nat → (Nat → List Nat) → List (Nat × Nat)
  | [], _ => []
  | i :: rows, cols => (cols i).map (fun j => (i, j)) ++ pairsOf rows cols

/-- The entries that `scanLoop` visits for the flags `1` and `0`. -/
def scanPairs (is_symm : Int) (nr_nodes : Nat) : List (Nat × Nat) :=
  if is_symm = 1 then
    pairsOf (List.range' 0 (nr_nodes - 0)) (fun i => List.range' (i + 1) (nr_nodes - (i + 1)))
  else if is_symm = 0 then
    pairsOf (List.range' 0 (nr_nodes - 0)) (fun _ => List.range' 0 (nr_nodes - 0))
  else []

/-- Row-major order: the row grows, or the row is the same and the column grows. -/
def RowMajorLt (p q : Nat × Nat) : Prop :=
  p.1 < q.1 ∨ (p.1 = q.1 ∧ p.2 < q.2)

/-- The flattened list `source_1 target_1 source_2 target_2 ...` of a list of pairs. -/
def flattenPairs : List (Nat × Nat) → List Nat
  | [] => []
  | p :: ps => p.1 :: p.2 :: flattenPairs ps

/-- The visited entries with a nonzero distance whose bin index is `k`, in the order of the
visit. -/
def placedIn (distances : Nat → Nat → ℚ) (min_bins bin_width : ℚ) (bins : List ℚ)
    (nr_bins : Nat) (k : Nat) (visited : List (Nat × Nat)) : List (Nat × Nat) :=
  visited.filter (fun p => decide (distances p.1 p.2 ≠ 0 ∧
    binIndex distances min_bins bin_width bins nr_bins p.1 p.2 = k))

/-- The distance matrix of the scenario: four nodes, `(0,1) = 1`, `(0,2) = 2`,
`(0,3) = 3`, `(1,2) = 1`, `(1,3) = 2`, `(2,3) = 1`, symmetric, zero diagonal. -/
def scenario (i j : Nat) : ℚ :=
  (([[0, 1, 2, 3], [1, 0, 1, 2], [2, 1, 0, 1], [3, 2, 1, 0]] : List (List ℚ)).getD i []).getD j 0

/-! ## The sampler: `generate_CDR_network` and `generate_EDR_network` (network.c, lines 68-204)

The generator of GSL is a parameter: a type of generator states and the three
calls the sampler makes, each giving the drawn value and the next state. The
arrays `dist_hist` and `dist_indices` hold `int` values; an access outside an
array is a fault. -/

/-- Conversion of an `int` to `size_t`. -/
def toSize (x : Int) : Nat := (x % (SIZE_MOD : Int)).toNat

/-- The calls `gsl_rng_uniform(rng)`, `gsl_rng_uniform_int(rng, n)` and
`gsl_ran_exponential(rng, mu)`. -/
structure Rng (σ : Type) where
  uniform : σ → ℚ × σ
  uniform_int : σ → Nat → Nat × σ
  exponential : σ → ℚ → ℚ × σ

/-- The ranges of the draws: a uniform real lies in `[0, 1)`, a uniform integer
for `n > 0` lies in `[0, n)`. -/
def RngContract {σ : Type} (g : Rng σ) : Prop :=
  (∀ s, 0 ≤ (g.uniform s).1 ∧ (g.uniform s).1 < 1) ∧
    ∀ s n, 0 < n → (g.uniform_int s n).1 < n

/-- An access outside an array (undefined behaviour in C). -/
inductive Fault
  | binsRead (idx : Nat)
  | histRead (idx : Nat)
  | indicesRead (bin pos : Nat)
  | weightsAccess (source target : Nat)
  deriving DecidableEq, Repr

/-- The variables of the sampling loop: the generator, the matrix `weights`
and the counter `count_edges`. -/
structure Sampler (σ : Type) where
  rng : σ
  weights : Nat → Nat → Int
  count_edges : Nat

/-- The distance draw of `generate_CDR_network` (line 93):
`gsl_rng_uniform(rng) * max_dist_bin`. -/
def cdrDraw {σ : Type} (g : Rng σ) (max_dist_bin : ℚ) (s : σ) : ℚ × σ :=
  ((g.uniform s).1 * max_dist_bin, (g.uniform s).2)

/-- The distance draw of `generate_EDR_network` (line 168):
`gsl_ran_exponential(rng, 1.0/lambda)`. -/
def edrDraw {σ : Type} (g : Rng σ) (lambda : ℚ) (s : σ) : ℚ × σ :=
  g.exponential s (1 / lambda)

/-- Lines 102-104 and 178-180: the flip of the direction, the test of the
weight, the two increments. `a` and `b` are the two `int` values read from
`dist_indices`. -/
def insertEdge {σ : Type} (nr_nodes direction : Nat) (a b : Int) (rng : σ) (st : Sampler σ) :
    Except Fault (Sampler σ) :=
  let source := if direction = 1 then toSize b else toSize a
  let target := if direction = 1 then toSize a else toSize b
  if source < nr_nodes ∧ target < nr_nodes then
    Except.ok
      { rng := rng
        weights := fun i j =>
          if i = source ∧ j = target then st.weights i j + 1 else st.weights i j
        count_edges :=
          if st.weights source target = 0 then st.count_edges + 1 else st.count_edges }
  else Except.error (Fault.weightsAccess source target)

/-- Lines 97-101 and 172-177: the draw of `edge_idx` below the count `c` of
the bin, the draw of `direction`, the reads of `dist_indices[bin_idx][2*edge_idx]`
and `dist_indices[bin_idx][2*edge_idx + 1]`. -/
def drawEdge {σ : Type} (g : Rng σ) (nr_nodes : Nat) (dist_indices : List (List Int))
    (bin_idx : Nat) (c : Int) (rng : σ) (st : Sampler σ) : Except Fault (Sampler σ) :=
  let e := g.uniform_int rng (toSize c)
  let dir := g.uniform_int e.2 2
  match dist_indices[bin_idx]? with
  | none => Except.error (Fault.indicesRead bin_idx 0)
  | some row =>
    match row[(2 * e.1) % SIZE_MOD]?, row[sizeAdd ((2 * e.1) % SIZE_MOD) 1]? with
    | some a, some b => insertEdge nr_nodes dir.1 a b dir.2 st
    | _, _ => Except.error (Fault.indicesRead bin_idx ((2 * e.1) % SIZE_MOD))

/-- Lines 95-104 and 170-180 once `binary_search` has returned `r`:
`bin_idx = r` as a `size_t`; `continue` when `bin_idx == -1` or
`dist_hist[bin_idx] == 0`, which leaves the body with only the generator
changed. -/
def afterSearch {σ : Type} (g : Rng σ) (nr_nodes : Nat) (dist_hist : List Int)
    (dist_indices : List (List Int)) (r : Int) (rng : σ) (st : Sampler σ) :
    Except Fault (Sampler σ) :=
  let bin_idx := toSize r
  if bin_idx = toSize (-1) then Except.ok { st with rng := rng }
  else
    match dist_hist[bin_idx]? with
    | none => Except.error (Fault.histRead bin_idx)
    | some c =>
      if c = 0 then Except.ok { st with rng := rng }
      else drawEdge g nr_nodes dist_indices bin_idx c rng st

/-- Lines 95-104 and 170-180 on what the call of `binary_search` has done:
a read outside `dist_bins` is a fault, a returned value goes on. -/
def onSearch {σ : Type} (g : Rng σ) (nr_nodes : Nat) (dist_hist : List Int)
    (dist_indices : List (List Int)) (found : Option Outcome) (rng : σ) (st : Sampler σ) :
    Option (Except Fault (Sampler σ)) :=
  match found with
  | none => none
  | some (Outcome.outOfBounds idx) => some (Except.error (Fault.binsRead idx))
  | some (Outcome.returned r) => some (afterSearch g nr_nodes dist_hist dist_indices r rng st)

/-- One run of the body of the `do ... while` loop (lines 92-104 and 167-180):
the distance draw, the search, then the rest. The call of `binary_search` on
`nr_bins + 1` boundaries gets the fuel `2 + nr_bins`, which suffices
(`binary_search_terminates`). -/
def sampleStep {σ : Type} (g : Rng σ) (draw : σ → ℚ × σ) (nr_nodes nr_bins : Nat)
    (dist_bins : List ℚ) (dist_hist : List Int) (dist_indices : List (List Int))
    (bin_width : ℚ) (st : Sampler σ) : Option (Except Fault (Sampler σ)) :=
  onSearch g nr_nodes dist_hist dist_indices
    (binary_search (2 + nr_bins) dist_bins (sizeAdd nr_bins 1) bin_width (draw st.rng).1)
    (draw st.rng).2 st

/-- The loop `do { body } while (count_edges < nr_edges)`; one unit of fuel
per run of the body. -/
def sampleLoop {σ : Type} (g : Rng σ) (draw : σ → ℚ × σ) (nr_nodes nr_edges nr_bins : Nat)
    (dist_bins : List ℚ) (dist_hist : List Int) (dist_indices : List (List Int))
    (bin_width : ℚ) : Nat → Sampler σ → Option (Except Fault (Sampler σ))
  | 0, _ => none
  | fuel + 1, st =>
    match sampleStep g draw nr_nodes nr_bins dist_bins dist_hist dist_indices bin_width st with
    | none => none
    | some (Except.error f) => some (Except.error f)
    | some (Except.ok st1) =>
      if st1.count_edges < nr_edges then
        sampleLoop g draw nr_nodes nr_edges nr_bins dist_bins dist_hist dist_indices bin_width
          fuel st1
      else some (Except.ok st1)

/-- The body run `k` times, whatever the loop condition. -/
def sampleIterate {σ : Type} (g : Rng σ) (draw : σ → ℚ × σ) (nr_nodes nr_bins : Nat)
    (dist_bins : List ℚ) (dist_hist : List Int) (dist_indices : List (List Int))
    (bin_width : ℚ) : Nat → Sampler σ → Option (Except Fault (Sampler σ))
  | 0, st => some (Except.ok st)
  | k + 1, st =>
    match sampleStep g draw nr_nodes nr_bins dist_bins dist_hist dist_indices bin_width st with
    | none => none
    | some (Except.error f) => some (Except.error f)
    | some (Except.ok st1) =>
      sampleIterate g draw nr_nodes nr_bins dist_bins dist_hist dist_indices bin_width k st1

/-- The variables at the start of the loop: `weights` all zero (lines 79-87),
`count_edges = 0`. -/
def initialSampler {σ : Type} (rng : σ) : Sampler σ :=
  { rng := rng, weights := fun _ _ => 0, count_edges := 0 }

/-- The export loop (lines 111-120 and 187-196): the lines `source target
weight` in the order in which they are printed. -/
def edgeList (nr_nodes : Nat) (weights : Nat → Nat → Int) : List (Nat × Nat × Int) :=
  forLoop 0 nr_nodes (fun out i =>
    forLoop 0 nr_nodes (fun out2 j =>
      if weights i j ≠ 0 then out2 ++ [(i, j, weights i j)] else out2) out) []

/-- What a call of `generate_CDR_network` or `generate_EDR_network` returns,
and the edge list it has written when it has opened the output file. -/
structure Generated where
  code : Int
  edge_list : Option (List (Nat × Nat × Int))

/-- The part common to the two functions after the reads of `dist_bins`:
allocation of `weights` (a failure returns `1`), the loop, the opening of the
output file (a failure returns `1`), the export, `return 0`. -/
def generateWith {σ : Type} (g : Rng σ) (draw : σ → ℚ × σ) (fuel : Nat)
    (alloc_ok output_ok : Bool) (nr_nodes nr_edges nr_bins : Nat) (dist_bins : List ℚ)
    (dist_hist : List Int) (dist_indices : List (List Int)) (bin_width : ℚ) (rng : σ) :
    Option (Except Fault Generated) :=
  if alloc_ok = false then some (Except.ok { code := 1, edge_list := none })
  else
    match sampleLoop g draw nr_nodes nr_edges nr_bins dist_bins dist_hist dist_indices
        bin_width fuel (initialSampler rng) with
    | none => none
    | some (Except.error f) => some (Except.error f)
    | some (Except.ok st) =>
      if output_ok = false then some (Except.ok { code := 1, edge_list := none })
      else some (Except.ok { code := 0, edge_list := some (edgeList nr_nodes st.weights) })

/-- The function `generate_CDR_network`: `bin_width = dist_bins[1] - dist_bins[0]`,
`max_dist_bin = dist_bins[nr_bins]`, then the common part with the uniform
distance draw. -/
def generate_CDR_network {σ : Type} (g : Rng σ) (fuel : Nat) (alloc_ok output_ok : Bool)
    (nr_nodes nr_edges nr_bins : Nat) (dist_bins : List ℚ) (dist_hist : List Int)
    (dist_indices : List (List Int)) (rng : σ) : Option (Except Fault Generated) :=
  match dist_bins[1]? with
  | none => some (Except.error (Fault.binsRead 1))
  | some b1 =>
    match dist_bins[0]? with
    | none => some (Except.error (Fault.binsRead 0))
    | some b0 =>
      match dist_bins[nr_bins]? with
      | none => some (Except.error (Fault.binsRead nr_bins))
      | some max_dist_bin =>
        generateWith g (cdrDraw g max_dist_bin) fuel alloc_ok output_ok nr_nodes nr_edges
          nr_bins dist_bins dist_hist dist_indices (b1 - b0) rng

/-- The function `generate_EDR_network`: `bin_width = dist_bins[1] - dist_bins[0]`,
then the common part with the exponential distance draw of mean `1.0/lambda`. -/
def generate_EDR_network {σ : Type} (g : Rng σ) (fuel : Nat) (alloc_ok output_ok : Bool)
    (nr_nodes nr_edges nr_bins : Nat) (dist_bins : List ℚ) (dist_hist : List Int)
    (dist_indices : List (List Int)) (rng : σ) (lambda : ℚ) :
    Option (Except Fault Generated) :=
  match dist_bins[1]? with
  | none => some (Except.error (Fault.binsRead 1))
  | some b1 =>
    match dist_bins[0]? with
    | none => some (Except.error (Fault.binsRead 0))
    | some b0 =>
      generateWith g (edrDraw g lambda) fuel alloc_ok output_ok nr_nodes nr_edges nr_bins
        dist_bins dist_hist dist_indices (b1 - b0) rng

/-! ## The network-generation command (generate_network.c) -/

/-- The function `check_input_args` on the `size_t` counts, on whether the
three histogram files can be opened, and on the decay parameter: `1` for the
first check that fails, else `0`. -/
def check_input_args (NR_NODES NR_EDGES : Nat) (bins_openable hist_openable idx_openable : Bool)
    (LAMBDA : ℚ) : Int :=
  if NR_NODES ≤ 0 then 1
  else if NR_EDGES ≤ 0 then 1
  else if bins_openable = false then 1
  else if hist_openable = false then 1
  else if idx_openable = false then 1
  else if LAMBDA < 0 then 1
  else 0

/-- The command line after parsing: `argc`, `atoi(argv[1])`, `atoi(argv[2])`
and `strtof(argv[6], NULL)`. -/
structure Arguments where
  argc : Nat
  nr_nodes : Int
  nr_edges : Int
  lambda : ℚ

/-- What the command finds outside: whether the three histogram files can be
opened, what `read_distance_histogram` loads (`none` when it fails), whether
`weights` can be allocated and whether the output file can be opened. -/
structure Environment where
  bins_openable : Bool
  hist_openable : Bool
  idx_openable : Bool
  histogram : Option (List ℚ × List Int × List (List Int))
  alloc_ok : Bool
  output_openable : Bool

/-- How the command ends: its exit status, whether it has printed the line
`> SUCCESS ...`, and what the call of the generator has returned when it was
made. -/
structure Exit where
  status : Int
  success_reported : Bool
  generated : Option Generated

/-- Lines 62-70 of `main`: the value returned by the generator is not looked
at, the success line is printed and the status is `0`. -/
def finish (r : Option (Except Fault Generated)) : Option (Except Fault Exit) :=
  match r with
  | none => none
  | some (Except.error f) => some (Except.error f)
  | some (Except.ok gen) =>
    some (Except.ok { status := 0, success_reported := true, generated := some gen })

/-- The function `main` of generate_network.c, from the parsed command line,
the environment and the seeded generator. -/
def generate_network_main {σ : Type} (g : Rng σ) (fuel : Nat) (args : Arguments)
    (env : Environment) (rng : σ) : Option (Except Fault Exit) :=
  if args.argc < 8 then
    some (Except.ok { status := 1, success_reported := false, generated := none })
  else
    let NR_NODES := toSize args.nr_nodes
    let NR_EDGES := toSize args.nr_edges
    if check_input_args NR_NODES NR_EDGES env.bins_openable env.hist_openable env.idx_openable
        args.lambda ≠ 0 then
      some (Except.ok { status := 1, success_reported := false, generated := none })
    else
      match env.histogram with
      | none => some (Except.ok { status := 1, success_reported := false, generated := none })
      | some (distance_bins, distance_hist, distance_indices) =>
        if args.lambda = 0 then
          finish (generate_CDR_network g fuel env.alloc_ok env.output_openable NR_NODES NR_EDGES
            20 distance_bins distance_hist distance_indices rng)
        else
          finish (generate_EDR_network g fuel env.alloc_ok env.output_openable NR_NODES NR_EDGES
            20 distance_bins distance_hist distance_indices rng args.lambda)

/-- A generator that replays a list of raw values, one per call. -/
def scriptRng : Rng (List Nat) :=
  { uniform := fun s => (((s.headD 0 % 1000 : Nat) : ℚ) / 1000, s.tail)
    uniform_int := fun s n => (s.headD 0 % n, s.tail)
    exponential := fun s mu => (((s.headD 0 : Nat) : ℚ) / 1000 * mu, s.tail) }

/-- The ordered pairs `(source, target)` below `nr_nodes` with a nonzero weight. -/
def nonzeroWeights (nr_nodes : Nat) (weights : Nat → Nat → Int) : Finset (Nat × Nat) :=
  (Finset.range nr_nodes ×ˢ Finset.range nr_nodes).filter (fun p => weights p.1 p.2 ≠ 0)

/-- The pairs `(source, target)` stored in the bins with a nonzero count: for every `k` with
`dist_hist[k] != 0`, the pairs of the flattened list `dist_indices[k]`. -/
def storedPairs : List Int → List (List Int) → List (Nat × Nat)
  | c :: cs, row :: rows =>
    (if c ≠ 0 then toPairs (row.map toSize) else []) ++ storedPairs cs rows
  | _, _ => []

/-- The invariant of the sampling loop: weights are nonnegative; a nonzero weight sits at a pair
below `nr_nodes` that is stored, in one direction or the other, in a bin with a nonzero count;
`count_edges` is the number of pairs with a nonzero weight. -/
def SamplerInv {σ : Type} (nr_nodes : Nat) (dist_hist : List Int)
    (dist_indices : List (List Int)) (st : Sampler σ) : Prop :=
  (∀ i j, 0 ≤ st.weights i j) ∧
  (∀ i j, st.weights i j ≠ 0 → i < nr_nodes ∧ j < nr_nodes ∧
    ((i, j) ∈ storedPairs dist_hist dist_indices ∨
      (j, i) ∈ storedPairs dist_hist dist_indices)) ∧
  st.count_edges = (nonzeroWeights nr_nodes st.weights).card

/-- The boundaries of the histogram of the scenario. -/
def scenarioBins : List ℚ := [0, 1, 2, 3]

/-- The counts of the histogram of the scenario. -/
def scenarioHist : List Int := [0, 3, 3, 0]

/-- The index lists of the histogram of the scenario. -/
def scenarioIndices : List (List Int) := [[], [0, 1, 1, 2, 2, 3], [0, 2, 0, 3, 1, 3], []]

/-! ## The search with a record of its probes -/

/-- The loop of `binary_search` (lines 31-50) together with a record of its run: for every
execution of the loop body, the index `middle` that is read and whether the body goes on to
execute `upper = middle - 1`. The second component is what the loop does, as in `searchLoop`. -/
def searchTrace (bins : List ℚ) (bin_width value : ℚ) :
    Nat → Nat → Nat → Option (List (Nat × Bool) × Outcome)
  | 0, _, _ => none
  | fuel + 1, lower, upper =>
    if lower ≤ upper then
      let middle := sizeAdd lower (sizeSub upper lower / 2)
      match bins[middle]? with
      | none => some ([(middle, false)], Outcome.outOfBounds middle)
      | some lower_bin =>
        let upper_bin := lower_bin + bin_width
        if lower_bin < value ∧ value ≤ upper_bin then
          some ([(middle, false)], Outcome.returned (middle : Int))
        else if value ≤ lower_bin then
          match searchTrace bins bin_width value fuel lower (sizeSub middle 1) with
          | none => none
          | some t => some ((middle, true) :: t.1, t.2)
        else
          match searchTrace bins bin_width value fuel (sizeAdd middle 1) upper with
          | none => none
          | some t => some ((middle, false) :: t.1, t.2)
    else some ([], Outcome.returned (-1))

/-! ## `read_distance_matrix` (distance.c, lines 200-221) -/

/-- The loop `while (fscanf(fp, "%ld %ld %lf", &source, &target, &distance) == 3)` on the
records of the file, in their order: a record with an index outside `[0, nr_nodes)` makes the
function return `1`, any other record is written at `distances[source][target]`. -/
def readRecords (nr_nodes : Nat) :
    List (Nat × Nat × ℚ) → (Nat → Nat → ℚ) → Except Int (Nat → Nat → ℚ)
  | [], distances => Except.ok distances
  | (source, target, distance) :: rest, distances =>
    if source < 0 ∨ source ≥ nr_nodes then Except.error 1
    else if target < 0 ∨ target ≥ nr_nodes then Except.error 1
    else
      readRecords nr_nodes rest
        (fun i j => if i = source ∧ j = target then distance else distances i j)

/-- The function `read_distance_matrix(matrix_path, distances, nr_nodes)`: the rows are
allocated with `malloc` and nothing is written to them before the loop, so the matrix starts
as whatever the allocated memory holds (`memory`, taken to hold numbers); a failed allocation
or a file that cannot be opened returns `1`. -/
def read_distance_matrix (alloc_ok open_ok : Bool) (memory : Nat → Nat → ℚ)
    (records : List (Nat × Nat × ℚ)) (nr_nodes : Nat) : Except Int (Nat → Nat → ℚ) :=
  if alloc_ok = false then Except.error 1
  else if open_ok = false then Except.error 1
  else readRecords nr_nodes records memory

/-! ## The builder in double arithmetic (distance.c, lines 59-79)

The definitions above compute in exact arithmetic. The code computes the width, the boundaries
and the bin index in `double`, each operation rounding its result. The definitions below take
the rounding `fl` of one operation as a parameter: `fl = id` gives the exact definitions back,
`fl = roundDouble` is the arithmetic of the code. -/

/-- Rounding of a rational to the nearest integer, a tie going to the even one. -/
def roundHalfEven (q : ℚ) : Int :=
  if q - (⌊q⌋ : ℚ) < 1 / 2 then ⌊q⌋
  else if 1 / 2 < q - (⌊q⌋ : ℚ) then ⌊q⌋ + 1
  else if ⌊q⌋ % 2 = 0 then ⌊q⌋
  else ⌊q⌋ + 1

/-- The exponent of the unit in the last place of a `double` of the size of `q`: 53
significant bits, and `-1074` for the subnormal values. -/
def ulpExponent (q : ℚ) : Int := max (Int.log 2 |q| - 52) (-1074)

/-- The `double` that an operation with the exact result `q` returns (IEEE 754 binary64, round
to nearest, ties to even). Results of magnitude `2 ^ 1024` and more, which overflow, are outside
the model. -/
def roundDouble (q : ℚ) : ℚ :=
  (roundHalfEven (q / 2 ^ ulpExponent q) : ℚ) * 2 ^ ulpExponent q

/-- The array `bins` (lines 60-63) with the product and the sum of
`bins[i] = min_bins + i*bin_width` rounded. -/
def makeBinsFl (fl : ℚ → ℚ) (min_bins bin_width : ℚ) (nr_bins : Nat) : List ℚ :=
  (List.range (nr_bins + 1)).map (fun (i : Nat) => fl (min_bins + fl ((i : ℚ) * bin_width)))

/-- The bin index of the entry `(i, j)` (lines 78-79) with the difference and the quotient of
`floor((distances[i][j] - min_bins)/bin_width)` rounded; the test
`distances[i][j] == bins[nr_bins]` compares two stored values. -/
def binIndexFl (fl : ℚ → ℚ) (distances : Nat → Nat → ℚ) (min_bins bin_width : ℚ)
    (bins : List ℚ) (nr_bins i j : Nat) : Nat :=
  let idx_bins := Int.toNat ⌊fl (fl (distances i j - min_bins) / bin_width)⌋
  if distances i j = bins.getD nr_bins 0 then sizeSub idx_bins 1 else idx_bins

/-- Body of the counting pass (lines 76-81 and 91-96) in the arithmetic `fl`. -/
def histStepFl (fl : ℚ → ℚ) (distances : Nat → Nat → ℚ) (min_bins bin_width : ℚ)
    (bins : List ℚ) (nr_bins : Nat) (hist : List Nat) (i j : Nat) : List Nat :=
  if distances i j ≠ 0 then
    incrAt hist (binIndexFl fl distances min_bins bin_width bins nr_bins i j)
  else hist

/-- Body of the index pass for bin `k` (lines 117-126 and 136-145) in the arithmetic `fl`. -/
def indexStepFl (fl : ℚ → ℚ) (distances : Nat → Nat → ℚ) (min_bins bin_width : ℚ)
    (bins : List ℚ) (nr_bins k : Nat) (written : List Nat) (i j : Nat) : List Nat :=
  if distances i j ≠ 0 then
    if binIndexFl fl distances min_bins bin_width bins nr_bins i j = k then written ++ [i, j]
    else written
  else written

/-- Lines 30-149 for a flag `1` or `0` in the arithmetic `fl`: the first pass compares stored
values only; `bin_width = (max_bins - min_bins)/nr_bins` rounds the difference and the
quotient. -/
def buildHistogramFl (fl : ℚ → ℚ) (distances : Nat → Nat → ℚ) (nr_nodes : Nat)
    (is_symm : Int) (nr_bins : Nat) : Histogram :=
  let mm := scanLoop is_symm nr_nodes (minMaxStep distances) ((0 : ℚ), (0 : ℚ))
  let min_bins := mm.1
  let max_bins := mm.2
  let bin_width := fl (fl (max_bins - min_bins) / (nr_bins : ℚ))
  let bins := makeBinsFl fl min_bins bin_width nr_bins
  let hist := scanLoop is_symm nr_nodes
    (histStepFl fl distances min_bins bin_width bins nr_bins) (List.replicate (nr_bins + 1) 0)
  let indices := (List.range (nr_bins + 1)).map (fun k =>
    scanLoop is_symm nr_nodes (indexStepFl fl distances min_bins bin_width bins nr_bins k) [])
  { min_bins := min_bins, max_bins := max_bins, bin_width := bin_width, bins := bins,
    hist := hist, indices := indices }

/-- The function `export_distance_histogram` in the arithmetic `fl`. -/
def export_distance_histogram_fl (fl : ℚ → ℚ) (distances : Nat → Nat → ℚ) (nr_nodes : Nat)
    (is_symm : Int) (nr_bins : Nat) : Except Int Histogram :=
  if is_symm = 1 ∨ is_symm = 0 then
    Except.ok (buildHistogramFl fl distances nr_nodes is_symm nr_bins)
  else Except.error 1

/-- Two nodes at the distance `0.9`, as a `double`: `8106479329266893 / 2 ^ 53`. -/
def pointNine (i j : Nat) : ℚ :=
  if (i = 0 ∧ j = 1) ∨ (i = 1 ∧ j = 0) then 8106479329266893 / 9007199254740992 else 0

/-- Two nodes at the distance `9`. -/
def nineApart (i j : Nat) : ℚ :=
  if (i = 0 ∧ j = 1) ∨ (i = 1 ∧ j = 0) then 9 else 0

theorem sizeSub_of_le {a b : Nat} (hb : b ≤ a) (ha : a < 2 ^ 64) : sizeSub a b = a - b := by
  have hb2 : b % 2 ^ 64 = b := Nat.mod_eq_of_lt (by omega)
  unfold sizeSub SIZE_MOD
  rw [hb2]
  have : a + 2 ^ 64 - b = (a - b) + 2 ^ 64 := by omega
  rw [this, Nat.add_mod_right]
  exact Nat.mod_eq_of_lt (by omega)

theorem sizeAdd_of_lt {a b : Nat} (h : a + b < 2 ^ 64) : sizeAdd a b = a + b := by
  unfold sizeAdd SIZE_MOD
  exact Nat.mod_eq_of_lt h

theorem sizeSub_zero_one : sizeSub 0 1 = 2 ^ 64 - 1 := by
  unfold sizeSub SIZE_MOD
  norm_num

theorem middle_eq {lower upper : Nat} (h : lower ≤ upper) (hu : upper < 2 ^ 64) :
    sizeAdd lower (sizeSub upper lower / 2) = lower + (upper - lower) / 2 := by
  rw [sizeSub_of_le h hu]
  exact sizeAdd_of_lt (by omega)

/-! ## The search loop -/

theorem getD_of_getElem? {bins : List ℚ} {k : Nat} {b : ℚ} (h : bins[k]? = some b) :
    bins.getD k 0 = b := by
  simp [List.getD, h]

theorem getElem?_getD {bins : List ℚ} {k : Nat} (h : k < bins.length) :
    bins[k]? = some (bins.getD k 0) := by
  simp [List.getD, List.getElem?_eq_getElem h]

theorem bin_index_le {w b0 v : ℚ} (hw : 0 < w) {i m : Nat}
    (h1 : b0 + (i : ℚ) * w < v) (h2 : v ≤ b0 + (m : ℚ) * w + w) : i ≤ m := by
  by_contra hcon
  have hlt : m + 1 ≤ i := by omega
  have hq : ((m : ℚ) + 1) ≤ (i : ℚ) := by exact_mod_cast hlt
  have := mul_le_mul_of_nonneg_right hq (le_of_lt hw)
  linarith

theorem bin_index_lt {w b0 v : ℚ} (hw : 0 < w) {i m : Nat}
    (h1 : b0 + (m : ℚ) * w + w < v) (h2 : v ≤ b0 + (i : ℚ) * w + w) : m < i := by
  by_contra hcon
  have hq : (i : ℚ) ≤ (m : ℚ) := by exact_mod_cast (not_lt.mp hcon)
  have := mul_le_mul_of_nonneg_right hq (le_of_lt hw)
  linarith

/-- One unfolding of the loop when the probe is inside the array. -/
theorem searchLoop_step (bins : List ℚ) (w v : ℚ) (fuel lower upper : Nat) (b : ℚ)
    (hle : lower ≤ upper) (hu : upper < 2 ^ 64)
    (hb : bins[lower + (upper - lower) / 2]? = some b) :
    searchLoop bins w v (fuel + 1) lower upper =
      if b < v ∧ v ≤ b + w then some (Outcome.returned ((lower + (upper - lower) / 2 : Nat) : Int))
      else if v ≤ b then searchLoop bins w v fuel lower (sizeSub (lower + (upper - lower) / 2) 1)
      else searchLoop bins w v fuel (sizeAdd (lower + (upper - lower) / 2) 1) upper := by
  rw [searchLoop, if_pos hle]
  simp only [middle_eq hle hu, hb]

theorem searchLoop_complete (bins : List ℚ) (w v : ℚ) (i : Nat) (hw : 0 < w)
    (huni : UniformBins bins w) (hlen : bins.length < 2 ^ 64) (hin : InBin bins w v i) :
    ∀ fuel lower upper, lower ≤ i → i ≤ upper → upper < bins.length → upper - lower < fuel →
      searchLoop bins w v fuel lower upper = some (Outcome.returned (i : Int)) := by
  obtain ⟨bi, hbi, hlo, hhi⟩ := hin
  have hilen : i < bins.length := by
    by_contra hcon
    rw [List.getElem?_eq_none (by omega)] at hbi
    exact absurd hbi (by simp)
  have hbi2 := huni i hilen
  rw [hbi] at hbi2
  have hbieq : bi = bins.headD 0 + (i : ℚ) * w := by simpa using hbi2
  subst hbieq
  intro fuel
  induction fuel with
  | zero => intro lower upper _ _ _ hf; omega
  | succ fuel ih =>
    intro lower upper hl hup hulen hf
    have hm : lower + (upper - lower) / 2 < bins.length := by omega
    rw [searchLoop_step bins w v fuel lower upper _ (by omega) (by omega) (huni _ hm)]
    split_ifs with h1 h2
    · have a1 := bin_index_le hw hlo h1.2
      have a2 := bin_index_le hw h1.1 hhi
      have : lower + (upper - lower) / 2 = i := by omega
      rw [this]
    · have hlt : i < lower + (upper - lower) / 2 := by
        by_contra hcon
        have hq : ((lower + (upper - lower) / 2 : Nat) : ℚ) ≤ (i : ℚ) := by
          exact_mod_cast (not_lt.mp hcon)
        have := mul_le_mul_of_nonneg_right hq (le_of_lt hw)
        linarith
      rw [sizeSub_of_le (by omega) (by omega)]
      exact ih lower _ hl (by omega) (by omega) (by omega)
    · have hlt : lower + (upper - lower) / 2 < i := by
        have hv : bins.headD 0 + ((lower + (upper - lower) / 2 : Nat) : ℚ) * w + w < v := by
          by_contra hcon
          exact h1 ⟨not_le.mp h2, not_lt.mp hcon⟩
        exact bin_index_lt hw hv hhi
      rw [sizeAdd_of_lt (by omega)]
      exact ih _ upper (by omega) hup hulen (by omega)

theorem searchLoop_sound (bins : List ℚ) (w v : ℚ) :
    ∀ fuel lower upper r, searchLoop bins w v fuel lower upper = some (Outcome.returned r) →
      r = -1 ∨ ∃ m : Nat, r = (m : Int) ∧ InBin bins w v m := by
  intro fuel
  induction fuel with
  | zero => intro lower upper r h; simp [searchLoop] at h
  | succ fuel ih =>
    intro lower upper r h
    rw [searchLoop] at h
    split_ifs at h with hle
    · cases hb : bins[sizeAdd lower (sizeSub upper lower / 2)]? with
      | none => simp [hb] at h
      | some b =>
        simp only [hb] at h
        split_ifs at h with h1 h2
        · right
          refine ⟨sizeAdd lower (sizeSub upper lower / 2), ?_, b, hb, h1.1, h1.2⟩
          simpa using h.symm
        · exact ih _ _ _ h
        · exact ih _ _ _ h
    · left
      simpa using h.symm

theorem searchLoop_above (bins : List ℚ) (w v : ℚ) (hasc : Ascending bins)
    (hn : 1 ≤ bins.length) (hlen : bins.length < 2 ^ 64) (hw : 0 ≤ w)
    (hv : bins.getD (bins.length - 1) 0 + w < v) :
    ∀ fuel lower, lower ≤ bins.length → bins.length - lower < fuel →
      searchLoop bins w v fuel lower (bins.length - 1) = some (Outcome.returned (-1)) := by
  intro fuel
  induction fuel with
  | zero => intro lower _ hf; omega
  | succ fuel ih =>
    intro lower hl hf
    by_cases hle : lower ≤ bins.length - 1
    · have hm : lower + (bins.length - 1 - lower) / 2 < bins.length := by omega
      have hb := getElem?_getD hm
      have hmono := hasc (lower + (bins.length - 1 - lower) / 2) (bins.length - 1)
        (by omega) (by omega)
      rw [searchLoop_step bins w v fuel lower _ _ hle (by omega) hb]
      rw [if_neg (by rintro ⟨_, h2⟩; linarith), if_neg (by intro h2; linarith)]
      rw [sizeAdd_of_lt (by omega)]
      exact ih _ (by omega) (by omega)
    · rw [searchLoop, if_neg hle]

theorem searchLoop_below (bins : List ℚ) (w v : ℚ)
    (hlen : bins.length < 2 ^ 63) (hv : ∀ k, k < bins.length → v ≤ bins.getD k 0) :
    ∀ fuel upper, upper < bins.length → upper + 2 ≤ fuel →
      searchLoop bins w v fuel 0 upper = some (Outcome.outOfBounds (2 ^ 63 - 1)) := by
  intro fuel
  induction fuel with
  | zero => intro upper _ hf; omega
  | succ fuel ih =>
    intro upper hu hf
    have hm : 0 + (upper - 0) / 2 < bins.length := by omega
    have hb := getElem?_getD hm
    have hvm := hv _ hm
    rw [searchLoop_step bins w v fuel 0 upper _ (by omega) (by omega) hb]
    rw [if_neg (by rintro ⟨h1, _⟩; linarith), if_pos hvm]
    by_cases hz : 0 + (upper - 0) / 2 = 0
    · rw [hz, sizeSub_zero_one]
      obtain ⟨fuel, rfl⟩ : ∃ f, fuel = f + 1 := ⟨fuel - 1, by omega⟩
      rw [searchLoop, if_pos (Nat.zero_le _)]
      have hmid : sizeAdd 0 (sizeSub (2 ^ 64 - 1) 0 / 2) = 2 ^ 63 - 1 := by
        rw [middle_eq (Nat.zero_le _) (by norm_num)]
        norm_num
      have hnone : bins[2 ^ 63 - 1]? = none := List.getElem?_eq_none (by omega)
      simp only [hmid, hnone]
    · rw [sizeSub_of_le (by omega) (by omega)]
      exact ih _ (by omega) (by omega)

/-! ## Claims on `binary_search` -/

/-- C1. Completeness of `binary_search`: on a uniformly spaced array (`bins[k] = bins[0] + k * w`,
`w > 0`) a value `v` with `bins[i] < v <= bins[i] + w` makes the search return exactly `i`, with
fuel for `n` probes, and `i` is the only index of the array with that property. -/
theorem binary_search_complete (bins : List ℚ) (w v : ℚ) (i fuel : Nat)
    (hsz : bins.length < 2 ^ 64) (hw : 0 < w) (huni : UniformBins bins w)
    (hin : InBin bins w v i) (hfuel : bins.length ≤ fuel) :
    binary_search fuel bins bins.length w v = some (Outcome.returned (i : Int)) ∧
      ∀ j, InBin bins w v j → j = i := by
  have hilen : i < bins.length := by
    obtain ⟨b, hb, _⟩ := hin
    by_contra hcon
    rw [List.getElem?_eq_none (by omega)] at hb
    exact absurd hb (by simp)
  constructor
  · unfold binary_search
    rw [sizeSub_of_le (by omega) hsz]
    exact searchLoop_complete bins w v i hw huni hsz hin fuel 0 _ (Nat.zero_le _)
      (by omega) (by omega) (by omega)
  · intro j hj
    obtain ⟨bi, hbi, hlo, hhi⟩ := hin
    obtain ⟨bj, hbj, hloj, hhij⟩ := hj
    have hjlen : j < bins.length := by
      by_contra hcon
      rw [List.getElem?_eq_none (by omega)] at hbj
      exact absurd hbj (by simp)
    have e1 := huni i hilen
    have e2 := huni j hjlen
    rw [hbi] at e1
    rw [hbj] at e2
    have e1' : bi = bins.headD 0 + (i : ℚ) * w := by simpa using e1
    have e2' : bj = bins.headD 0 + (j : ℚ) * w := by simpa using e2
    subst e1' e2'
    have a1 := bin_index_le hw hlo hhij
    have a2 := bin_index_le hw hloj hhi
    omega

/-- C2. Below the first boundary the search does not return the sentinel: on an ascending array
of length `1 <= n < 2 ^ 63` and a value `v <= bins[0]`, the update `upper = middle - 1` at
`middle = 0` wraps to `2 ^ 64 - 1`, the loop goes on and reads `bins[2 ^ 63 - 1]` outside the
array. -/
theorem binary_search_below_first (bins : List ℚ) (w v : ℚ) (fuel : Nat)
    (hn : 1 ≤ bins.length) (hsz : bins.length < 2 ^ 63) (hasc : Ascending bins)
    (hv : v ≤ bins.getD 0 0) (hfuel : bins.length < fuel) :
    binary_search fuel bins bins.length w v = some (Outcome.outOfBounds (2 ^ 63 - 1)) := by
  unfold binary_search
  rw [sizeSub_of_le hn (by omega)]
  exact searchLoop_below bins w v hsz
    (fun k hk => le_trans hv (hasc 0 k (Nat.zero_le _) hk)) fuel _ (by omega) (by omega)

/-- C3. Above the last bin the search returns the sentinel: on an ascending array of length
`n >= 1`, with a width `w >= 0` and a value `v > bins[n-1] + w`, `binary_search` returns `-1`. -/
theorem binary_search_above_last (bins : List ℚ) (w v : ℚ) (fuel : Nat)
    (hn : 1 ≤ bins.length) (hsz : bins.length < 2 ^ 64) (hasc : Ascending bins)
    (hw : 0 ≤ w) (hv : bins.getD (bins.length - 1) 0 + w < v) (hfuel : bins.length < fuel) :
    binary_search fuel bins bins.length w v = some (Outcome.returned (-1)) := by
  unfold binary_search
  rw [sizeSub_of_le hn hsz]
  exact searchLoop_above bins w v hasc hn hsz hw hv fuel 0 (Nat.zero_le _) (by omega)

/-- C4. Soundness of `binary_search`: on any array (sorted or not), any width and any value, a
returned value `r` other than `-1` is an index of the array, `0 <= r < n`, and the value lies in
that bin: `bins[r] < v <= bins[r] + w`. -/
theorem binary_search_sound (bins : List ℚ) (w v : ℚ) (fuel : Nat) (r : Int)
    (hret : binary_search fuel bins bins.length w v = some (Outcome.returned r))
    (hr : r ≠ -1) :
    0 ≤ r ∧ r < (bins.length : Int) ∧ InBin bins w v r.toNat := by
  rcases searchLoop_sound bins w v fuel _ _ r hret with h | ⟨m, hm, hin⟩
  · exact absurd h hr
  · subst hm
    have hmlen : m < bins.length := by
      obtain ⟨b, hb, _⟩ := hin
      by_contra hcon
      rw [List.getElem?_eq_none (by omega)] at hb
      exact absurd hb (by simp)
    refine ⟨Int.natCast_nonneg m, by exact_mod_cast hmlen, ?_⟩
    simpa using hin

theorem uniform_example : UniformBins [0, 1, 2, 3] 1 := by
  intro k hk
  have hk4 : k < 4 := hk
  interval_cases k <;> norm_num

theorem ascending_example : Ascending [0, 1, 2, 3] := by
  intro j k hjk hk
  have hk4 : k < 4 := hk
  interval_cases k <;> interval_cases j <;> norm_num [List.getD]

theorem binary_search_complete_witness :
    binary_search 4 [0, 1, 2, 3] 4 1 (5 / 2) = some (Outcome.returned 2) :=
  (binary_search_complete [0, 1, 2, 3] 1 (5 / 2) 2 4 (by norm_num) (by norm_num)
    uniform_example ⟨2, by norm_num, by norm_num, by norm_num⟩ (by norm_num)).1

theorem binary_search_below_first_witness :
    binary_search 2 [0] 1 1 0 = some (Outcome.outOfBounds 9223372036854775807) :=
  binary_search_below_first [0] 1 0 2 (by norm_num) (by norm_num)
    (by intro j k hjk hk; have hk1 : k < 1 := hk; interval_cases k; interval_cases j; norm_num)
    (by norm_num) (by norm_num)

theorem binary_search_above_last_witness :
    binary_search 5 [0, 1, 2, 3] 4 1 5 = some (Outcome.returned (-1)) :=
  binary_search_above_last [0, 1, 2, 3] 1 5 5 (by norm_num) (by norm_num)
    ascending_example (by norm_num) (by norm_num [List.getD]) (by norm_num)

theorem binary_search_sound_witness :
    0 ≤ (2 : Int) ∧ (2 : Int) < (([0, 1, 2, 3] : List ℚ).length : Int) ∧
      InBin [0, 1, 2, 3] 1 (5 / 2) (2 : Int).toNat :=
  binary_search_sound [0, 1, 2, 3] 1 (5 / 2) 4 2
    (by norm_num [binary_search, searchLoop, sizeSub, sizeAdd, SIZE_MOD]) (by norm_num)

/-! ## The nested loops as one fold over the visited entries -/

theorem foldl_pairsOf {σ : Type} (body : σ → Nat → Nat → σ) (cols : Nat → List Nat) :
    ∀ (rows : List Nat) (init : σ),
      rows.foldl (fun s i => (cols i).foldl (fun t j => body t i j) s) init =
        (pairsOf rows cols).foldl (fun s p => body s p.1 p.2) init := by
  intro rows
  induction rows with
  | nil => intro init; rfl
  | cons i rows ih =>
    intro init
    rw [List.foldl_cons, ih, pairsOf, List.foldl_append, List.foldl_map]

theorem scanLoop_eq_foldl {σ : Type} (is_symm : Int) (nr_nodes : Nat)
    (body : σ → Nat → Nat → σ) (init : σ) :
    scanLoop is_symm nr_nodes body init =
      (scanPairs is_symm nr_nodes).foldl (fun s p => body s p.1 p.2) init := by
  unfold scanLoop scanPairs forLoop
  split_ifs
  · exact foldl_pairsOf body _ _ init
  · exact foldl_pairsOf body _ _ init
  · rfl

theorem mem_pairsOf (cols : Nat → List Nat) (p : Nat × Nat) :
    ∀ rows : List Nat, p ∈ pairsOf rows cols ↔ p.1 ∈ rows ∧ p.2 ∈ cols p.1 := by
  intro rows
  induction rows with
  | nil => simp [pairsOf]
  | cons i rows ih =>
    rw [pairsOf, List.mem_append, ih, List.mem_map, List.mem_cons]
    constructor
    · rintro (⟨j, hj, rfl⟩ | ⟨h1, h2⟩)
      · exact ⟨Or.inl rfl, hj⟩
      · exact ⟨Or.inr h1, h2⟩
    · rintro ⟨h1 | h1, h2⟩
      · left
        refine ⟨p.2, ?_, ?_⟩
        · rw [← h1]; exact h2
        · rw [← h1]
      · exact Or.inr ⟨h1, h2⟩

theorem pairwise_pairsOf (cols : Nat → List Nat) (hcols : ∀ i, (cols i).Pairwise (· < ·)) :
    ∀ rows : List Nat, rows.Pairwise (· < ·) → (pairsOf rows cols).Pairwise RowMajorLt := by
  intro rows
  induction rows with
  | nil => intro _; simp [pairsOf]
  | cons i rows ih =>
    intro hrows
    rw [List.pairwise_cons] at hrows
    rw [pairsOf, List.pairwise_append]
    refine ⟨?_, ih hrows.2, ?_⟩
    · rw [List.pairwise_map]
      exact (hcols i).imp (fun h => Or.inr ⟨rfl, h⟩)
    · intro p hp q hq
      rw [List.mem_map] at hp
      obtain ⟨j, _, rfl⟩ := hp
      rw [mem_pairsOf] at hq
      exact Or.inl (hrows.1 _ hq.1)

theorem mem_scanPairs_symm (nr_nodes : Nat) (p : Nat × Nat) :
    p ∈ scanPairs 1 nr_nodes ↔ p.1 < p.2 ∧ p.2 < nr_nodes := by
  unfold scanPairs
  rw [if_pos rfl, mem_pairsOf]
  simp only [List.mem_range'_1]
  omega

theorem mem_scanPairs_asymm (nr_nodes : Nat) (p : Nat × Nat) :
    p ∈ scanPairs 0 nr_nodes ↔ p.1 < nr_nodes ∧ p.2 < nr_nodes := by
  unfold scanPairs
  rw [if_neg (by decide), if_pos rfl, mem_pairsOf]
  simp only [List.mem_range'_1]
  omega

theorem pairwise_scanPairs (is_symm : Int) (nr_nodes : Nat) :
    (scanPairs is_symm nr_nodes).Pairwise RowMajorLt := by
  have hr : ∀ a b : Nat, (List.range' a b).Pairwise (· < ·) := fun a b =>
    List.pairwise_lt_range' a b
  unfold scanPairs
  split_ifs
  · exact pairwise_pairsOf _ (fun i => hr _ _) _ (hr _ _)
  · exact pairwise_pairsOf _ (fun _ => hr _ _) _ (hr _ _)
  · exact List.Pairwise.nil

theorem minMaxStep_bounds (distances : Nat → Nat → ℚ) (acc : ℚ × ℚ) (i j : Nat) :
    (minMaxStep distances acc i j).1 ≤ acc.1 ∧ (minMaxStep distances acc i j).1 ≤ distances i j ∧
      acc.2 ≤ (minMaxStep distances acc i j).2 ∧
      distances i j ≤ (minMaxStep distances acc i j).2 := by
  unfold minMaxStep
  dsimp only
  refine ⟨?_, ?_, ?_, ?_⟩ <;> split_ifs <;> linarith

theorem minMax_foldl (distances : Nat → Nat → ℚ) :
    ∀ (l : List (Nat × Nat)) (acc : ℚ × ℚ),
      (l.foldl (fun s p => minMaxStep distances s p.1 p.2) acc).1 ≤ acc.1 ∧
      acc.2 ≤ (l.foldl (fun s p => minMaxStep distances s p.1 p.2) acc).2 ∧
      ∀ p ∈ l, (l.foldl (fun s p => minMaxStep distances s p.1 p.2) acc).1 ≤ distances p.1 p.2 ∧
        distances p.1 p.2 ≤ (l.foldl (fun s p => minMaxStep distances s p.1 p.2) acc).2 := by
  intro l
  induction l with
  | nil => intro acc; simp
  | cons q l ih =>
    intro acc
    rw [List.foldl_cons]
    obtain ⟨h1, h2, h3, h4⟩ := minMaxStep_bounds distances acc q.1 q.2
    obtain ⟨i1, i2, i3⟩ := ih (minMaxStep distances acc q.1 q.2)
    refine ⟨le_trans i1 h1, le_trans h3 i2, ?_⟩
    intro p hp
    rw [List.mem_cons] at hp
    rcases hp with rfl | hp
    · exact ⟨le_trans i1 h2, le_trans h4 i2⟩
    · exact i3 p hp

theorem minMax_foldl_min_zero (distances : Nat → Nat → ℚ) :
    ∀ (l : List (Nat × Nat)) (acc : ℚ × ℚ), (∀ p ∈ l, 0 ≤ distances p.1 p.2) → acc.1 = 0 →
      (l.foldl (fun s p => minMaxStep distances s p.1 p.2) acc).1 = 0 := by
  intro l
  induction l with
  | nil => intro acc _ h; exact h
  | cons q l ih =>
    intro acc hall hacc
    rw [List.foldl_cons]
    apply ih _ (fun p hp => hall p (List.mem_cons_of_mem _ hp))
    unfold minMaxStep
    dsimp only
    rw [hacc, if_neg (not_lt.mpr (hall q (List.mem_cons_self _ _)))]

theorem incrAt_length : ∀ (h : List Nat) (k : Nat), (incrAt h k).length = h.length := by
  intro h
  induction h with
  | nil => intro k; rfl
  | cons c cs ih =>
    intro k
    cases k with
    | zero => rfl
    | succ k => simp [incrAt, ih]

theorem incrAt_sum : ∀ (h : List Nat) (k : Nat),
    (incrAt h k).sum = h.sum + if k < h.length then 1 else 0 := by
  intro h
  induction h with
  | nil => intro k; simp [incrAt]
  | cons c cs ih =>
    intro k
    cases k with
    | zero => simp [incrAt]; omega
    | succ k =>
      simp only [incrAt, List.sum_cons, ih, List.length_cons, Nat.add_lt_add_iff_right]
      omega

theorem incrAt_getD : ∀ (h : List Nat) (k j : Nat),
    (incrAt h k).getD j 0 = h.getD j 0 + if j = k ∧ k < h.length then 1 else 0 := by
  intro h
  induction h with
  | nil => intro k j; simp [incrAt]
  | cons c cs ih =>
    intro k j
    cases k with
    | zero =>
      cases j with
      | zero => simp [incrAt]
      | succ j => simp [incrAt]
    | succ k =>
      cases j with
      | zero => simp [incrAt]
      | succ j =>
        simp only [incrAt, List.getD_cons_succ, ih, List.length_cons, Nat.add_lt_add_iff_right,
          Nat.add_right_cancel_iff]

theorem hist_foldl (distances : Nat → Nat → ℚ) (min_bins bin_width : ℚ) (bins : List ℚ)
    (nr_bins : Nat) :
    ∀ (l : List (Nat × Nat)) (h0 : List Nat),
      (l.foldl (fun h p => histStep distances min_bins bin_width bins nr_bins h p.1 p.2)
        h0).length = h0.length ∧
      (∀ k, k < h0.length →
        (l.foldl (fun h p => histStep distances min_bins bin_width bins nr_bins h p.1 p.2)
          h0).getD k 0 =
          h0.getD k 0 + (placedIn distances min_bins bin_width bins nr_bins k l).length) ∧
      ((∀ p ∈ l, distances p.1 p.2 ≠ 0 →
          binIndex distances min_bins bin_width bins nr_bins p.1 p.2 < h0.length) →
        (l.foldl (fun h p => histStep distances min_bins bin_width bins nr_bins h p.1 p.2)
          h0).sum = h0.sum + (l.filter (fun p => decide (distances p.1 p.2 ≠ 0))).length) := by
  intro l
  induction l with
  | nil => intro h0; simp [placedIn]
  | cons q l ih =>
    intro h0
    rw [List.foldl_cons]
    obtain ⟨i1, i2, i3⟩ := ih (histStep distances min_bins bin_width bins nr_bins h0 q.1 q.2)
    by_cases hq : distances q.1 q.2 ≠ 0
    · have hs : histStep distances min_bins bin_width bins nr_bins h0 q.1 q.2 =
          incrAt h0 (binIndex distances min_bins bin_width bins nr_bins q.1 q.2) := by
        unfold histStep; rw [if_pos hq]
      rw [hs] at i1 i2 i3 ⊢
      rw [incrAt_length] at i1 i2 i3
      refine ⟨i1, ?_, ?_⟩
      · intro k hk
        rw [i2 k hk, incrAt_getD]
        unfold placedIn
        rw [List.filter_cons]
        by_cases hkq : binIndex distances min_bins bin_width bins nr_bins q.1 q.2 = k
        · have hlt : binIndex distances min_bins bin_width bins nr_bins q.1 q.2 < h0.length := by
            rw [hkq]; exact hk
          simp [hq, hkq, hk]
          omega
        · have hkq2 : ¬ k = binIndex distances min_bins bin_width bins nr_bins q.1 q.2 :=
            fun h => hkq h.symm
          simp [hkq, hkq2]
      · intro hall
        have hlt := hall q (List.mem_cons_self _ _) hq
        rw [i3 (fun p hp => hall p (List.mem_cons_of_mem _ hp)), incrAt_sum, if_pos hlt,
          List.filter_cons]
        simp [hq]
        omega
    · have hs : histStep distances min_bins bin_width bins nr_bins h0 q.1 q.2 = h0 := by
        unfold histStep; rw [if_neg hq]
      rw [hs] at i1 i2 i3 ⊢
      refine ⟨i1, ?_, ?_⟩
      · intro k hk
        rw [i2 k hk]
        unfold placedIn
        rw [List.filter_cons]
        simp [hq]
      · intro hall
        rw [i3 (fun p hp => hall p (List.mem_cons_of_mem _ hp)), List.filter_cons]
        simp [hq]

theorem index_foldl (distances : Nat → Nat → ℚ) (min_bins bin_width : ℚ) (bins : List ℚ)
    (nr_bins k : Nat) :
    ∀ (l : List (Nat × Nat)) (written : List Nat),
      l.foldl (fun w p => indexStep distances min_bins bin_width bins nr_bins k w p.1 p.2)
        written =
        written ++ flattenPairs (placedIn distances min_bins bin_width bins nr_bins k l) := by
  intro l
  induction l with
  | nil => intro written; simp [placedIn, flattenPairs]
  | cons q l ih =>
    intro written
    rw [List.foldl_cons, ih]
    unfold indexStep placedIn
    rw [List.filter_cons]
    by_cases hq : distances q.1 q.2 ≠ 0
    · by_cases hkq : binIndex distances min_bins bin_width bins nr_bins q.1 q.2 = k
      · simp [hq, hkq, flattenPairs]
      · simp [hq, hkq]
    · simp [hq]

theorem flattenPairs_length : ∀ l : List (Nat × Nat), (flattenPairs l).length = 2 * l.length := by
  intro l
  induction l with
  | nil => rfl
  | cons p ps ih => simp only [flattenPairs, List.length_cons, ih]; omega

theorem toPairs_flattenPairs : ∀ l : List (Nat × Nat), toPairs (flattenPairs l) = l := by
  intro l
  induction l with
  | nil => rfl
  | cons p ps ih => simp only [flattenPairs, toPairs, ih]

/-! ## The boundaries and the bin index -/

theorem makeBins_length (m w : ℚ) (nb : Nat) : (makeBins m w nb).length = nb + 1 := by
  simp [makeBins]

theorem makeBins_getElem? (m w : ℚ) (nb k : Nat) (hk : k ≤ nb) :
    (makeBins m w nb)[k]? = some (m + (k : ℚ) * w) := by
  unfold makeBins
  rw [List.getElem?_map, List.getElem?_range (by omega)]
  rfl

theorem makeBins_getD (m w : ℚ) (nb k : Nat) (hk : k ≤ nb) :
    (makeBins m w nb).getD k 0 = m + (k : ℚ) * w :=
  getD_of_getElem? (makeBins_getElem? m w nb k hk)

theorem width_pos {m M : ℚ} {nb : Nat} (hnb : 1 ≤ nb) (hmM : m < M) :
    0 < (M - m) / (nb : ℚ) := by
  have hq : (0 : ℚ) < (nb : ℚ) := by exact_mod_cast hnb
  exact div_pos (by linarith) hq

theorem width_mul {m M : ℚ} {nb : Nat} (hnb : 1 ≤ nb) :
    (nb : ℚ) * ((M - m) / (nb : ℚ)) = M - m := by
  have hq : (nb : ℚ) ≠ 0 := by
    have : (0 : ℚ) < (nb : ℚ) := by exact_mod_cast hnb
    exact ne_of_gt this
  field_simp

theorem makeBins_top {m M : ℚ} {nb : Nat} (hnb : 1 ≤ nb) :
    (makeBins m ((M - m) / (nb : ℚ)) nb).getD nb 0 = M := by
  rw [makeBins_getD m _ nb nb (le_refl _), width_mul hnb]
  ring

/-- The bin index of an entry with `min_bins <= d <= max_bins`, for `min_bins < max_bins`. -/
theorem binIndex_spec (distances : Nat → Nat → ℚ) (m M w : ℚ) (nb i j : Nat)
    (hnb : 1 ≤ nb) (hsz : nb < 2 ^ 64) (hmM : m < M) (hw : w = (M - m) / (nb : ℚ))
    (hmd : m ≤ distances i j) (hdM : distances i j ≤ M) :
    binIndex distances m w (makeBins m w nb) nb i j < nb ∧
    m + (binIndex distances m w (makeBins m w nb) nb i j : ℚ) * w ≤ distances i j ∧
    (distances i j < m + (binIndex distances m w (makeBins m w nb) nb i j : ℚ) * w + w ∨
      (distances i j = m + (binIndex distances m w (makeBins m w nb) nb i j : ℚ) * w + w ∧
        distances i j = M ∧ binIndex distances m w (makeBins m w nb) nb i j = nb - 1)) ∧
    (distances i j = M → binIndex distances m w (makeBins m w nb) nb i j = nb - 1) ∧
    (⌊(distances i j - m) / w⌋ = (nb : Int) ↔ distances i j = M) := by
  have hwpos : 0 < w := by rw [hw]; exact width_pos hnb hmM
  have hmul : (nb : ℚ) * w = M - m := by rw [hw]; exact width_mul hnb
  have htop : (makeBins m w nb).getD nb 0 = M := by rw [hw]; exact makeBins_top hnb
  have hx0 : 0 ≤ (distances i j - m) / w := div_nonneg (by linarith) (le_of_lt hwpos)
  have hfl0 : 0 ≤ ⌊(distances i j - m) / w⌋ := Int.floor_nonneg.mpr hx0
  have hfle : (⌊(distances i j - m) / w⌋ : ℚ) ≤ (distances i j - m) / w := Int.floor_le _
  have hflt : (distances i j - m) / w < (⌊(distances i j - m) / w⌋ : ℚ) + 1 :=
    Int.lt_floor_add_one _
  have hcast : ((Int.toNat ⌊(distances i j - m) / w⌋ : Nat) : ℚ) =
      (⌊(distances i j - m) / w⌋ : ℚ) := by
    have : ((Int.toNat ⌊(distances i j - m) / w⌋ : Nat) : Int) = ⌊(distances i j - m) / w⌋ :=
      Int.toNat_of_nonneg hfl0
    exact_mod_cast this
  have hlo : (⌊(distances i j - m) / w⌋ : ℚ) * w ≤ distances i j - m :=
    (le_div_iff₀ hwpos).mp hfle
  have hhi : distances i j - m < ((⌊(distances i j - m) / w⌋ : ℚ) + 1) * w :=
    (div_lt_iff₀ hwpos).mp hflt
  have hiff : ⌊(distances i j - m) / w⌋ = (nb : Int) ↔ distances i j = M := by
    constructor
    · intro h
      have hq : (⌊(distances i j - m) / w⌋ : ℚ) = (nb : ℚ) := by exact_mod_cast h
      rw [hq] at hlo
      linarith
    · intro h
      have hx : (distances i j - m) / w = ((nb : Int) : ℚ) := by
        rw [h, ← hmul]
        field_simp
      rw [hx, Int.floor_intCast]
  have hbi : binIndex distances m w (makeBins m w nb) nb i j =
      if distances i j = M then nb - 1 else Int.toNat ⌊(distances i j - m) / w⌋ := by
    unfold binIndex
    dsimp only
    rw [htop]
    split_ifs with hd
    · rw [hiff.mpr hd, Int.toNat_ofNat, sizeSub_of_le hnb hsz]
    · rfl
  rw [hbi]
  by_cases hd : distances i j = M
  · rw [if_pos hd]
    have hc : ((nb - 1 : Nat) : ℚ) = (nb : ℚ) - 1 := by
      rw [Nat.cast_sub hnb]; simp
    refine ⟨by omega, ?_, Or.inr ⟨?_, hd, rfl⟩, fun _ => rfl, hiff⟩
    · rw [hc]; linarith
    · rw [hc]; linarith
  · rw [if_neg hd, hcast]
    have hdlt : distances i j < M := lt_of_le_of_ne hdM hd
    have hlt : Int.toNat ⌊(distances i j - m) / w⌋ < nb := by
      have h1 : (⌊(distances i j - m) / w⌋ : ℚ) * w < (nb : ℚ) * w := by linarith
      have h2 : (⌊(distances i j - m) / w⌋ : ℚ) < (nb : ℚ) :=
        lt_of_mul_lt_mul_right h1 (le_of_lt hwpos)
      have h3 : ⌊(distances i j - m) / w⌋ < (nb : Int) := by exact_mod_cast h2
      omega
    refine ⟨hlt, by linarith, Or.inl (by linarith), fun h => absurd h hd, hiff⟩

/-! ## The exported histogram -/

theorem export_ok (distances : Nat → Nat → ℚ) (nr_nodes nr_bins : Nat) (is_symm : Int)
    (hflag : is_symm = 1 ∨ is_symm = 0) :
    export_distance_histogram distances nr_nodes is_symm nr_bins =
      Except.ok (buildHistogram distances nr_nodes is_symm nr_bins) := by
  unfold export_distance_histogram
  rw [if_pos hflag]

theorem build_bounds (distances : Nat → Nat → ℚ) (nr_nodes nr_bins : Nat) (is_symm : Int) :
    (buildHistogram distances nr_nodes is_symm nr_bins).min_bins ≤ 0 ∧
    0 ≤ (buildHistogram distances nr_nodes is_symm nr_bins).max_bins ∧
    ∀ p ∈ scanPairs is_symm nr_nodes,
      (buildHistogram distances nr_nodes is_symm nr_bins).min_bins ≤ distances p.1 p.2 ∧
      distances p.1 p.2 ≤ (buildHistogram distances nr_nodes is_symm nr_bins).max_bins := by
  have h := minMax_foldl distances (scanPairs is_symm nr_nodes) ((0 : ℚ), (0 : ℚ))
  rw [← scanLoop_eq_foldl is_symm nr_nodes (minMaxStep distances)] at h
  exact h

theorem build_min_zero (distances : Nat → Nat → ℚ) (nr_nodes nr_bins : Nat) (is_symm : Int)
    (hall : ∀ p ∈ scanPairs is_symm nr_nodes, 0 ≤ distances p.1 p.2) :
    (buildHistogram distances nr_nodes is_symm nr_bins).min_bins = 0 := by
  have h := minMax_foldl_min_zero distances (scanPairs is_symm nr_nodes) ((0 : ℚ), (0 : ℚ))
    hall rfl
  rw [← scanLoop_eq_foldl is_symm nr_nodes (minMaxStep distances)] at h
  exact h

theorem build_bins (distances : Nat → Nat → ℚ) (nr_nodes nr_bins : Nat) (is_symm : Int) :
    (buildHistogram distances nr_nodes is_symm nr_bins).bins =
      makeBins (buildHistogram distances nr_nodes is_symm nr_bins).min_bins
        (buildHistogram distances nr_nodes is_symm nr_bins).bin_width nr_bins := rfl

theorem build_bin_width (distances : Nat → Nat → ℚ) (nr_nodes nr_bins : Nat) (is_symm : Int) :
    (buildHistogram distances nr_nodes is_symm nr_bins).bin_width =
      ((buildHistogram distances nr_nodes is_symm nr_bins).max_bins -
        (buildHistogram distances nr_nodes is_symm nr_bins).min_bins) / (nr_bins : ℚ) := rfl

theorem build_hist_eq (distances : Nat → Nat → ℚ) (nr_nodes nr_bins : Nat) (is_symm : Int) :
    (buildHistogram distances nr_nodes is_symm nr_bins).hist =
      (scanPairs is_symm nr_nodes).foldl
        (fun h p => histStep distances
          (buildHistogram distances nr_nodes is_symm nr_bins).min_bins
          (buildHistogram distances nr_nodes is_symm nr_bins).bin_width
          (buildHistogram distances nr_nodes is_symm nr_bins).bins nr_bins h p.1 p.2)
        (List.replicate (nr_bins + 1) 0) := by
  rw [← scanLoop_eq_foldl is_symm nr_nodes]
  rfl

theorem build_hist_getD (distances : Nat → Nat → ℚ) (nr_nodes nr_bins : Nat) (is_symm : Int)
    (k : Nat) (hk : k ≤ nr_bins) :
    (buildHistogram distances nr_nodes is_symm nr_bins).hist.getD k 0 =
      (placedIn distances (buildHistogram distances nr_nodes is_symm nr_bins).min_bins
        (buildHistogram distances nr_nodes is_symm nr_bins).bin_width
        (buildHistogram distances nr_nodes is_symm nr_bins).bins nr_bins k
        (scanPairs is_symm nr_nodes)).length := by
  rw [build_hist_eq, (hist_foldl distances _ _ _ nr_bins _ _).2.1 k
    (by rw [List.length_replicate]; omega)]
  have hz : (List.replicate (nr_bins + 1) 0).getD k 0 = 0 := by
    rw [List.getD_eq_getElem?_getD, List.getElem?_replicate, if_pos (by omega)]
    rfl
  rw [hz, Nat.zero_add]

theorem build_indices_getD (distances : Nat → Nat → ℚ) (nr_nodes nr_bins : Nat) (is_symm : Int)
    (k : Nat) (hk : k ≤ nr_bins) :
    (buildHistogram distances nr_nodes is_symm nr_bins).indices.getD k [] =
      flattenPairs (placedIn distances (buildHistogram distances nr_nodes is_symm nr_bins).min_bins
        (buildHistogram distances nr_nodes is_symm nr_bins).bin_width
        (buildHistogram distances nr_nodes is_symm nr_bins).bins nr_bins k
        (scanPairs is_symm nr_nodes)) := by
  have h : (buildHistogram distances nr_nodes is_symm nr_bins).indices =
      (List.range (nr_bins + 1)).map (fun k =>
        scanLoop is_symm nr_nodes (indexStep distances
          (buildHistogram distances nr_nodes is_symm nr_bins).min_bins
          (buildHistogram distances nr_nodes is_symm nr_bins).bin_width
          (buildHistogram distances nr_nodes is_symm nr_bins).bins nr_bins k) []) := rfl
  rw [h, List.getD_eq_getElem?_getD, List.getElem?_map, List.getElem?_range (by omega)]
  simp only [Option.map_some', Option.getD_some]
  rw [scanLoop_eq_foldl, index_foldl, List.nil_append]

/-- A visited entry with a nonzero distance separates `min_bins` from `max_bins`. -/
theorem build_range (distances : Nat → Nat → ℚ) (nr_nodes nr_bins : Nat) (is_symm : Int)
    (p : Nat × Nat)
    (hp : p ∈ scanPairs is_symm nr_nodes) (hd : distances p.1 p.2 ≠ 0) :
    (buildHistogram distances nr_nodes is_symm nr_bins).min_bins <
      (buildHistogram distances nr_nodes is_symm nr_bins).max_bins ∧
    (buildHistogram distances nr_nodes is_symm nr_bins).min_bins ≤ distances p.1 p.2 ∧
    distances p.1 p.2 ≤ (buildHistogram distances nr_nodes is_symm nr_bins).max_bins := by
  obtain ⟨h1, h2, h3⟩ := build_bounds distances nr_nodes nr_bins is_symm
  obtain ⟨h4, h5⟩ := h3 p hp
  refine ⟨?_, h4, h5⟩
  rcases lt_or_gt_of_ne hd with h | h
  · linarith
  · linarith

/-- The bin index that the built histogram gives a visited entry when `min_bins < max_bins`. -/
theorem build_binIndex (distances : Nat → Nat → ℚ) (nr_nodes nr_bins : Nat) (is_symm : Int)
    (hnb : 1 ≤ nr_bins) (hsz : nr_bins < 2 ^ 64) (p : Nat × Nat)
    (hp : p ∈ scanPairs is_symm nr_nodes)
    (hlt : (buildHistogram distances nr_nodes is_symm nr_bins).min_bins <
      (buildHistogram distances nr_nodes is_symm nr_bins).max_bins) :
    binIndex distances (buildHistogram distances nr_nodes is_symm nr_bins).min_bins
      (buildHistogram distances nr_nodes is_symm nr_bins).bin_width
      (buildHistogram distances nr_nodes is_symm nr_bins).bins nr_bins p.1 p.2 < nr_bins ∧
    (buildHistogram distances nr_nodes is_symm nr_bins).min_bins +
      (binIndex distances (buildHistogram distances nr_nodes is_symm nr_bins).min_bins
        (buildHistogram distances nr_nodes is_symm nr_bins).bin_width
        (buildHistogram distances nr_nodes is_symm nr_bins).bins nr_bins p.1 p.2 : ℚ) *
        (buildHistogram distances nr_nodes is_symm nr_bins).bin_width ≤ distances p.1 p.2 ∧
    (distances p.1 p.2 < (buildHistogram distances nr_nodes is_symm nr_bins).min_bins +
      (binIndex distances (buildHistogram distances nr_nodes is_symm nr_bins).min_bins
        (buildHistogram distances nr_nodes is_symm nr_bins).bin_width
        (buildHistogram distances nr_nodes is_symm nr_bins).bins nr_bins p.1 p.2 : ℚ) *
        (buildHistogram distances nr_nodes is_symm nr_bins).bin_width +
        (buildHistogram distances nr_nodes is_symm nr_bins).bin_width ∨
      (distances p.1 p.2 = (buildHistogram distances nr_nodes is_symm nr_bins).min_bins +
        (binIndex distances (buildHistogram distances nr_nodes is_symm nr_bins).min_bins
          (buildHistogram distances nr_nodes is_symm nr_bins).bin_width
          (buildHistogram distances nr_nodes is_symm nr_bins).bins nr_bins p.1 p.2 : ℚ) *
          (buildHistogram distances nr_nodes is_symm nr_bins).bin_width +
          (buildHistogram distances nr_nodes is_symm nr_bins).bin_width ∧
        distances p.1 p.2 = (buildHistogram distances nr_nodes is_symm nr_bins).max_bins ∧
        binIndex distances (buildHistogram distances nr_nodes is_symm nr_bins).min_bins
          (buildHistogram distances nr_nodes is_symm nr_bins).bin_width
          (buildHistogram distances nr_nodes is_symm nr_bins).bins nr_bins p.1 p.2 =
          nr_bins - 1)) ∧
    (distances p.1 p.2 = (buildHistogram distances nr_nodes is_symm nr_bins).max_bins →
      binIndex distances (buildHistogram distances nr_nodes is_symm nr_bins).min_bins
        (buildHistogram distances nr_nodes is_symm nr_bins).bin_width
        (buildHistogram distances nr_nodes is_symm nr_bins).bins nr_bins p.1 p.2 =
        nr_bins - 1) ∧
    (⌊(distances p.1 p.2 - (buildHistogram distances nr_nodes is_symm nr_bins).min_bins) /
        (buildHistogram distances nr_nodes is_symm nr_bins).bin_width⌋ = (nr_bins : Int) ↔
      distances p.1 p.2 = (buildHistogram distances nr_nodes is_symm nr_bins).max_bins) := by
  obtain ⟨_, _, h3⟩ := build_bounds distances nr_nodes nr_bins is_symm
  rw [build_bins]
  exact binIndex_spec distances _ _ _ nr_bins p.1 p.2 hnb hsz hlt
    (build_bin_width distances nr_nodes nr_bins is_symm) (h3 p hp).1 (h3 p hp).2

/-- C6. Consistency of counts and index lists: for `nr_bins >= 1`, a flag `1` or `0`, any matrix
and every `k <= nr_bins`, the index pass writes exactly `2 * hist[k]` integers into
`indices[k]`. -/
theorem index_count_consistency (distances : Nat → Nat → ℚ) (nr_nodes nr_bins : Nat)
    (is_symm : Int) (k : Nat) (hflag : is_symm = 1 ∨ is_symm = 0) (_hnb : 1 ≤ nr_bins)
    (hk : k ≤ nr_bins) :
    ∃ h, export_distance_histogram distances nr_nodes is_symm nr_bins = Except.ok h ∧
      (h.indices.getD k []).length = 2 * h.hist.getD k 0 := by
  refine ⟨_, export_ok distances nr_nodes nr_bins is_symm hflag, ?_⟩
  rw [build_indices_getD distances nr_nodes nr_bins is_symm k hk,
    build_hist_getD distances nr_nodes nr_bins is_symm k hk, flattenPairs_length]

/-- C8. Content and order of the inverted index: for `nr_bins >= 1`, a flag `1` or `0`, any
matrix and every `k <= nr_bins`, `indices[k]` is the flattened list of the visited entries with a nonzero distance
and bin index `k`, in the order of the visit, which is row-major (rows ascending, columns ascending
within a row) over `row < col < nr_nodes` for the flag `1` and over all `row, col < nr_nodes` for
the flag `0`; no stored pair has distance `0`, and for the flag `1` every stored pair has
`source < target`. -/
theorem inverted_index_content (distances : Nat → Nat → ℚ) (nr_nodes nr_bins : Nat)
    (is_symm : Int) (k : Nat) (hflag : is_symm = 1 ∨ is_symm = 0) (_hnb : 1 ≤ nr_bins)
    (hk : k ≤ nr_bins) :
    ∃ h, export_distance_histogram distances nr_nodes is_symm nr_bins = Except.ok h ∧
      h.indices.getD k [] = flattenPairs (toPairs (h.indices.getD k [])) ∧
      toPairs (h.indices.getD k []) =
        (scanPairs is_symm nr_nodes).filter (fun p => decide (distances p.1 p.2 ≠ 0 ∧
          binIndex distances h.min_bins h.bin_width h.bins nr_bins p.1 p.2 = k)) ∧
      (∀ p, p ∈ scanPairs is_symm nr_nodes ↔
        (if is_symm = 1 then p.1 < p.2 else p.1 < nr_nodes) ∧ p.2 < nr_nodes) ∧
      (scanPairs is_symm nr_nodes).Pairwise RowMajorLt ∧
      (toPairs (h.indices.getD k [])).Pairwise RowMajorLt ∧
      ∀ p ∈ toPairs (h.indices.getD k []),
        distances p.1 p.2 ≠ 0 ∧ (is_symm = 1 → p.1 < p.2) := by
  refine ⟨_, export_ok distances nr_nodes nr_bins is_symm hflag, ?_⟩
  have hmem : ∀ p, p ∈ scanPairs is_symm nr_nodes ↔
      (if is_symm = 1 then p.1 < p.2 else p.1 < nr_nodes) ∧ p.2 < nr_nodes := by
    intro p
    rcases hflag with h | h
    · subst h; rw [mem_scanPairs_symm, if_pos rfl]
    · subst h; rw [mem_scanPairs_asymm, if_neg (by decide)]
  rw [build_indices_getD distances nr_nodes nr_bins is_symm k hk, toPairs_flattenPairs]
  refine ⟨rfl, rfl, hmem, pairwise_scanPairs is_symm nr_nodes, ?_, ?_⟩
  · exact (pairwise_scanPairs is_symm nr_nodes).sublist (List.filter_sublist _)
  · intro p hp
    unfold placedIn at hp
    rw [List.mem_filter, decide_eq_true_eq] at hp
    refine ⟨hp.2.1, ?_⟩
    intro hs
    have := (hmem p).mp hp.1
    rw [if_pos hs] at this
    exact this.1

/-! ## The scenario of four nodes -/

theorem scanLoop_scenario {σ : Type} (body : σ → Nat → Nat → σ) (init : σ) :
    scanLoop 1 4 body init =
      body (body (body (body (body (body init 0 1) 0 2) 0 3) 1 2) 1 3) 2 3 := rfl

theorem scenario_values :
    scenario 0 1 = 1 ∧ scenario 0 2 = 2 ∧ scenario 0 3 = 3 ∧ scenario 1 2 = 1 ∧
      scenario 1 3 = 2 ∧ scenario 2 3 = 1 :=
  ⟨rfl, rfl, rfl, rfl, rfl, rfl⟩

theorem binIndex_of_nat (distances : Nat → Nat → ℚ) (m w : ℚ) (bins : List ℚ)
    (nb i j z : Nat) (hz : (distances i j - m) / w = (z : ℚ)) :
    binIndex distances m w bins nb i j =
      if distances i j = bins.getD nb 0 then sizeSub z 1 else z := by
  unfold binIndex
  dsimp only
  rw [hz, Int.floor_natCast, Int.toNat_ofNat]

theorem scenario_binIndex :
    binIndex scenario 0 1 [0, 1, 2, 3] 3 0 1 = 1 ∧ binIndex scenario 0 1 [0, 1, 2, 3] 3 0 2 = 2 ∧
    binIndex scenario 0 1 [0, 1, 2, 3] 3 0 3 = 2 ∧ binIndex scenario 0 1 [0, 1, 2, 3] 3 1 2 = 1 ∧
    binIndex scenario 0 1 [0, 1, 2, 3] 3 1 3 = 2 ∧ binIndex scenario 0 1 [0, 1, 2, 3] 3 2 3 = 1 := by
  obtain ⟨h01, h02, h03, h12, h13, h23⟩ := scenario_values
  have htop : ([0, 1, 2, 3] : List ℚ).getD 3 0 = 3 := rfl
  refine ⟨?_, ?_, ?_, ?_, ?_, ?_⟩
  · rw [binIndex_of_nat scenario 0 1 _ 3 0 1 1 (by rw [h01]; norm_num), h01, htop,
      if_neg (by norm_num)]
  · rw [binIndex_of_nat scenario 0 1 _ 3 0 2 2 (by rw [h02]; norm_num), h02, htop,
      if_neg (by norm_num)]
  · rw [binIndex_of_nat scenario 0 1 _ 3 0 3 3 (by rw [h03]; norm_num), h03, htop,
      if_pos rfl, sizeSub_of_le (by norm_num) (by norm_num)]
  · rw [binIndex_of_nat scenario 0 1 _ 3 1 2 1 (by rw [h12]; norm_num), h12, htop,
      if_neg (by norm_num)]
  · rw [binIndex_of_nat scenario 0 1 _ 3 1 3 2 (by rw [h13]; norm_num), h13, htop,
      if_neg (by norm_num)]
  · rw [binIndex_of_nat scenario 0 1 _ 3 2 3 1 (by rw [h23]; norm_num), h23, htop,
      if_neg (by norm_num)]

theorem scenario_build : buildHistogram scenario 4 1 3 =
    { min_bins := 0, max_bins := 3, bin_width := 1, bins := [0, 1, 2, 3], hist := [0, 3, 3, 0],
      indices := [[], [0, 1, 1, 2, 2, 3], [0, 2, 0, 3, 1, 3], []] } := by
  obtain ⟨h01, h02, h03, h12, h13, h23⟩ := scenario_values
  obtain ⟨b01, b02, b03, b12, b13, b23⟩ := scenario_binIndex
  have hmm : scanLoop 1 4 (minMaxStep scenario) ((0 : ℚ), (0 : ℚ)) = (0, 3) := by
    rw [scanLoop_scenario]
    simp only [minMaxStep, h01, h02, h03, h12, h13, h23]
    norm_num
  have hw : ((3 : ℚ) - 0) / ((3 : Nat) : ℚ) = 1 := by norm_num
  have hbins : makeBins 0 1 3 = [0, 1, 2, 3] := by
    simp only [makeBins, List.range, List.range.loop, List.map]
    norm_num
  have hhist : scanLoop 1 4 (histStep scenario 0 1 [0, 1, 2, 3] 3) (List.replicate (3 + 1) 0) =
      [0, 3, 3, 0] := by
    rw [scanLoop_scenario]
    simp only [histStep, h01, h02, h03, h12, h13, h23, b01, b02, b03, b12, b13, b23]
    rw [if_pos (by norm_num), if_pos (by norm_num), if_pos (by norm_num)]
    rfl
  have hidx0 : scanLoop 1 4 (indexStep scenario 0 1 [0, 1, 2, 3] 3 0) [] = [] := by
    rw [scanLoop_scenario]
    simp only [indexStep, h01, h02, h03, h12, h13, h23, b01, b02, b03, b12, b13, b23]
    norm_num
  have hidx1 : scanLoop 1 4 (indexStep scenario 0 1 [0, 1, 2, 3] 3 1) [] =
      [0, 1, 1, 2, 2, 3] := by
    rw [scanLoop_scenario]
    simp only [indexStep, h01, h02, h03, h12, h13, h23, b01, b02, b03, b12, b13, b23]
    norm_num
  have hidx2 : scanLoop 1 4 (indexStep scenario 0 1 [0, 1, 2, 3] 3 2) [] =
      [0, 2, 0, 3, 1, 3] := by
    rw [scanLoop_scenario]
    simp only [indexStep, h01, h02, h03, h12, h13, h23, b01, b02, b03, b12, b13, b23]
    norm_num
  have hidx3 : scanLoop 1 4 (indexStep scenario 0 1 [0, 1, 2, 3] 3 3) [] = [] := by
    rw [scanLoop_scenario]
    simp only [indexStep, h01, h02, h03, h12, h13, h23, b01, b02, b03, b12, b13, b23]
    norm_num
  have hrange : List.range (3 + 1) = [0, 1, 2, 3] := rfl
  unfold buildHistogram
  simp only [hmm, hw, hbins, hhist, hrange, List.map, hidx0, hidx1, hidx2, hidx3]

theorem scenario_export : export_distance_histogram scenario 4 1 3 = Except.ok
    { min_bins := 0, max_bins := 3, bin_width := 1, bins := [0, 1, 2, 3], hist := [0, 3, 3, 0],
      indices := [[], [0, 1, 1, 2, 2, 3], [0, 2, 0, 3, 1, 3], []] } := by
  rw [export_ok scenario 4 3 1 (Or.inl rfl), scenario_build]

/-- C7, against the claim as stated: on the four-node scenario with three bins the exported counts
are not `[3, 2, 1, 0]`. -/
theorem scenario_counts_counterexample :
    ¬ ∃ h, export_distance_histogram scenario 4 1 3 = Except.ok h ∧ h.hist = [3, 2, 1, 0] := by
  rintro ⟨h, he, hh⟩
  rw [scenario_export] at he
  injection he with he
  subst he
  exact absurd hh (by decide)

/-- C7, amended: on the four-node scenario with three bins the function exports `min = 0`,
`max = 3`, `bin_width = 1`, the boundaries `[0, 1, 2, 3]` and the counts `[0, 3, 3, 0]`; bin 1
holds the three pairs of distance 1, bin 2 the pairs of distance 2 and 3, bins 0 and 3 are
empty. -/
theorem scenario_histogram :
    ∃ h, export_distance_histogram scenario 4 1 3 = Except.ok h ∧
      h.min_bins = 0 ∧ h.max_bins = 3 ∧ h.bin_width = 1 ∧ h.bins = [0, 1, 2, 3] ∧
      h.hist = [0, 3, 3, 0] ∧
      toPairs (h.indices.getD 0 []) = [] ∧
      toPairs (h.indices.getD 1 []) = [(0, 1), (1, 2), (2, 3)] ∧
      toPairs (h.indices.getD 2 []) = [(0, 2), (0, 3), (1, 3)] ∧
      toPairs (h.indices.getD 3 []) = [] :=
  ⟨_, scenario_export, rfl, rfl, rfl, rfl, rfl, rfl, rfl, rfl, rfl⟩

/-- In exact arithmetic the fold of the top boundary does what it is written for: for
`nr_bins >= 1` and a flag `1` or `0`, every bin index computed for a visited entry of nonzero
distance is at most `nr_bins - 1`; when `max_bins > min_bins` the floor of
`(d - min_bins) / bin_width` is `nr_bins` exactly for the entries at the maximum, which is
exactly the test `d == bins[nr_bins]`, and such an entry, its distance being nonzero, gets the
index `nr_bins - 1`; the count `hist[nr_bins]` is `0` and `indices[nr_bins]` is empty. The code
computes in `double`, where this fails (`pointNine_build`, `nineApart_build`). -/
theorem top_fold_exact (distances : Nat → Nat → ℚ) (nr_nodes nr_bins : Nat) (is_symm : Int)
    (hflag : is_symm = 1 ∨ is_symm = 0) (hnb : 1 ≤ nr_bins) (hsz : nr_bins < 2 ^ 64) :
    ∃ h, export_distance_histogram distances nr_nodes is_symm nr_bins = Except.ok h ∧
      (∀ p ∈ scanPairs is_symm nr_nodes, distances p.1 p.2 ≠ 0 →
        binIndex distances h.min_bins h.bin_width h.bins nr_bins p.1 p.2 ≤ nr_bins - 1) ∧
      (h.min_bins < h.max_bins → ∀ p ∈ scanPairs is_symm nr_nodes,
        (⌊(distances p.1 p.2 - h.min_bins) / h.bin_width⌋ = (nr_bins : Int) ↔
          distances p.1 p.2 = h.max_bins) ∧
        (distances p.1 p.2 = h.bins.getD nr_bins 0 ↔ distances p.1 p.2 = h.max_bins) ∧
        (distances p.1 p.2 = h.max_bins → distances p.1 p.2 ≠ 0 →
          binIndex distances h.min_bins h.bin_width h.bins nr_bins p.1 p.2 = nr_bins - 1 ∧
          p ∈ toPairs (h.indices.getD (nr_bins - 1) []))) ∧
      ((∀ p ∈ scanPairs is_symm nr_nodes, 0 ≤ distances p.1 p.2) → h.min_bins < h.max_bins →
        ∀ p ∈ scanPairs is_symm nr_nodes, distances p.1 p.2 = h.max_bins →
          p ∈ toPairs (h.indices.getD (nr_bins - 1) [])) ∧
      h.hist.getD nr_bins 0 = 0 ∧ h.indices.getD nr_bins [] = [] := by
  have hplace : ∀ p ∈ scanPairs is_symm nr_nodes,
      (buildHistogram distances nr_nodes is_symm nr_bins).min_bins <
        (buildHistogram distances nr_nodes is_symm nr_bins).max_bins →
      distances p.1 p.2 = (buildHistogram distances nr_nodes is_symm nr_bins).max_bins →
      distances p.1 p.2 ≠ 0 →
      p ∈ toPairs ((buildHistogram distances nr_nodes is_symm nr_bins).indices.getD
        (nr_bins - 1) []) := by
    intro p hp hlt hmax hd
    obtain ⟨_, _, _, h4, _⟩ := build_binIndex distances nr_nodes nr_bins is_symm hnb hsz p hp hlt
    rw [build_indices_getD distances nr_nodes nr_bins is_symm (nr_bins - 1) (by omega),
      toPairs_flattenPairs]
    unfold placedIn
    rw [List.mem_filter, decide_eq_true_eq]
    exact ⟨hp, hd, h4 hmax⟩
  refine ⟨_, export_ok distances nr_nodes nr_bins is_symm hflag, ?_, ?_, ?_, ?_⟩
  · intro p hp hd
    have := (build_binIndex distances nr_nodes nr_bins is_symm hnb hsz p hp
      (build_range distances nr_nodes nr_bins is_symm p hp hd).1).1
    omega
  · intro hlt p hp
    obtain ⟨_, _, _, h4, h5⟩ := build_binIndex distances nr_nodes nr_bins is_symm hnb hsz p hp hlt
    refine ⟨h5, ?_, ?_⟩
    · rw [build_bins, build_bin_width, makeBins_top hnb]
    · intro hmax hd
      exact ⟨h4 hmax, hplace p hp hlt hmax hd⟩
  · intro hall hlt p hp hmax
    have hmin := build_min_zero distances nr_nodes nr_bins is_symm hall
    refine hplace p hp hlt hmax ?_
    rw [hmax]
    rw [hmin] at hlt
    exact ne_of_gt hlt
  · have hnil : placedIn distances (buildHistogram distances nr_nodes is_symm nr_bins).min_bins
        (buildHistogram distances nr_nodes is_symm nr_bins).bin_width
        (buildHistogram distances nr_nodes is_symm nr_bins).bins nr_bins nr_bins
        (scanPairs is_symm nr_nodes) = [] := by
      unfold placedIn
      rw [List.filter_eq_nil_iff]
      intro p hp
      rw [decide_eq_true_eq]
      rintro ⟨hd, hk⟩
      have := (build_binIndex distances nr_nodes nr_bins is_symm hnb hsz p hp
        (build_range distances nr_nodes nr_bins is_symm p hp hd).1).1
      omega
    rw [build_hist_getD distances nr_nodes nr_bins is_symm nr_bins (le_refl _),
      build_indices_getD distances nr_nodes nr_bins is_symm nr_bins (le_refl _), hnil]
    exact ⟨rfl, rfl⟩

theorem index_count_consistency_witness :
    ∃ h, export_distance_histogram scenario 4 1 3 = Except.ok h ∧
      (h.indices.getD 1 []).length = 2 * h.hist.getD 1 0 :=
  index_count_consistency scenario 4 3 1 1 (Or.inl rfl) (by norm_num) (by norm_num)

theorem inverted_index_content_witness :
    ∃ h, export_distance_histogram scenario 4 1 3 = Except.ok h ∧
      toPairs (h.indices.getD 2 []) =
        (scanPairs 1 4).filter (fun p => decide (scenario p.1 p.2 ≠ 0 ∧
          binIndex scenario h.min_bins h.bin_width h.bins 3 p.1 p.2 = 2)) := by
  obtain ⟨h, h1, _, h3, _⟩ :=
    inverted_index_content scenario 4 3 1 2 (Or.inl rfl) (by norm_num) (by norm_num)
  exact ⟨h, h1, h3⟩

/-! ## The scan for the flag `0`, the locator on a built histogram, the invalid flag -/

theorem build_indices_mem (distances : Nat → Nat → ℚ) (nr_nodes nr_bins : Nat) (is_symm : Int)
    (k : Nat) (hk : k ≤ nr_bins) (p : Nat × Nat) :
    p ∈ toPairs ((buildHistogram distances nr_nodes is_symm nr_bins).indices.getD k []) ↔
      p ∈ scanPairs is_symm nr_nodes ∧ distances p.1 p.2 ≠ 0 ∧
        binIndex distances (buildHistogram distances nr_nodes is_symm nr_bins).min_bins
          (buildHistogram distances nr_nodes is_symm nr_bins).bin_width
          (buildHistogram distances nr_nodes is_symm nr_bins).bins nr_bins p.1 p.2 = k := by
  rw [build_indices_getD distances nr_nodes nr_bins is_symm k hk, toPairs_flattenPairs]
  unfold placedIn
  rw [List.mem_filter, decide_eq_true_eq]

/-- In exact arithmetic, for `nr_bins >= 1` and a flag `1` or `0`, on the exported histogram
`bins[1] - bins[0]` is the bin width, and whenever
`binary_search(bins, nr_bins + 1, bin_width, v)` returns a bin `k` (a value other than `-1`),
every pair stored in `indices[k]` has a matrix distance `d` with `|d - v| <= bin_width`. The
code builds the histogram in `double`, where this fails (`nineApart_build`). -/
theorem locator_distance_exact (distances : Nat → Nat → ℚ) (nr_nodes nr_bins : Nat) (is_symm : Int)
    (hflag : is_symm = 1 ∨ is_symm = 0) (hnb : 1 ≤ nr_bins) (hsz : nr_bins < 2 ^ 64) :
    ∃ h, export_distance_histogram distances nr_nodes is_symm nr_bins = Except.ok h ∧
      h.bins.getD 1 0 - h.bins.getD 0 0 = h.bin_width ∧
      ∀ (fuel : Nat) (v : ℚ) (r : Int),
        binary_search fuel h.bins (nr_bins + 1) h.bin_width v = some (Outcome.returned r) →
        r ≠ -1 → 0 ≤ r ∧ r ≤ (nr_bins : Int) ∧
          ∀ p ∈ toPairs (h.indices.getD r.toNat []), |distances p.1 p.2 - v| ≤ h.bin_width := by
  refine ⟨_, export_ok distances nr_nodes nr_bins is_symm hflag, ?_, ?_⟩
  · rw [build_bins, makeBins_getD _ _ nr_bins 1 hnb, makeBins_getD _ _ nr_bins 0 (Nat.zero_le _)]
    push_cast
    ring
  · intro fuel v r hret hr
    rcases searchLoop_sound _ _ v fuel _ _ r hret with h | ⟨m, hm, b, hb, hlo, hhi⟩
    · exact absurd h hr
    · subst hm
      have hmlen : m ≤ nr_bins := by
        by_contra hcon
        rw [build_bins, List.getElem?_eq_none (by rw [makeBins_length]; omega)] at hb
        exact absurd hb (by simp)
      refine ⟨Int.natCast_nonneg m, by exact_mod_cast hmlen, ?_⟩
      intro p hp
      rw [Int.toNat_ofNat, build_indices_mem distances nr_nodes nr_bins is_symm m hmlen] at hp
      obtain ⟨hscan, hd, hidx⟩ := hp
      obtain ⟨_, h2, h3, _, _⟩ := build_binIndex distances nr_nodes nr_bins is_symm hnb hsz p
        hscan (build_range distances nr_nodes nr_bins is_symm p hscan hd).1
      rw [hidx] at h2 h3
      rw [build_bins, makeBins_getElem? _ _ nr_bins m hmlen] at hb
      have hbeq : (buildHistogram distances nr_nodes is_symm nr_bins).min_bins +
          (m : ℚ) * (buildHistogram distances nr_nodes is_symm nr_bins).bin_width = b := by
        simpa using hb
      rw [hbeq] at h2 h3
      rw [abs_le]
      constructor
      · linarith
      · rcases h3 with h3 | ⟨h3, _, _⟩ <;> linarith

/-- C18. Invalid symmetry flag: for every flag other than `1` and `0`, every matrix, `nr_nodes`
and `nr_bins`, the function returns the error code `1` and exports no histogram. -/
theorem invalid_flag_rejected (distances : Nat → Nat → ℚ) (nr_nodes nr_bins : Nat)
    (is_symm : Int) (h1 : is_symm ≠ 1) (h0 : is_symm ≠ 0) :
    export_distance_histogram distances nr_nodes is_symm nr_bins = Except.error 1 := by
  unfold export_distance_histogram
  rw [if_neg (by rintro (h | h); exact h1 h; exact h0 h)]

theorem invalid_flag_rejected_witness :
    export_distance_histogram scenario 4 2 3 = Except.error 1 :=
  invalid_flag_rejected scenario 4 3 2 (by decide) (by decide)

/-! ## Termination of the search -/

theorem searchLoop_terminates (bins : List ℚ) (w v : ℚ) (hlen : bins.length < 2 ^ 63) :
    ∀ fuel lower upper, upper < 2 ^ 64 → 1 ≤ fuel → upper + 2 ≤ fuel + lower →
      ∃ o, searchLoop bins w v fuel lower upper = some o := by
  intro fuel
  induction fuel with
  | zero => intro lower upper _ hf _; omega
  | succ fuel ih =>
    intro lower upper hu _ hf
    by_cases hle : lower ≤ upper
    · cases hb : bins[lower + (upper - lower) / 2]? with
      | none =>
        refine ⟨Outcome.outOfBounds (lower + (upper - lower) / 2), ?_⟩
        rw [searchLoop, if_pos hle]
        simp only [middle_eq hle hu, hb]
      | some b =>
        have hm : lower + (upper - lower) / 2 < bins.length := by
          by_contra hcon
          rw [List.getElem?_eq_none (by omega)] at hb
          exact absurd hb (by simp)
        rw [searchLoop_step bins w v fuel lower upper b hle hu hb]
        split_ifs with h1 h2
        · exact ⟨_, rfl⟩
        · by_cases hz : lower + (upper - lower) / 2 = 0
          · rw [hz, sizeSub_zero_one]
            have hl0 : lower = 0 := by omega
            subst hl0
            obtain ⟨f, rfl⟩ : ∃ f, fuel = f + 1 := ⟨fuel - 1, by omega⟩
            refine ⟨Outcome.outOfBounds (2 ^ 63 - 1), ?_⟩
            rw [searchLoop, if_pos (Nat.zero_le _)]
            have hmid : sizeAdd 0 (sizeSub (2 ^ 64 - 1) 0 / 2) = 2 ^ 63 - 1 := by
              rw [middle_eq (Nat.zero_le _) (by norm_num)]
              norm_num
            have hnone : bins[2 ^ 63 - 1]? = none := List.getElem?_eq_none (by omega)
            simp only [hmid, hnone]
          · rw [sizeSub_of_le (by omega) (by omega)]
            exact ih lower _ (by omega) (by omega) (by omega)
        · rw [sizeAdd_of_lt (by omega)]
          exact ih _ upper hu (by omega) (by omega)
    · exact ⟨Outcome.returned (-1), by rw [searchLoop, if_neg hle]⟩

/-- The search of the sampler always ends within its fuel. -/
theorem binary_search_terminates (bins : List ℚ) (w v : ℚ) (nr_bins : Nat)
    (hlen : bins.length < 2 ^ 63) (hsz : nr_bins + 1 < 2 ^ 64) :
    ∃ o, binary_search (2 + nr_bins) bins (sizeAdd nr_bins 1) w v = some o := by
  unfold binary_search
  rw [sizeAdd_of_lt hsz, sizeSub_of_le (by omega) hsz]
  exact searchLoop_terminates bins w v hlen _ 0 _ (by omega) (by omega) (by omega)

/-! ## One run of the loop body -/

theorem aligned_pair (e : Nat) :
    ∃ e1, (2 * e) % SIZE_MOD = 2 * e1 ∧ sizeAdd ((2 * e) % SIZE_MOD) 1 = 2 * e1 + 1 := by
  refine ⟨(2 * e) % SIZE_MOD / 2, ?_, ?_⟩
  · unfold SIZE_MOD
    omega
  · unfold sizeAdd SIZE_MOD
    omega

theorem insertEdge_ok {σ : Type} (nr_nodes direction : Nat) (a b : Int) (rng : σ)
    (st st1 : Sampler σ) (h : insertEdge nr_nodes direction a b rng st = Except.ok st1) :
    ∃ source target,
      ((direction ≠ 1 ∧ source = toSize a ∧ target = toSize b) ∨
        (direction = 1 ∧ source = toSize b ∧ target = toSize a)) ∧
      source < nr_nodes ∧ target < nr_nodes ∧
      st1 =
        { rng := rng
          weights := fun i j =>
            if i = source ∧ j = target then st.weights i j + 1 else st.weights i j
          count_edges :=
            if st.weights source target = 0 then st.count_edges + 1 else st.count_edges } := by
  unfold insertEdge at h
  dsimp only at h
  by_cases hdir : direction = 1
  · rw [if_pos hdir, if_pos hdir] at h
    by_cases hr : toSize b < nr_nodes ∧ toSize a < nr_nodes
    · rw [if_pos hr] at h
      injection h with h
      exact ⟨toSize b, toSize a, Or.inr ⟨hdir, rfl, rfl⟩, hr.1, hr.2, h.symm⟩
    · rw [if_neg hr] at h
      injection h
  · rw [if_neg hdir, if_neg hdir] at h
    by_cases hr : toSize a < nr_nodes ∧ toSize b < nr_nodes
    · rw [if_pos hr] at h
      injection h with h
      exact ⟨toSize a, toSize b, Or.inl ⟨hdir, rfl, rfl⟩, hr.1, hr.2, h.symm⟩
    · rw [if_neg hr] at h
      injection h

theorem drawEdge_ok {σ : Type} (g : Rng σ) (nr_nodes : Nat) (dist_indices : List (List Int))
    (bin_idx : Nat) (c : Int) (rng : σ) (st st1 : Sampler σ)
    (h : drawEdge g nr_nodes dist_indices bin_idx c rng st = Except.ok st1) :
    ∃ (row : List Int) (a b : Int) (e : Nat),
      dist_indices[bin_idx]? = some row ∧
      (2 * (g.uniform_int rng (toSize c)).1) % SIZE_MOD = 2 * e ∧
      row[2 * e]? = some a ∧ row[2 * e + 1]? = some b ∧
      insertEdge nr_nodes (g.uniform_int (g.uniform_int rng (toSize c)).2 2).1 a b
        (g.uniform_int (g.uniform_int rng (toSize c)).2 2).2 st = Except.ok st1 := by
  unfold drawEdge at h
  dsimp only at h
  cases hrow : dist_indices[bin_idx]? with
  | none => rw [hrow] at h; injection h
  | some row =>
    rw [hrow] at h
    dsimp only at h
    obtain ⟨e1, he1, he2⟩ := aligned_pair (g.uniform_int rng (toSize c)).1
    rw [he2, he1] at h
    cases ha : row[2 * e1]? with
    | none => rw [ha] at h; injection h
    | some a =>
      cases hb : row[2 * e1 + 1]? with
      | none => rw [ha, hb] at h; injection h
      | some b =>
        rw [ha, hb] at h
        exact ⟨row, a, b, e1, rfl, he1, ha, hb, h⟩

theorem afterSearch_ok {σ : Type} (g : Rng σ) (nr_nodes : Nat) (dist_hist : List Int)
    (dist_indices : List (List Int)) (r : Int) (rng : σ) (st st1 : Sampler σ)
    (h : afterSearch g nr_nodes dist_hist dist_indices r rng st = Except.ok st1) :
    ((toSize r = toSize (-1) ∨ dist_hist[toSize r]? = some 0) ∧
        st1 = { st with rng := rng }) ∨
      ∃ c, toSize r ≠ toSize (-1) ∧ dist_hist[toSize r]? = some c ∧ c ≠ 0 ∧
        drawEdge g nr_nodes dist_indices (toSize r) c rng st = Except.ok st1 := by
  unfold afterSearch at h
  dsimp only at h
  by_cases hneg : toSize r = toSize (-1)
  · rw [if_pos hneg] at h
    injection h with h
    exact Or.inl ⟨Or.inl hneg, h.symm⟩
  · rw [if_neg hneg] at h
    cases hc : dist_hist[toSize r]? with
    | none => rw [hc] at h; injection h
    | some c =>
      rw [hc] at h
      dsimp only at h
      by_cases hc0 : c = 0
      · rw [if_pos hc0] at h
        injection h with h
        subst hc0
        exact Or.inl ⟨Or.inr rfl, h.symm⟩
      · rw [if_neg hc0] at h
        exact Or.inr ⟨c, hneg, rfl, hc0, h⟩


theorem onSearch_ok {σ : Type} (g : Rng σ) (nr_nodes : Nat) (dist_hist : List Int)
    (dist_indices : List (List Int)) (found : Option Outcome) (rng : σ) (st st1 : Sampler σ)
    (h : onSearch g nr_nodes dist_hist dist_indices found rng st = some (Except.ok st1)) :
    ∃ r, found = some (Outcome.returned r) ∧
      afterSearch g nr_nodes dist_hist dist_indices r rng st = Except.ok st1 := by
  unfold onSearch at h
  cases found with
  | none => injection h
  | some o =>
    cases o with
    | outOfBounds idx =>
      injection h with h
      injection h
    | returned r =>
      injection h with h
      exact ⟨r, rfl, h⟩

theorem sampleStep_ok {σ : Type} (g : Rng σ) (draw : σ → ℚ × σ) (nr_nodes nr_bins : Nat)
    (dist_bins : List ℚ) (dist_hist : List Int) (dist_indices : List (List Int))
    (bin_width : ℚ) (st st1 : Sampler σ)
    (h : sampleStep g draw nr_nodes nr_bins dist_bins dist_hist dist_indices bin_width st =
      some (Except.ok st1)) :
    ∃ r, binary_search (2 + nr_bins) dist_bins (sizeAdd nr_bins 1) bin_width
        (draw st.rng).1 = some (Outcome.returned r) ∧
      afterSearch g nr_nodes dist_hist dist_indices r (draw st.rng).2 st = Except.ok st1 :=
  onSearch_ok g nr_nodes dist_hist dist_indices _ _ st st1 h

/-- What a run of the body that ends without fault has done: nothing but the distance draw, or
the three draws and the increment of one weight. -/
theorem sampleStep_cases {σ : Type} (g : Rng σ) (draw : σ → ℚ × σ) (nr_nodes nr_bins : Nat)
    (dist_bins : List ℚ) (dist_hist : List Int) (dist_indices : List (List Int))
    (bin_width : ℚ) (st st1 : Sampler σ)
    (h : sampleStep g draw nr_nodes nr_bins dist_bins dist_hist dist_indices bin_width st =
      some (Except.ok st1)) :
    st1 = { st with rng := (draw st.rng).2 } ∨
    ∃ (c : Int) (row : List Int) (a b : Int) (bin e source target : Nat),
      dist_hist[bin]? = some c ∧ c ≠ 0 ∧ dist_indices[bin]? = some row ∧
      row[2 * e]? = some a ∧ row[2 * e + 1]? = some b ∧
      ((source = toSize a ∧ target = toSize b) ∨ (source = toSize b ∧ target = toSize a)) ∧
      source < nr_nodes ∧ target < nr_nodes ∧
      st1 =
        { rng := (g.uniform_int (g.uniform_int (draw st.rng).2 (toSize c)).2 2).2
          weights := fun i j =>
            if i = source ∧ j = target then st.weights i j + 1 else st.weights i j
          count_edges :=
            if st.weights source target = 0 then st.count_edges + 1 else st.count_edges } := by
  obtain ⟨r, _, h2⟩ := sampleStep_ok g draw nr_nodes nr_bins dist_bins dist_hist dist_indices
    bin_width st st1 h
  rcases afterSearch_ok g nr_nodes dist_hist dist_indices r _ st st1 h2 with
    ⟨_, h3⟩ | ⟨c, _, hc, hc0, h3⟩
  · exact Or.inl h3
  · obtain ⟨row, a, b, e, hrow, _, ha, hb, h4⟩ :=
      drawEdge_ok g nr_nodes dist_indices (toSize r) c _ st st1 h3
    obtain ⟨source, target, hst, hs, ht, h5⟩ := insertEdge_ok nr_nodes _ a b _ st st1 h4
    refine Or.inr ⟨c, row, a, b, toSize r, e, source, target, hc, hc0, hrow, ha, hb, ?_, hs, ht,
      h5⟩
    rcases hst with ⟨_, h6, h7⟩ | ⟨_, h6, h7⟩
    · exact Or.inl ⟨h6, h7⟩
    · exact Or.inr ⟨h6, h7⟩

/-! ## The invariant of the sampling loop -/

theorem toPairs_mem : ∀ (e : Nat) (l : List Nat) (x y : Nat),
    l[2 * e]? = some x → l[2 * e + 1]? = some y → (x, y) ∈ toPairs l := by
  intro e
  induction e with
  | zero =>
    intro l x y hx hy
    match l, hx, hy with
    | x0 :: y0 :: rest, hx, hy =>
      simp only [Nat.mul_zero, List.getElem?_cons_zero, Option.some.injEq] at hx
      simp only [Nat.mul_zero, Nat.zero_add, List.getElem?_cons_succ, List.getElem?_cons_zero,
        Option.some.injEq] at hy
      subst hx hy
      exact List.mem_cons_self _ _
  | succ e ih =>
    intro l x y hx hy
    match l, hx, hy with
    | x0 :: y0 :: rest, hx, hy =>
      have h2 : 2 * (e + 1) = 2 * e + 1 + 1 := by omega
      rw [h2, List.getElem?_cons_succ, List.getElem?_cons_succ] at hx
      rw [h2, List.getElem?_cons_succ, List.getElem?_cons_succ] at hy
      exact List.mem_cons_of_mem _ (ih rest x y hx hy)
    | [_], hx, _ =>
      have h2 : 2 * (e + 1) = 2 * e + 1 + 1 := by omega
      rw [h2, List.getElem?_cons_succ] at hx
      exact absurd hx (by simp)
    | [], hx, _ => exact absurd hx (by simp)

theorem storedPairs_mem (p : Nat × Nat) : ∀ (dist_hist : List Int)
    (dist_indices : List (List Int)) (k : Nat) (c : Int) (row : List Int),
    dist_hist[k]? = some c → dist_indices[k]? = some row → c ≠ 0 →
    p ∈ toPairs (row.map toSize) → p ∈ storedPairs dist_hist dist_indices := by
  intro dist_hist
  induction dist_hist with
  | nil => intro _ k c row hc; exact absurd hc (by simp)
  | cons c0 cs ih =>
    intro dist_indices k c row hc hrow hc0 hp
    cases dist_indices with
    | nil => exact absurd hrow (by simp)
    | cons row0 rows =>
      rw [storedPairs, List.mem_append]
      cases k with
      | zero =>
        simp only [List.getElem?_cons_zero, Option.some.injEq] at hc hrow
        subst hc hrow
        left
        rw [if_pos hc0]
        exact hp
      | succ k =>
        rw [List.getElem?_cons_succ] at hc hrow
        exact Or.inr (ih rows k c row hc hrow hc0 hp)

theorem stored_of_reads (dist_hist : List Int) (dist_indices : List (List Int)) (bin e : Nat)
    (c a b : Int) (row : List Int) (hc : dist_hist[bin]? = some c) (hc0 : c ≠ 0)
    (hrow : dist_indices[bin]? = some row) (ha : row[2 * e]? = some a)
    (hb : row[2 * e + 1]? = some b) :
    (toSize a, toSize b) ∈ storedPairs dist_hist dist_indices := by
  apply storedPairs_mem _ dist_hist dist_indices bin c row hc hrow hc0
  apply toPairs_mem e
  · rw [List.getElem?_map, ha]; rfl
  · rw [List.getElem?_map, hb]; rfl

theorem nonzeroWeights_insert (nr_nodes : Nat) (weights : Nat → Nat → Int) (s t : Nat)
    (hs : s < nr_nodes) (ht : t < nr_nodes) (hnn : ∀ i j, 0 ≤ weights i j) :
    nonzeroWeights nr_nodes
        (fun i j => if i = s ∧ j = t then weights i j + 1 else weights i j) =
      insert (s, t) (nonzeroWeights nr_nodes weights) := by
  ext p
  unfold nonzeroWeights
  simp only [Finset.mem_filter, Finset.mem_product, Finset.mem_range, Finset.mem_insert]
  by_cases hp : p.1 = s ∧ p.2 = t
  · rw [if_pos hp]
    have hpe : p = (s, t) := Prod.ext hp.1 hp.2
    have h0 := hnn p.1 p.2
    constructor
    · intro _; exact Or.inl hpe
    · intro _
      refine ⟨⟨by rw [hp.1]; exact hs, by rw [hp.2]; exact ht⟩, by omega⟩
  · rw [if_neg hp]
    constructor
    · intro h; exact Or.inr h
    · rintro (h | h)
      · exact absurd ⟨congrArg Prod.fst h, congrArg Prod.snd h⟩ hp
      · exact h

theorem SamplerInv_initial {σ : Type} (nr_nodes : Nat) (dist_hist : List Int)
    (dist_indices : List (List Int)) (rng : σ) :
    SamplerInv nr_nodes dist_hist dist_indices (initialSampler rng) := by
  refine ⟨fun _ _ => le_refl _, fun i j h => absurd rfl h, ?_⟩
  unfold nonzeroWeights initialSampler
  simp

theorem SamplerInv_step {σ : Type} (g : Rng σ) (draw : σ → ℚ × σ) (nr_nodes nr_bins : Nat)
    (dist_bins : List ℚ) (dist_hist : List Int) (dist_indices : List (List Int))
    (bin_width : ℚ) (st st1 : Sampler σ)
    (hinv : SamplerInv nr_nodes dist_hist dist_indices st)
    (h : sampleStep g draw nr_nodes nr_bins dist_bins dist_hist dist_indices bin_width st =
      some (Except.ok st1)) :
    SamplerInv nr_nodes dist_hist dist_indices st1 ∧
      st.count_edges ≤ st1.count_edges ∧ st1.count_edges ≤ st.count_edges + 1 := by
  obtain ⟨hnn, hst, hcount⟩ := hinv
  rcases sampleStep_cases g draw nr_nodes nr_bins dist_bins dist_hist dist_indices bin_width
    st st1 h with h1 | ⟨c, row, a, b, bin, e, source, target, hc, hc0, hrow, ha, hb, hdir, hs, ht,
    h1⟩
  · subst h1
    exact ⟨⟨hnn, hst, hcount⟩, le_refl _, Nat.le_succ _⟩
  · subst h1
    have hstored : (source, target) ∈ storedPairs dist_hist dist_indices ∨
        (target, source) ∈ storedPairs dist_hist dist_indices := by
      have := stored_of_reads dist_hist dist_indices bin e c a b row hc hc0 hrow ha hb
      rcases hdir with ⟨h6, h7⟩ | ⟨h6, h7⟩
      · left; rw [h6, h7]; exact this
      · right; rw [h6, h7]; exact this
    refine ⟨⟨?_, ?_, ?_⟩, ?_, ?_⟩
    · intro i j
      dsimp only
      split_ifs
      · have := hnn i j; omega
      · exact hnn i j
    · intro i j hne
      dsimp only at hne
      by_cases hij : i = source ∧ j = target
      · rw [hij.1, hij.2]
        exact ⟨hs, ht, hstored⟩
      · rw [if_neg hij] at hne
        exact hst i j hne
    · dsimp only
      rw [nonzeroWeights_insert nr_nodes st.weights source target hs ht hnn]
      by_cases hz : st.weights source target = 0
      · rw [if_pos hz, Finset.card_insert_of_not_mem, hcount]
        unfold nonzeroWeights
        simp only [Finset.mem_filter, not_and, not_not]
        intro _
        exact hz
      · rw [if_neg hz, Finset.insert_eq_of_mem, hcount]
        unfold nonzeroWeights
        simp only [Finset.mem_filter, Finset.mem_product, Finset.mem_range]
        exact ⟨⟨hs, ht⟩, hz⟩
    · dsimp only
      split_ifs <;> omega
    · dsimp only
      split_ifs <;> omega

theorem sampleLoop_inv {σ : Type} (g : Rng σ) (draw : σ → ℚ × σ)
    (nr_nodes nr_edges nr_bins : Nat) (dist_bins : List ℚ) (dist_hist : List Int)
    (dist_indices : List (List Int)) (bin_width : ℚ) :
    ∀ (fuel : Nat) (st st1 : Sampler σ), SamplerInv nr_nodes dist_hist dist_indices st →
      sampleLoop g draw nr_nodes nr_edges nr_bins dist_bins dist_hist dist_indices bin_width
        fuel st = some (Except.ok st1) →
      SamplerInv nr_nodes dist_hist dist_indices st1 := by
  intro fuel
  induction fuel with
  | zero =>
    intro st st1 _ h
    rw [sampleLoop] at h
    injection h
  | succ fuel ih =>
    intro st st1 hinv h
    rw [sampleLoop] at h
    rcases Option.eq_none_or_eq_some (sampleStep g draw nr_nodes nr_bins dist_bins dist_hist
      dist_indices bin_width st) with hs | ⟨res, hs⟩
    · rw [hs] at h; injection h
    · cases res with
      | error f =>
        rw [hs] at h
        injection h with h
        injection h
      | ok st2 =>
        rw [hs] at h
        dsimp only at h
        have hinv2 := (SamplerInv_step g draw nr_nodes nr_bins dist_bins dist_hist
          dist_indices bin_width st st2 hinv hs).1
        by_cases hc : st2.count_edges < nr_edges
        · rw [if_pos hc] at h
          exact ih st2 st1 hinv2 h
        · rw [if_neg hc] at h
          injection h with h
          injection h with h
          rw [← h]
          exact hinv2

theorem edge_foldl (weights : Nat → Nat → Int) :
    ∀ (l : List (Nat × Nat)) (out : List (Nat × Nat × Int)),
      l.foldl (fun o p => if weights p.1 p.2 ≠ 0 then o ++ [(p.1, p.2, weights p.1 p.2)] else o)
        out =
        out ++ (l.filter (fun p => decide (weights p.1 p.2 ≠ 0))).map
          (fun p => (p.1, p.2, weights p.1 p.2)) := by
  intro l
  induction l with
  | nil => intro out; simp
  | cons q l ih =>
    intro out
    rw [List.foldl_cons, ih, List.filter_cons]
    by_cases hq : weights q.1 q.2 ≠ 0
    · simp [hq]
    · simp [hq]

theorem edgeList_eq (nr_nodes : Nat) (weights : Nat → Nat → Int) :
    edgeList nr_nodes weights =
      ((scanPairs 0 nr_nodes).filter (fun p => decide (weights p.1 p.2 ≠ 0))).map
        (fun p => (p.1, p.2, weights p.1 p.2)) := by
  have h := scanLoop_eq_foldl 0 nr_nodes
    (fun (o : List (Nat × Nat × Int)) i j =>
      if weights i j ≠ 0 then o ++ [(i, j, weights i j)] else o) []
  have h2 : edgeList nr_nodes weights = scanLoop 0 nr_nodes
      (fun (o : List (Nat × Nat × Int)) i j =>
        if weights i j ≠ 0 then o ++ [(i, j, weights i j)] else o) [] := by
    unfold edgeList scanLoop
    rw [if_neg (by decide), if_pos rfl]
  rw [h2, h, edge_foldl, List.nil_append]

theorem edgeList_mem (nr_nodes : Nat) (weights : Nat → Nat → Int) (i j : Nat) (c : Int) :
    (i, j, c) ∈ edgeList nr_nodes weights ↔
      i < nr_nodes ∧ j < nr_nodes ∧ weights i j ≠ 0 ∧ c = weights i j := by
  rw [edgeList_eq, List.mem_map]
  constructor
  · rintro ⟨p, hp, heq⟩
    rw [List.mem_filter, decide_eq_true_eq, mem_scanPairs_asymm] at hp
    have h1 : p.1 = i := congrArg Prod.fst heq
    have h2 : p.2 = j := congrArg (fun t => t.2.1) heq
    have h3 : weights p.1 p.2 = c := congrArg (fun t => t.2.2) heq
    rw [h1, h2] at hp h3
    exact ⟨hp.1.1, hp.1.2, hp.2, h3.symm⟩
  · rintro ⟨hi, hj, hw, hc⟩
    refine ⟨(i, j), ?_, ?_⟩
    · rw [List.mem_filter, decide_eq_true_eq, mem_scanPairs_asymm]
      exact ⟨⟨hi, hj⟩, hw⟩
    · rw [hc]

theorem generateWith_ok {σ : Type} (g : Rng σ) (draw : σ → ℚ × σ) (fuel : Nat)
    (alloc_ok output_ok : Bool) (nr_nodes nr_edges nr_bins : Nat) (dist_bins : List ℚ)
    (dist_hist : List Int) (dist_indices : List (List Int)) (bin_width : ℚ) (rng : σ)
    (gen : Generated)
    (h : generateWith g draw fuel alloc_ok output_ok nr_nodes nr_edges nr_bins dist_bins
      dist_hist dist_indices bin_width rng = some (Except.ok gen)) :
    (gen.code = 1 ∧ gen.edge_list = none) ∨
      ∃ st, sampleLoop g draw nr_nodes nr_edges nr_bins dist_bins dist_hist dist_indices
          bin_width fuel (initialSampler rng) = some (Except.ok st) ∧
        gen.code = 0 ∧ gen.edge_list = some (edgeList nr_nodes st.weights) := by
  unfold generateWith at h
  by_cases ha : alloc_ok = false
  · rw [if_pos ha] at h
    injection h with h
    injection h with h
    rw [← h]
    exact Or.inl ⟨rfl, rfl⟩
  · rw [if_neg ha] at h
    rcases Option.eq_none_or_eq_some (sampleLoop g draw nr_nodes nr_edges nr_bins dist_bins
      dist_hist dist_indices bin_width fuel (initialSampler rng)) with hs | ⟨res, hs⟩
    · rw [hs] at h; injection h
    · cases res with
      | error f =>
        rw [hs] at h
        injection h with h
        injection h
      | ok st =>
        rw [hs] at h
        dsimp only at h
        by_cases ho : output_ok = false
        · rw [if_pos ho] at h
          injection h with h
          injection h with h
          rw [← h]
          exact Or.inl ⟨rfl, rfl⟩
        · rw [if_neg ho] at h
          injection h with h
          injection h with h
          rw [← h]
          exact Or.inr ⟨st, hs, rfl, rfl⟩

theorem generate_CDR_network_ok {σ : Type} (g : Rng σ) (fuel : Nat)
    (alloc_ok output_ok : Bool) (nr_nodes nr_edges nr_bins : Nat) (dist_bins : List ℚ)
    (dist_hist : List Int) (dist_indices : List (List Int)) (rng : σ) (gen : Generated)
    (h : generate_CDR_network g fuel alloc_ok output_ok nr_nodes nr_edges nr_bins dist_bins
      dist_hist dist_indices rng = some (Except.ok gen)) :
    ∃ b1 b0 max_dist_bin, dist_bins[1]? = some b1 ∧ dist_bins[0]? = some b0 ∧
      dist_bins[nr_bins]? = some max_dist_bin ∧
      generateWith g (cdrDraw g max_dist_bin) fuel alloc_ok output_ok nr_nodes nr_edges nr_bins
        dist_bins dist_hist dist_indices (b1 - b0) rng = some (Except.ok gen) := by
  unfold generate_CDR_network at h
  rcases Option.eq_none_or_eq_some dist_bins[1]? with h1 | ⟨b1, h1⟩
  · rw [h1] at h
    injection h with h
    injection h
  · rw [h1] at h
    dsimp only at h
    rcases Option.eq_none_or_eq_some dist_bins[0]? with h0 | ⟨b0, h0⟩
    · rw [h0] at h
      injection h with h
      injection h
    · rw [h0] at h
      dsimp only at h
      rcases Option.eq_none_or_eq_some dist_bins[nr_bins]? with hm | ⟨m, hm⟩
      · rw [hm] at h
        injection h with h
        injection h
      · rw [hm] at h
        exact ⟨b1, b0, m, h1, h0, hm, h⟩

theorem generate_EDR_network_ok {σ : Type} (g : Rng σ) (fuel : Nat)
    (alloc_ok output_ok : Bool) (nr_nodes nr_edges nr_bins : Nat) (dist_bins : List ℚ)
    (dist_hist : List Int) (dist_indices : List (List Int)) (rng : σ) (lambda : ℚ)
    (gen : Generated)
    (h : generate_EDR_network g fuel alloc_ok output_ok nr_nodes nr_edges nr_bins dist_bins
      dist_hist dist_indices rng lambda = some (Except.ok gen)) :
    ∃ b1 b0, dist_bins[1]? = some b1 ∧ dist_bins[0]? = some b0 ∧
      generateWith g (edrDraw g lambda) fuel alloc_ok output_ok nr_nodes nr_edges nr_bins
        dist_bins dist_hist dist_indices (b1 - b0) rng = some (Except.ok gen) := by
  unfold generate_EDR_network at h
  rcases Option.eq_none_or_eq_some dist_bins[1]? with h1 | ⟨b1, h1⟩
  · rw [h1] at h
    injection h with h
    injection h
  · rw [h1] at h
    dsimp only at h
    rcases Option.eq_none_or_eq_some dist_bins[0]? with h0 | ⟨b0, h0⟩
    · rw [h0] at h
      injection h with h
      injection h
    · rw [h0] at h
      exact ⟨b1, b0, h1, h0, h⟩

/-- A call of one of the two generators that returns comes from a run of the sampling loop with
the draw of that generator. -/
theorem generate_run {σ : Type} (g : Rng σ) (fuel : Nat) (alloc_ok output_ok : Bool)
    (nr_nodes nr_edges nr_bins : Nat) (dist_bins : List ℚ) (dist_hist : List Int)
    (dist_indices : List (List Int)) (rng : σ) (lambda : ℚ) (gen : Generated)
    (hgen : generate_CDR_network g fuel alloc_ok output_ok nr_nodes nr_edges nr_bins dist_bins
        dist_hist dist_indices rng = some (Except.ok gen) ∨
      generate_EDR_network g fuel alloc_ok output_ok nr_nodes nr_edges nr_bins dist_bins
        dist_hist dist_indices rng lambda = some (Except.ok gen)) :
    (gen.code = 1 ∧ gen.edge_list = none) ∨
      ∃ (draw : σ → ℚ × σ) (bin_width : ℚ) (st : Sampler σ),
        sampleLoop g draw nr_nodes nr_edges nr_bins dist_bins dist_hist dist_indices bin_width
          fuel (initialSampler rng) = some (Except.ok st) ∧
        gen.code = 0 ∧ gen.edge_list = some (edgeList nr_nodes st.weights) := by
  rcases hgen with h | h
  · obtain ⟨b1, b0, m, _, _, _, h2⟩ := generate_CDR_network_ok g fuel alloc_ok output_ok
      nr_nodes nr_edges nr_bins dist_bins dist_hist dist_indices rng gen h
    rcases generateWith_ok g _ fuel alloc_ok output_ok nr_nodes nr_edges nr_bins dist_bins
      dist_hist dist_indices _ rng gen h2 with h3 | ⟨st, h3⟩
    · exact Or.inl h3
    · exact Or.inr ⟨_, _, st, h3⟩
  · obtain ⟨b1, b0, _, _, h2⟩ := generate_EDR_network_ok g fuel alloc_ok output_ok
      nr_nodes nr_edges nr_bins dist_bins dist_hist dist_indices rng lambda gen h
    rcases generateWith_ok g _ fuel alloc_ok output_ok nr_nodes nr_edges nr_bins dist_bins
      dist_hist dist_indices _ rng gen h2 with h3 | ⟨st, h3⟩
    · exact Or.inl h3
    · exact Or.inr ⟨_, _, st, h3⟩

/-! ## Runs of the body, forwards -/

theorem sampleStep_fault {σ : Type} (g : Rng σ) (draw : σ → ℚ × σ) (nr_nodes nr_bins : Nat)
    (dist_bins : List ℚ) (dist_hist : List Int) (dist_indices : List (List Int))
    (bin_width : ℚ) (st : Sampler σ) (idx : Nat)
    (hbs : binary_search (2 + nr_bins) dist_bins (sizeAdd nr_bins 1) bin_width
      (draw st.rng).1 = some (Outcome.outOfBounds idx)) :
    sampleStep g draw nr_nodes nr_bins dist_bins dist_hist dist_indices bin_width st =
      some (Except.error (Fault.binsRead idx)) := by
  unfold sampleStep
  rw [hbs]
  rfl

theorem sampleStep_discard {σ : Type} (g : Rng σ) (draw : σ → ℚ × σ) (nr_nodes nr_bins : Nat)
    (dist_bins : List ℚ) (dist_hist : List Int) (dist_indices : List (List Int))
    (bin_width : ℚ) (st : Sampler σ) (r : Int)
    (hbs : binary_search (2 + nr_bins) dist_bins (sizeAdd nr_bins 1) bin_width
      (draw st.rng).1 = some (Outcome.returned r))
    (hr : toSize r = toSize (-1) ∨
      (toSize r ≠ toSize (-1) ∧ dist_hist[toSize r]? = some 0)) :
    sampleStep g draw nr_nodes nr_bins dist_bins dist_hist dist_indices bin_width st =
      some (Except.ok { st with rng := (draw st.rng).2 }) := by
  unfold sampleStep
  rw [hbs]
  unfold onSearch afterSearch
  dsimp only
  rcases hr with hr | ⟨hr, hc⟩
  · rw [if_pos hr]
  · rw [if_neg hr, hc]
    dsimp only
    rw [if_pos rfl]

theorem sampleStep_accept {σ : Type} (g : Rng σ) (draw : σ → ℚ × σ) (nr_nodes nr_bins : Nat)
    (dist_bins : List ℚ) (dist_hist : List Int) (dist_indices : List (List Int))
    (bin_width : ℚ) (st : Sampler σ) (r c a b : Int) (row : List Int) (source target : Nat)
    (hbs : binary_search (2 + nr_bins) dist_bins (sizeAdd nr_bins 1) bin_width
      (draw st.rng).1 = some (Outcome.returned r))
    (hr : toSize r ≠ toSize (-1)) (hc : dist_hist[toSize r]? = some c) (hc0 : c ≠ 0)
    (hrow : dist_indices[toSize r]? = some row)
    (ha : row[(2 * (g.uniform_int (draw st.rng).2 (toSize c)).1) % SIZE_MOD]? = some a)
    (hb : row[sizeAdd ((2 * (g.uniform_int (draw st.rng).2 (toSize c)).1) % SIZE_MOD) 1]? =
      some b)
    (hsource : source =
      if (g.uniform_int (g.uniform_int (draw st.rng).2 (toSize c)).2 2).1 = 1 then toSize b
      else toSize a)
    (htarget : target =
      if (g.uniform_int (g.uniform_int (draw st.rng).2 (toSize c)).2 2).1 = 1 then toSize a
      else toSize b)
    (hs : source < nr_nodes) (ht : target < nr_nodes) :
    sampleStep g draw nr_nodes nr_bins dist_bins dist_hist dist_indices bin_width st =
      some (Except.ok
        { rng := (g.uniform_int (g.uniform_int (draw st.rng).2 (toSize c)).2 2).2
          weights := fun i j =>
            if i = source ∧ j = target then st.weights i j + 1 else st.weights i j
          count_edges :=
            if st.weights source target = 0 then st.count_edges + 1 else st.count_edges }) := by
  unfold sampleStep
  rw [hbs]
  unfold onSearch afterSearch
  dsimp only
  rw [if_neg hr, hc]
  dsimp only
  rw [if_neg hc0]
  unfold drawEdge
  dsimp only
  rw [hrow]
  dsimp only
  rw [ha, hb]
  dsimp only
  unfold insertEdge
  dsimp only
  rw [← hsource, ← htarget, if_pos ⟨hs, ht⟩]

theorem toSize_natCast (k : Nat) (hk : k < 2 ^ 64) : toSize (k : Int) = k := by
  unfold toSize SIZE_MOD
  have h : ((k : Int) % ((2 ^ 64 : Nat) : Int)) = (k : Int) := by
    apply Int.emod_eq_of_lt (Int.natCast_nonneg k)
    exact_mod_cast hk
  rw [h, Int.toNat_ofNat]

theorem toSize_neg_one : toSize (-1) = 2 ^ 64 - 1 := by
  unfold toSize SIZE_MOD
  norm_num
  rfl

/-- The first run of the body on the histogram of the scenario with the raw values
`500, 0, d`: the distance `3/2` in bin 1, the first pair `(0, 1)` of that bin, the direction
`d`. -/
theorem scenario_step (d : Nat) (hd : d < 2) (source target : Nat)
    (hsource : source = if d = 1 then 1 else 0) (htarget : target = if d = 1 then 0 else 1) :
    sampleStep scriptRng (cdrDraw scriptRng 3) 4 3 scenarioBins scenarioHist scenarioIndices
        (1 - 0) (initialSampler [500, 0, d]) =
      some (Except.ok
        { rng := []
          weights := fun i j => if i = source ∧ j = target then (0 : Int) + 1 else 0
          count_edges := 1 }) := by
  have hdraw : (cdrDraw scriptRng 3 (initialSampler [500, 0, d]).rng).1 = 3 / 2 := by
    norm_num [cdrDraw, scriptRng, initialSampler]
  have hrng : (cdrDraw scriptRng 3 (initialSampler [500, 0, d]).rng).2 = [0, d] := rfl
  have hbs : binary_search (2 + 3) scenarioBins (sizeAdd 3 1) (1 - 0)
      (cdrDraw scriptRng 3 (initialSampler [500, 0, d]).rng).1 = some (Outcome.returned 1) := by
    rw [hdraw]
    norm_num [binary_search, searchLoop, sizeSub, sizeAdd, SIZE_MOD, scenarioBins]
  have h1 : toSize 1 = 1 := toSize_natCast 1 (by norm_num)
  have h0 : toSize 0 = 0 := toSize_natCast 0 (by norm_num)
  have h3 : toSize 3 = 3 := toSize_natCast 3 (by norm_num)
  have hdm : d % 2 = d := Nat.mod_eq_of_lt hd
  have hstep := sampleStep_accept scriptRng (cdrDraw scriptRng 3) 4 3 scenarioBins scenarioHist
    scenarioIndices (1 - 0) (initialSampler [500, 0, d]) 1 3 0 1 [0, 1, 1, 2, 2, 3]
    source target hbs
    (by rw [h1, toSize_neg_one]; norm_num) (by rw [h1]; rfl) (by norm_num)
    (by rw [h1]; rfl)
    (by rw [hrng, h3]; rfl) (by rw [hrng, h3]; rfl)
    (by rw [hrng, h3, h1, h0]; show source = if d % 2 = 1 then 1 else 0; rw [hdm]; exact hsource)
    (by rw [hrng, h3, h1, h0]; show target = if d % 2 = 1 then 0 else 1; rw [hdm]; exact htarget)
    (by rw [hsource]; split_ifs <;> norm_num) (by rw [htarget]; split_ifs <;> norm_num)
  rw [hstep]
  rfl

theorem scenario_loop (d : Nat) (hd : d < 2) (source target : Nat)
    (hsource : source = if d = 1 then 1 else 0) (htarget : target = if d = 1 then 0 else 1) :
    sampleLoop scriptRng (cdrDraw scriptRng 3) 4 1 3 scenarioBins scenarioHist scenarioIndices
        (1 - 0) 1 (initialSampler [500, 0, d]) =
      some (Except.ok
        { rng := []
          weights := fun i j => if i = source ∧ j = target then (0 : Int) + 1 else 0
          count_edges := 1 }) := by
  rw [sampleLoop, scenario_step d hd source target hsource htarget]
  rfl

theorem scenario_generate (d : Nat) (hd : d < 2) (source target : Nat)
    (hsource : source = if d = 1 then 1 else 0) (htarget : target = if d = 1 then 0 else 1) :
    generate_CDR_network scriptRng 1 true true 4 1 3 scenarioBins scenarioHist scenarioIndices
        [500, 0, d] =
      some (Except.ok
        { code := 0
          edge_list := some (edgeList 4
            (fun i j => if i = source ∧ j = target then (0 : Int) + 1 else 0)) }) := by
  have h1 : scenarioBins[1]? = some 1 := rfl
  have h0 : scenarioBins[0]? = some 0 := rfl
  have h3 : scenarioBins[3]? = some 3 := rfl
  unfold generate_CDR_network
  rw [h1]
  dsimp only
  rw [h0]
  dsimp only
  rw [h3]
  dsimp only
  unfold generateWith
  rw [if_neg (by decide), scenario_loop d hd source target hsource htarget]
  rfl

/-! ## Claims on the sampler -/

theorem storedPairs_iff (p : Nat × Nat) : ∀ (dist_hist : List Int)
    (dist_indices : List (List Int)),
    p ∈ storedPairs dist_hist dist_indices ↔
      ∃ (k : Nat) (c : Int) (row : List Int), dist_hist[k]? = some c ∧ c ≠ 0 ∧
        dist_indices[k]? = some row ∧ p ∈ toPairs (row.map toSize) := by
  intro dist_hist dist_indices
  constructor
  · intro hp
    induction dist_hist generalizing dist_indices with
    | nil => simp [storedPairs] at hp
    | cons c0 cs ih =>
      cases dist_indices with
      | nil => simp [storedPairs] at hp
      | cons row0 rows =>
        rw [storedPairs, List.mem_append] at hp
        rcases hp with hp | hp
        · by_cases hc0 : c0 ≠ 0
          · rw [if_pos hc0] at hp
            exact ⟨0, c0, row0, List.getElem?_cons_zero, hc0, List.getElem?_cons_zero, hp⟩
          · rw [if_neg hc0] at hp
            exact absurd hp (List.not_mem_nil _)
        · obtain ⟨k, c, row, h1, h2, h3, h4⟩ := ih rows hp
          exact ⟨k + 1, c, row, by rw [List.getElem?_cons_succ]; exact h1, h2,
            by rw [List.getElem?_cons_succ]; exact h3, h4⟩
  · rintro ⟨k, c, row, h1, h2, h3, h4⟩
    exact storedPairs_mem p dist_hist dist_indices k c row h1 h3 h2 h4

/-- C14, against the claim as stated: on the histogram of the scenario with one edge to place
and the raw values `500, 0, 1`, the generator emits the pair `(1, 0)`, which is in no index list
as that ordered pair. -/
theorem provenance_counterexample :
    ∃ gen l, generate_CDR_network scriptRng 1 true true 4 1 3 scenarioBins scenarioHist
        scenarioIndices [500, 0, 1] = some (Except.ok gen) ∧
      gen.edge_list = some l ∧ (1, 0, 1) ∈ l ∧
      ∀ row ∈ scenarioIndices, (1, 0) ∉ toPairs (row.map toSize) := by
  refine ⟨_, _, scenario_generate 1 (by norm_num) 1 0 rfl rfl, rfl, ?_, ?_⟩
  · rw [edgeList_mem]
    decide
  · decide

/-- C14, amended: when `generate_CDR_network` or `generate_EDR_network` has written an edge
list, every emitted pair `(source, target)` is below `nr_nodes` and `(source, target)` or
`(target, source)` is a pair of the index list of a bin with a nonzero count. -/
theorem emitted_pair_provenance {σ : Type} (g : Rng σ) (fuel : Nat) (alloc_ok output_ok : Bool)
    (nr_nodes nr_edges nr_bins : Nat) (dist_bins : List ℚ) (dist_hist : List Int)
    (dist_indices : List (List Int)) (rng : σ) (lambda : ℚ) (gen : Generated)
    (l : List (Nat × Nat × Int))
    (hgen : generate_CDR_network g fuel alloc_ok output_ok nr_nodes nr_edges nr_bins dist_bins
        dist_hist dist_indices rng = some (Except.ok gen) ∨
      generate_EDR_network g fuel alloc_ok output_ok nr_nodes nr_edges nr_bins dist_bins
        dist_hist dist_indices rng lambda = some (Except.ok gen))
    (hl : gen.edge_list = some l) :
    ∀ s t c, (s, t, c) ∈ l → s < nr_nodes ∧ t < nr_nodes ∧
      ∃ (k : Nat) (n : Int) (row : List Int), dist_hist[k]? = some n ∧ n ≠ 0 ∧
        dist_indices[k]? = some row ∧
        ((s, t) ∈ toPairs (row.map toSize) ∨ (t, s) ∈ toPairs (row.map toSize)) := by
  rcases generate_run g fuel alloc_ok output_ok nr_nodes nr_edges nr_bins dist_bins dist_hist
    dist_indices rng lambda gen hgen with ⟨_, h1⟩ | ⟨draw, w, st, hrun, _, hlist⟩
  · rw [hl] at h1
    exact absurd h1 (by simp)
  · have hinv := sampleLoop_inv g draw nr_nodes nr_edges nr_bins dist_bins dist_hist
      dist_indices w fuel (initialSampler rng) st
      (SamplerInv_initial nr_nodes dist_hist dist_indices rng) hrun
    rw [hl] at hlist
    injection hlist with hlist
    subst hlist
    intro s t c hmem
    rw [edgeList_mem] at hmem
    obtain ⟨hs, ht, hw, _⟩ := hmem
    refine ⟨hs, ht, ?_⟩
    rcases (hinv.2.1 s t hw).2.2 with h | h
    · obtain ⟨k, n, row, h1, h2, h3, h4⟩ := (storedPairs_iff _ dist_hist dist_indices).mp h
      exact ⟨k, n, row, h1, h2, h3, Or.inl h4⟩
    · obtain ⟨k, n, row, h1, h2, h3, h4⟩ := (storedPairs_iff _ dist_hist dist_indices).mp h
      exact ⟨k, n, row, h1, h2, h3, Or.inr h4⟩

theorem emitted_pair_provenance_witness :
    1 < 4 ∧ 0 < 4 ∧
      ∃ (k : Nat) (n : Int) (row : List Int), scenarioHist[k]? = some n ∧ n ≠ 0 ∧
        scenarioIndices[k]? = some row ∧
        ((1, 0) ∈ toPairs (row.map toSize) ∨ (0, 1) ∈ toPairs (row.map toSize)) :=
  emitted_pair_provenance scriptRng 1 true true 4 1 3 scenarioBins scenarioHist scenarioIndices
    [500, 0, 1] 1 _ _ (Or.inl (scenario_generate 1 (by norm_num) 1 0 rfl rfl)) rfl 1 0 1
    (by rw [edgeList_mem]; decide)

/-- C16. The edge list: for every weight matrix the export loop emits exactly the triples
`(i, j, weights[i][j])` of the pairs `i, j < nr_nodes` with a nonzero weight, in the row-major
order of the scan, strictly increasing, so each pair once and no pair of weight `0`. -/
theorem edge_list_output (nr_nodes : Nat) (weights : Nat → Nat → Int) :
    edgeList nr_nodes weights =
      ((scanPairs 0 nr_nodes).filter (fun p => decide (weights p.1 p.2 ≠ 0))).map
        (fun p => (p.1, p.2, weights p.1 p.2)) ∧
    (∀ i j c, (i, j, c) ∈ edgeList nr_nodes weights ↔
      i < nr_nodes ∧ j < nr_nodes ∧ weights i j ≠ 0 ∧ c = weights i j) ∧
    ((edgeList nr_nodes weights).map (fun t => (t.1, t.2.1))).Pairwise RowMajorLt ∧
    (edgeList nr_nodes weights).Nodup := by
  have hpw : ((edgeList nr_nodes weights).map (fun t => (t.1, t.2.1))).Pairwise RowMajorLt := by
    rw [edgeList_eq, List.map_map]
    have hid : ((fun t : Nat × Nat × Int => (t.1, t.2.1)) ∘
        fun p : Nat × Nat => (p.1, p.2, weights p.1 p.2)) = id := by
      funext p
      rfl
    rw [hid, List.map_id]
    exact (pairwise_scanPairs 0 nr_nodes).sublist (List.filter_sublist _)
  refine ⟨edgeList_eq nr_nodes weights, edgeList_mem nr_nodes weights, hpw, ?_⟩
  have hnd : ((edgeList nr_nodes weights).map (fun t => (t.1, t.2.1))).Nodup := by
    refine hpw.imp ?_
    intro p q h heq
    subst heq
    rcases h with h | ⟨_, h⟩ <;> omega
  exact List.Nodup.of_map _ hnd

/-! ## Claims on the network-generation command -/

theorem check_input_args_negative (NR_NODES NR_EDGES : Nat) (b h i : Bool) (LAMBDA : ℚ)
    (hl : LAMBDA < 0) : check_input_args NR_NODES NR_EDGES b h i LAMBDA = 1 := by
  unfold check_input_args
  split_ifs <;> rfl

theorem check_input_args_zero (NR_NODES NR_EDGES : Nat) (b h i : Bool) (LAMBDA : ℚ)
    (hz : NR_NODES = 0 ∨ NR_EDGES = 0) : check_input_args NR_NODES NR_EDGES b h i LAMBDA = 1 := by
  unfold check_input_args
  split_ifs with h1 h2
  · rfl
  · rfl
  all_goals omega

theorem check_input_args_pass (NR_NODES NR_EDGES : Nat) (LAMBDA : ℚ) (hn : NR_NODES ≠ 0)
    (he : NR_EDGES ≠ 0) (hl : 0 ≤ LAMBDA) :
    check_input_args NR_NODES NR_EDGES true true true LAMBDA = 0 := by
  unfold check_input_args
  rw [if_neg (by omega), if_neg (by omega), if_neg (by decide), if_neg (by decide),
    if_neg (by decide), if_neg (not_lt.mpr hl)]

theorem toSize_ne_zero (a : Int) (ha : a ≠ 0) (hlo : -2 ^ 63 ≤ a) (hhi : a < 2 ^ 63) :
    toSize a ≠ 0 := by
  unfold toSize SIZE_MOD
  push_cast
  omega

theorem toSize_negative (a : Int) (ha : a < 0) (hlo : -2 ^ 63 ≤ a) :
    (toSize a : Int) = a + 2 ^ 64 := by
  unfold toSize SIZE_MOD
  push_cast
  omega

/-- The command when the checks pass and the histogram is read: it calls the generator chosen
by the decay parameter and ends with `finish`. -/
theorem main_dispatch {σ : Type} (g : Rng σ) (fuel : Nat) (args : Arguments)
    (env : Environment) (rng : σ) (distance_bins : List ℚ) (distance_hist : List Int)
    (distance_indices : List (List Int)) (hargc : 8 ≤ args.argc)
    (hcheck : check_input_args (toSize args.nr_nodes) (toSize args.nr_edges) env.bins_openable
      env.hist_openable env.idx_openable args.lambda = 0)
    (hread : env.histogram = some (distance_bins, distance_hist, distance_indices)) :
    generate_network_main g fuel args env rng =
      if args.lambda = 0 then
        finish (generate_CDR_network g fuel env.alloc_ok env.output_openable
          (toSize args.nr_nodes) (toSize args.nr_edges) 20 distance_bins distance_hist
          distance_indices rng)
      else
        finish (generate_EDR_network g fuel env.alloc_ok env.output_openable
          (toSize args.nr_nodes) (toSize args.nr_edges) 20 distance_bins distance_hist
          distance_indices rng args.lambda) := by
  unfold generate_network_main
  rw [if_neg (by omega)]
  dsimp only
  rw [if_neg (by rw [hcheck]; exact fun h => h rfl), hread]

theorem finish_status (r : Option (Except Fault Generated)) (e : Exit)
    (h : finish r = some (Except.ok e)) :
    e.status = 0 ∧ e.success_reported = true ∧ ∃ gen, r = some (Except.ok gen) ∧
      e.generated = some gen := by
  unfold finish at h
  cases r with
  | none => injection h
  | some res =>
    cases res with
    | error f =>
      injection h with h
      injection h
    | ok gen =>
      injection h with h
      injection h with h
      rw [← h]
      exact ⟨rfl, rfl, gen, rfl, rfl⟩

/-- C17. Selection of the strategy by the decay parameter: a negative `lambda` ends the command
with the status `1` before any call of a generator; when the checks pass and the histogram is
read, `lambda == 0` runs `generate_CDR_network`, whose distance draw is
`u * dist_bins[nr_bins]` with `u` uniform in `[0, 1)`, so `0 <= d < max_dist_bin` when
`max_dist_bin > 0`, and `lambda > 0` runs `generate_EDR_network` with that `lambda`, whose
distance draw is the exponential draw of mean `1/lambda`. -/
theorem strategy_selection {σ : Type} (g : Rng σ) (fuel : Nat) (args : Arguments)
    (env : Environment) (rng : σ) :
    (args.lambda < 0 →
      generate_network_main g fuel args env rng =
        some (Except.ok { status := 1, success_reported := false, generated := none })) ∧
    (∀ distance_bins distance_hist distance_indices, 8 ≤ args.argc →
      check_input_args (toSize args.nr_nodes) (toSize args.nr_edges) env.bins_openable
        env.hist_openable env.idx_openable args.lambda = 0 →
      env.histogram = some (distance_bins, distance_hist, distance_indices) →
      (args.lambda = 0 →
        generate_network_main g fuel args env rng =
          finish (generate_CDR_network g fuel env.alloc_ok env.output_openable
            (toSize args.nr_nodes) (toSize args.nr_edges) 20 distance_bins distance_hist
            distance_indices rng)) ∧
      (0 < args.lambda →
        generate_network_main g fuel args env rng =
          finish (generate_EDR_network g fuel env.alloc_ok env.output_openable
            (toSize args.nr_nodes) (toSize args.nr_edges) 20 distance_bins distance_hist
            distance_indices rng args.lambda))) ∧
    (∀ (alloc_ok output_ok : Bool) (nr_nodes nr_edges nr_bins : Nat) (dist_bins : List ℚ)
        (dist_hist : List Int) (dist_indices : List (List Int)) (lambda b1 b0 m : ℚ),
      dist_bins[1]? = some b1 → dist_bins[0]? = some b0 →
      (dist_bins[nr_bins]? = some m →
        generate_CDR_network g fuel alloc_ok output_ok nr_nodes nr_edges nr_bins dist_bins
            dist_hist dist_indices rng =
          generateWith g (cdrDraw g m) fuel alloc_ok output_ok nr_nodes nr_edges nr_bins
            dist_bins dist_hist dist_indices (b1 - b0) rng) ∧
      generate_EDR_network g fuel alloc_ok output_ok nr_nodes nr_edges nr_bins dist_bins
          dist_hist dist_indices rng lambda =
        generateWith g (edrDraw g lambda) fuel alloc_ok output_ok nr_nodes nr_edges nr_bins
          dist_bins dist_hist dist_indices (b1 - b0) rng) ∧
    (RngContract g → ∀ (m : ℚ) (s : σ), 0 < m →
      (cdrDraw g m s).1 = (g.uniform s).1 * m ∧ 0 ≤ (cdrDraw g m s).1 ∧ (cdrDraw g m s).1 < m) ∧
    (∀ (lambda : ℚ) (s : σ), edrDraw g lambda s = g.exponential s (1 / lambda)) := by
  refine ⟨?_, ?_, ?_, ?_, fun _ _ => rfl⟩
  · intro hl
    unfold generate_network_main
    by_cases hargc : args.argc < 8
    · rw [if_pos hargc]
    · rw [if_neg hargc]
      dsimp only
      rw [if_pos (by rw [check_input_args_negative _ _ _ _ _ _ hl]; decide)]
  · intro distance_bins distance_hist distance_indices hargc hcheck hread
    have h := main_dispatch g fuel args env rng distance_bins distance_hist distance_indices
      hargc hcheck hread
    constructor
    · intro hl
      rw [h, if_pos hl]
    · intro hl
      rw [h, if_neg (ne_of_gt hl)]
  · intro alloc_ok output_ok nr_nodes nr_edges nr_bins dist_bins dist_hist dist_indices lambda
      b1 b0 m h1 h0
    constructor
    · intro hm
      unfold generate_CDR_network
      rw [h1]
      dsimp only
      rw [h0]
      dsimp only
      rw [hm]
    · unfold generate_EDR_network
      rw [h1]
      dsimp only
      rw [h0]
  · intro hc m s hm
    obtain ⟨h0, h1⟩ := hc.1 s
    refine ⟨rfl, ?_, ?_⟩
    · exact mul_nonneg h0 (le_of_lt hm)
    · show (g.uniform s).1 * m < m
      nlinarith

/-- The raw value `0` gives the uniform real `0` and every uniform integer is below its
bound. -/
theorem scriptRng_contract : RngContract scriptRng := by
  constructor
  · intro s
    constructor
    · exact div_nonneg (Nat.cast_nonneg _) (by norm_num)
    · show ((s.headD 0 % 1000 : Nat) : ℚ) / 1000 < 1
      rw [div_lt_one (by norm_num)]
      have : s.headD 0 % 1000 < 1000 := Nat.mod_lt _ (by norm_num)
      exact_mod_cast this
  · intro s n hn
    exact Nat.mod_lt _ hn

/-- C19, on the code: a negative node count or edge count is not rejected. The counts are stored
in `size_t` before the test `<= 0`, which is then true for `0` only: with both counts nonzero,
one of them negative, the files present and `lambda >= 0`, `check_input_args` returns `0`, the
command calls a generator with the wrapped counts, and whenever it ends its status is `0` and it
reports success. -/
theorem negative_counts_accepted {σ : Type} (g : Rng σ) (fuel : Nat) (args : Arguments)
    (env : Environment) (rng : σ) (distance_bins : List ℚ) (distance_hist : List Int)
    (distance_indices : List (List Int)) (hargc : 8 ≤ args.argc)
    (hn : args.nr_nodes ≠ 0) (hnlo : -2 ^ 31 ≤ args.nr_nodes) (hnhi : args.nr_nodes < 2 ^ 31)
    (he : args.nr_edges ≠ 0) (helo : -2 ^ 31 ≤ args.nr_edges) (hehi : args.nr_edges < 2 ^ 31)
    (_hneg : args.nr_nodes < 0 ∨ args.nr_edges < 0) (hl : 0 ≤ args.lambda)
    (hb : env.bins_openable = true) (hh : env.hist_openable = true)
    (hi : env.idx_openable = true)
    (hread : env.histogram = some (distance_bins, distance_hist, distance_indices)) :
    check_input_args (toSize args.nr_nodes) (toSize args.nr_edges) env.bins_openable
      env.hist_openable env.idx_openable args.lambda = 0 ∧
    generate_network_main g fuel args env rng =
      (if args.lambda = 0 then
        finish (generate_CDR_network g fuel env.alloc_ok env.output_openable
          (toSize args.nr_nodes) (toSize args.nr_edges) 20 distance_bins distance_hist
          distance_indices rng)
      else
        finish (generate_EDR_network g fuel env.alloc_ok env.output_openable
          (toSize args.nr_nodes) (toSize args.nr_edges) 20 distance_bins distance_hist
          distance_indices rng args.lambda)) ∧
    (∀ e, generate_network_main g fuel args env rng = some (Except.ok e) →
      e.status = 0 ∧ e.success_reported = true) ∧
    (args.nr_nodes < 0 → (toSize args.nr_nodes : Int) = args.nr_nodes + 2 ^ 64) ∧
    (args.nr_edges < 0 → (toSize args.nr_edges : Int) = args.nr_edges + 2 ^ 64) := by
  have hcheck : check_input_args (toSize args.nr_nodes) (toSize args.nr_edges)
      env.bins_openable env.hist_openable env.idx_openable args.lambda = 0 := by
    rw [hb, hh, hi]
    exact check_input_args_pass _ _ _
      (toSize_ne_zero _ hn (by omega) (by omega)) (toSize_ne_zero _ he (by omega) (by omega)) hl
  have hmain := main_dispatch g fuel args env rng distance_bins distance_hist distance_indices
    hargc hcheck hread
  refine ⟨hcheck, hmain, ?_, fun h => toSize_negative _ h (by omega),
    fun h => toSize_negative _ h (by omega)⟩
  intro e hrun
  rw [hmain] at hrun
  by_cases hz : args.lambda = 0
  · rw [if_pos hz] at hrun
    exact ⟨(finish_status _ e hrun).1, (finish_status _ e hrun).2.1⟩
  · rw [if_neg hz] at hrun
    exact ⟨(finish_status _ e hrun).1, (finish_status _ e hrun).2.1⟩

/-- A failed allocation of `weights` makes `generate_CDR_network` return `1` at once. -/
theorem generate_alloc_failure {σ : Type} (g : Rng σ) (fuel : Nat) (output_ok : Bool)
    (nr_nodes nr_edges nr_bins : Nat) (dist_bins : List ℚ) (dist_hist : List Int)
    (dist_indices : List (List Int)) (rng : σ) (b1 b0 m : ℚ) (h1 : dist_bins[1]? = some b1)
    (h0 : dist_bins[0]? = some b0) (hm : dist_bins[nr_bins]? = some m) :
    generate_CDR_network g fuel false output_ok nr_nodes nr_edges nr_bins dist_bins dist_hist
      dist_indices rng = some (Except.ok { code := 1, edge_list := none }) := by
  unfold generate_CDR_network
  rw [h1]
  dsimp only
  rw [h0]
  dsimp only
  rw [hm]
  dsimp only
  unfold generateWith
  rw [if_pos rfl]

theorem negative_counts_accepted_witness :
    check_input_args (toSize 4) (toSize (-5)) true true true 0 = 0 ∧
      ((toSize (-5) : Nat) : Int) = -5 + 2 ^ 64 :=
  have h := negative_counts_accepted scriptRng 1
    { argc := 8, nr_nodes := 4, nr_edges := -5, lambda := 0 }
    { bins_openable := true, hist_openable := true, idx_openable := true,
      histogram := some (scenarioBins, scenarioHist, scenarioIndices), alloc_ok := true,
      output_openable := true }
    [] scenarioBins scenarioHist scenarioIndices (by decide) (by decide) (by decide) (by decide)
    (by decide) (by decide) (by decide) (Or.inr (by decide)) (le_refl _) rfl rfl rfl rfl
  ⟨h.1, h.2.2.2.2 (by decide)⟩

/-- C20, on the code: the value returned by the generator is not looked at. When the checks pass,
the histogram is read and the generator returns a failure code, the command still prints the
success line and ends with the status `0`. -/
theorem failure_not_propagated {σ : Type} (g : Rng σ) (fuel : Nat) (args : Arguments)
    (env : Environment) (rng : σ) (distance_bins : List ℚ) (distance_hist : List Int)
    (distance_indices : List (List Int)) (gen : Generated) (hargc : 8 ≤ args.argc)
    (hcheck : check_input_args (toSize args.nr_nodes) (toSize args.nr_edges) env.bins_openable
      env.hist_openable env.idx_openable args.lambda = 0)
    (hread : env.histogram = some (distance_bins, distance_hist, distance_indices))
    (hgen : (args.lambda = 0 ∧
        generate_CDR_network g fuel env.alloc_ok env.output_openable (toSize args.nr_nodes)
          (toSize args.nr_edges) 20 distance_bins distance_hist distance_indices rng =
          some (Except.ok gen)) ∨
      (args.lambda ≠ 0 ∧
        generate_EDR_network g fuel env.alloc_ok env.output_openable (toSize args.nr_nodes)
          (toSize args.nr_edges) 20 distance_bins distance_hist distance_indices rng
          args.lambda = some (Except.ok gen)))
    (_hfail : gen.code ≠ 0) :
    generate_network_main g fuel args env rng =
      some (Except.ok { status := 0, success_reported := true, generated := some gen }) := by
  rw [main_dispatch g fuel args env rng distance_bins distance_hist distance_indices hargc
    hcheck hread]
  rcases hgen with ⟨hz, hrun⟩ | ⟨hz, hrun⟩
  · rw [if_pos hz, hrun]
    rfl
  · rw [if_neg hz, hrun]
    rfl

theorem failure_not_propagated_witness :
    generate_network_main scriptRng 1 { argc := 8, nr_nodes := 4, nr_edges := 3, lambda := 0 }
        { bins_openable := true, hist_openable := true, idx_openable := true,
          histogram := some (List.replicate 21 0, List.replicate 21 0, List.replicate 21 []),
          alloc_ok := false, output_openable := true } [] =
      some (Except.ok
        { status := 0, success_reported := true,
          generated := some { code := 1, edge_list := none } }) :=
  failure_not_propagated scriptRng 1 { argc := 8, nr_nodes := 4, nr_edges := 3, lambda := 0 }
    { bins_openable := true, hist_openable := true, idx_openable := true,
      histogram := some (List.replicate 21 0, List.replicate 21 0, List.replicate 21 []),
      alloc_ok := false, output_openable := true } []
    (List.replicate 21 0) (List.replicate 21 0) (List.replicate 21 [])
    { code := 1, edge_list := none } (by decide)
    (check_input_args_pass _ _ _
      (toSize_ne_zero 4 (by decide) (by decide) (by decide))
      (toSize_ne_zero 3 (by decide) (by decide) (by decide)) (le_refl _))
    rfl
    (Or.inl ⟨rfl, generate_alloc_failure scriptRng 1 true _ _ 20 _ _ _ [] 0 0 0 rfl rfl rfl⟩)
    (by decide)

/-! ## The probes of the search above the first boundary -/

/-- The record does not change what the loop does. -/
theorem searchTrace_outcome (bins : List ℚ) (w v : ℚ) :
    ∀ fuel lower upper,
      (searchTrace bins w v fuel lower upper).map Prod.snd = searchLoop bins w v fuel lower upper := by
  intro fuel
  induction fuel with
  | zero => intro lower upper; rfl
  | succ fuel ih =>
    intro lower upper
    rw [searchTrace, searchLoop]
    by_cases hle : lower ≤ upper
    · rw [if_pos hle, if_pos hle]
      dsimp only
      rcases Option.eq_none_or_eq_some (bins[sizeAdd lower (sizeSub upper lower / 2)]?) with
        hb | ⟨b, hb⟩
      · rw [hb]
        rfl
      · rw [hb]
        dsimp only
        by_cases h1 : b < v ∧ v ≤ b + w
        · rw [if_pos h1, if_pos h1]
          rfl
        · rw [if_neg h1, if_neg h1]
          by_cases h2 : v ≤ b
          · rw [if_pos h2, if_pos h2, ← ih]
            rcases Option.eq_none_or_eq_some (searchTrace bins w v fuel lower
              (sizeSub (sizeAdd lower (sizeSub upper lower / 2)) 1)) with ht | ⟨t, ht⟩
            · rw [ht]
            · rw [ht]
              rfl
          · rw [if_neg h2, if_neg h2, ← ih]
            rcases Option.eq_none_or_eq_some (searchTrace bins w v fuel
              (sizeAdd (sizeAdd lower (sizeSub upper lower / 2)) 1) upper) with ht | ⟨t, ht⟩
            · rw [ht]
            · rw [ht]
              rfl
    · rw [if_neg hle, if_neg hle]
      rfl

/-- One unfolding of the recorded loop when the probe is inside the array. -/
theorem searchTrace_step (bins : List ℚ) (w v : ℚ) (fuel lower upper : Nat) (b : ℚ)
    (hle : lower ≤ upper) (hu : upper < 2 ^ 64)
    (hb : bins[lower + (upper - lower) / 2]? = some b) :
    searchTrace bins w v (fuel + 1) lower upper =
      if b < v ∧ v ≤ b + w then
        some ([(lower + (upper - lower) / 2, false)],
          Outcome.returned ((lower + (upper - lower) / 2 : Nat) : Int))
      else if v ≤ b then
        match searchTrace bins w v fuel lower (sizeSub (lower + (upper - lower) / 2) 1) with
        | none => none
        | some t => some ((lower + (upper - lower) / 2, true) :: t.1, t.2)
      else
        match searchTrace bins w v fuel (sizeAdd (lower + (upper - lower) / 2) 1) upper with
        | none => none
        | some t => some ((lower + (upper - lower) / 2, false) :: t.1, t.2) := by
  rw [searchTrace, if_pos hle]
  simp only [middle_eq hle hu, hb]

/-- Above the first boundary the loop stays inside the window it was given: it ends with a
returned value after at most `upper + 1 - lower` probes, every probe is in
`[lower, upper]`, and `upper = middle - 1` is executed only at a `middle` other than `0`. -/
theorem searchTrace_safe (bins : List ℚ) (w v : ℚ) (hsz : bins.length < 2 ^ 64)
    (hv : bins.getD 0 0 < v) :
    ∀ fuel lower upper, lower ≤ upper + 1 → upper < bins.length → upper + 2 ≤ fuel + lower →
      ∃ (trace : List (Nat × Bool)) (r : Int),
        searchTrace bins w v fuel lower upper = some (trace, Outcome.returned r) ∧
        trace.length + lower ≤ upper + 1 ∧
        (∀ p ∈ trace, lower ≤ p.1 ∧ p.1 ≤ upper ∧ (p.2 = true → p.1 ≠ 0)) ∧
        (r = -1 ∨ ∃ m : Nat, r = (m : Int) ∧ lower ≤ m ∧ m ≤ upper) := by
  intro fuel
  induction fuel with
  | zero => intro lower upper _ _ hf; omega
  | succ fuel ih =>
    intro lower upper hlu hu hf
    by_cases hle : lower ≤ upper
    · have hm : lower + (upper - lower) / 2 < bins.length := by omega
      have hb := getElem?_getD hm
      rw [searchTrace_step bins w v fuel lower upper _ hle (by omega) hb]
      by_cases h1 : bins.getD (lower + (upper - lower) / 2) 0 < v ∧
          v ≤ bins.getD (lower + (upper - lower) / 2) 0 + w
      · rw [if_pos h1]
        refine ⟨_, _, rfl, ?_, ?_, Or.inr ⟨_, rfl, by omega, by omega⟩⟩
        · show 1 + lower ≤ upper + 1
          omega
        · intro p hp
          rw [List.mem_singleton] at hp
          subst hp
          exact ⟨by show lower ≤ lower + (upper - lower) / 2; omega,
            by show lower + (upper - lower) / 2 ≤ upper; omega, by intro h; cases h⟩
      · rw [if_neg h1]
        by_cases h2 : v ≤ bins.getD (lower + (upper - lower) / 2) 0
        · rw [if_pos h2]
          have hz : lower + (upper - lower) / 2 ≠ 0 := by
            intro hz
            rw [hz] at h2
            exact absurd hv (not_lt.mpr h2)
          rw [sizeSub_of_le (by omega) (by omega)]
          obtain ⟨trace, r, ht, hlen, hall, hr⟩ :=
            ih lower (lower + (upper - lower) / 2 - 1) (by omega) (by omega) (by omega)
          rw [ht]
          refine ⟨_, r, rfl, ?_, ?_, ?_⟩
          · show trace.length + 1 + lower ≤ upper + 1
            omega
          · intro p hp
            rw [List.mem_cons] at hp
            rcases hp with hp | hp
            · subst hp
              exact ⟨by show lower ≤ lower + (upper - lower) / 2; omega,
                by show lower + (upper - lower) / 2 ≤ upper; omega, fun _ => hz⟩
            · obtain ⟨a1, a2, a3⟩ := hall p hp
              exact ⟨a1, by omega, a3⟩
          · rcases hr with hr | ⟨m, hm1, hm2, hm3⟩
            · exact Or.inl hr
            · exact Or.inr ⟨m, hm1, hm2, by omega⟩
        · rw [if_neg h2]
          rw [sizeAdd_of_lt (by omega)]
          obtain ⟨trace, r, ht, hlen, hall, hr⟩ :=
            ih (lower + (upper - lower) / 2 + 1) upper (by omega) hu (by omega)
          rw [ht]
          refine ⟨_, r, rfl, ?_, ?_, ?_⟩
          · show trace.length + 1 + lower ≤ upper + 1
            omega
          · intro p hp
            rw [List.mem_cons] at hp
            rcases hp with hp | hp
            · subst hp
              exact ⟨by show lower ≤ lower + (upper - lower) / 2; omega,
                by show lower + (upper - lower) / 2 ≤ upper; omega, by intro h; cases h⟩
            · obtain ⟨a1, a2, a3⟩ := hall p hp
              exact ⟨by omega, a2, a3⟩
          · rcases hr with hr | ⟨m, hm1, hm2, hm3⟩
            · exact Or.inl hr
            · exact Or.inr ⟨m, hm1, by omega, hm3⟩
    · refine ⟨[], -1, ?_, ?_, ?_, Or.inl rfl⟩
      · rw [searchTrace, if_neg hle]
      · show 0 + lower ≤ upper + 1
        omega
      · intro p hp
        exact absurd hp (List.not_mem_nil _)

/-- C26. Termination and in-range probing of `binary_search`: for an array of length
`1 <= n < 2 ^ 64`, sorted or not, any width and a value `v > bins[0]`, the loop ends with a
returned value within the fuel `n + 1` (one unit per evaluation of the loop condition), after
at most `n` executions of its body; every index `middle` it reads is below `n`, and the update
`upper = middle - 1` is never executed at `middle = 0`. The returned value is `-1` or an index
below `n`. -/
theorem binary_search_probes (bins : List ℚ) (w v : ℚ) (n fuel : Nat) (hn : 1 ≤ n)
    (hlen : bins.length = n) (hsz : n < 2 ^ 64) (hv : bins.getD 0 0 < v)
    (hfuel : n + 1 ≤ fuel) :
    ∃ (trace : List (Nat × Bool)) (r : Int),
      searchTrace bins w v fuel 0 (sizeSub n 1) = some (trace, Outcome.returned r) ∧
      binary_search fuel bins n w v = some (Outcome.returned r) ∧
      trace.length ≤ n ∧
      (∀ p ∈ trace, p.1 < n ∧ (p.2 = true → p.1 ≠ 0)) ∧
      (r = -1 ∨ (0 ≤ r ∧ r < (n : Int))) := by
  have hs : sizeSub n 1 = n - 1 := sizeSub_of_le hn hsz
  obtain ⟨trace, r, ht, hl, hall, hr⟩ := searchTrace_safe bins w v (by omega) hv fuel 0 (n - 1)
    (by omega) (by omega) (by omega)
  refine ⟨trace, r, by rw [hs]; exact ht, ?_, by omega, ?_, ?_⟩
  · unfold binary_search
    rw [hs, ← searchTrace_outcome, ht]
    rfl
  · intro p hp
    obtain ⟨_, a2, a3⟩ := hall p hp
    exact ⟨by omega, a3⟩
  · rcases hr with hr | ⟨m, hm1, _, hm3⟩
    · exact Or.inl hr
    · refine Or.inr ⟨by rw [hm1]; exact Int.natCast_nonneg m, ?_⟩
      rw [hm1]
      exact_mod_cast (by omega : m < n)

theorem binary_search_probes_witness :
    ∃ (trace : List (Nat × Bool)) (r : Int),
      searchTrace [0, 5, 1] 1 3 4 0 (sizeSub 3 1) = some (trace, Outcome.returned r) ∧
      binary_search 4 [0, 5, 1] 3 1 3 = some (Outcome.returned r) ∧
      trace.length ≤ 3 ∧
      (∀ p ∈ trace, p.1 < 3 ∧ (p.2 = true → p.1 ≠ 0)) ∧
      (r = -1 ∨ (0 ≤ r ∧ r < ((3 : Nat) : Int))) :=
  binary_search_probes [0, 5, 1] 1 3 3 4 (by norm_num) rfl (by norm_num)
    (by norm_num [List.getD]) (by norm_num)

/-! ## The reader of the distance matrix, the start of the minimum, the counter -/

theorem readRecords_ok (nr_nodes : Nat) :
    ∀ (records : List (Nat × Nat × ℚ)) (distances : Nat → Nat → ℚ),
      (∀ p ∈ records, p.1 < nr_nodes ∧ p.2.1 < nr_nodes) →
      ∃ d, readRecords nr_nodes records distances = Except.ok d ∧
        (∀ r c, (∀ p ∈ records, ¬ (p.1 = r ∧ p.2.1 = c)) → d r c = distances r c) ∧
        (∀ pre post r c x, records = pre ++ (r, c, x) :: post →
          (∀ p ∈ post, ¬ (p.1 = r ∧ p.2.1 = c)) → d r c = x) := by
  intro records
  induction records with
  | nil =>
    intro distances _
    refine ⟨distances, rfl, fun _ _ _ => rfl, ?_⟩
    intro pre post r c x h
    exact absurd h (by simp)
  | cons q rest ih =>
    intro distances hin
    obtain ⟨source, target, distance⟩ := q
    have hq : source < nr_nodes ∧ target < nr_nodes :=
      hin (source, target, distance) (List.mem_cons_self _ _)
    have hs : ¬ (source < 0 ∨ source ≥ nr_nodes) := by
      have := hq.1
      omega
    have ht : ¬ (target < 0 ∨ target ≥ nr_nodes) := by
      have := hq.2
      omega
    obtain ⟨d, hd, hun, hlast⟩ := ih
      (fun i j => if i = source ∧ j = target then distance else distances i j)
      (fun p hp => hin p (List.mem_cons_of_mem _ hp))
    refine ⟨d, ?_, ?_, ?_⟩
    · rw [readRecords, if_neg hs, if_neg ht]
      exact hd
    · intro r c hno
      rw [hun r c (fun p hp => hno p (List.mem_cons_of_mem _ hp))]
      have := hno (source, target, distance) (List.mem_cons_self _ _)
      exact if_neg (fun h => this ⟨h.1.symm, h.2.symm⟩)
    · intro pre post r c x hsplit hpost
      cases pre with
      | nil =>
        rw [List.nil_append] at hsplit
        injection hsplit with h1 h2
        subst h2
        rw [hun r c hpost]
        injection h1 with h11 h12
        injection h12 with h121 h122
        rw [if_pos ⟨h11.symm, h121.symm⟩, h122]
      | cons q1 pre1 =>
        rw [List.cons_append] at hsplit
        injection hsplit with _ h2
        exact hlast pre1 post r c x h2 hpost

/-- C21, what the code does: when the allocations succeed, the file opens and every record is
in range, `read_distance_matrix` returns `0` with a matrix in which a listed entry has the
distance of its last record, and an entry that no record lists holds what the memory allocated
by `malloc` held before, which nothing sets to `0`. -/
theorem unlisted_entries_kept (memory : Nat → Nat → ℚ) (records : List (Nat × Nat × ℚ))
    (nr_nodes : Nat) (hin : ∀ p ∈ records, p.1 < nr_nodes ∧ p.2.1 < nr_nodes) :
    ∃ d, read_distance_matrix true true memory records nr_nodes = Except.ok d ∧
      (∀ r c, (∀ p ∈ records, ¬ (p.1 = r ∧ p.2.1 = c)) → d r c = memory r c) ∧
      (∀ pre post r c x, records = pre ++ (r, c, x) :: post →
        (∀ p ∈ post, ¬ (p.1 = r ∧ p.2.1 = c)) → d r c = x) := by
  obtain ⟨d, hd, hun, hlast⟩ := readRecords_ok nr_nodes records memory hin
  refine ⟨d, ?_, hun, hlast⟩
  unfold read_distance_matrix
  rw [if_neg (by decide), if_neg (by decide)]
  exact hd

theorem unlisted_entries_kept_witness :
    ∃ d, read_distance_matrix true true (fun _ _ => 7) [(0, 1, 3 / 2)] 2 = Except.ok d ∧
      d 0 0 = 7 ∧ d 1 0 = 7 ∧ d 0 1 = 3 / 2 := by
  obtain ⟨d, hd, hun, hlast⟩ := unlisted_entries_kept (fun _ _ => 7) [(0, 1, 3 / 2)] 2
    (by
      intro p hp
      rw [List.mem_singleton] at hp
      subst hp
      exact ⟨by decide, by decide⟩)
  refine ⟨d, hd, hun 0 0 ?_, hun 1 0 ?_, hlast [] [] 0 1 (3 / 2) rfl ?_⟩
  · intro p hp
    rw [List.mem_singleton] at hp
    subst hp
    exact fun h => absurd h.2 (by decide)
  · intro p hp
    rw [List.mem_singleton] at hp
    subst hp
    exact fun h => absurd h.1 (by decide)
  · intro p hp
    exact absurd hp (List.not_mem_nil _)

theorem scenario_positive : ∀ p ∈ scanPairs 1 4, 0 < scenario p.1 p.2 := by
  intro p hp
  obtain ⟨i, j⟩ := p
  rw [mem_scanPairs_symm] at hp
  obtain ⟨h01, h02, h03, h12, h13, h23⟩ := scenario_values
  have h1 : i < j := hp.1
  have h2 : j < 4 := hp.2
  show 0 < scenario i j
  interval_cases j <;> interval_cases i <;>
    first
    | omega
    | (rw [h01]; norm_num)
    | (rw [h02]; norm_num)
    | (rw [h03]; norm_num)
    | (rw [h12]; norm_num)
    | (rw [h13]; norm_num)
    | (rw [h23]; norm_num)

/-- C23. The minimum accumulator starts at zero: for every matrix and either flag, the exported
`min_bins` and `max_bins` satisfy `min_bins <= 0 <= max_bins`; when every scanned distance is
`>= 0` (all of them may be strictly positive), `min_bins = 0`, so `bins[0] = 0` and
`bin_width = max_bins / nr_bins`. -/
theorem minimum_starts_at_zero (distances : Nat → Nat → ℚ) (nr_nodes nr_bins : Nat)
    (is_symm : Int) (hflag : is_symm = 1 ∨ is_symm = 0) :
    ∃ h, export_distance_histogram distances nr_nodes is_symm nr_bins = Except.ok h ∧
      h.min_bins ≤ 0 ∧ 0 ≤ h.max_bins ∧
      ((∀ p ∈ scanPairs is_symm nr_nodes, 0 ≤ distances p.1 p.2) →
        h.min_bins = 0 ∧ h.bins[0]? = some 0 ∧
        h.bin_width = h.max_bins / (nr_bins : ℚ)) := by
  obtain ⟨h1, h2, _⟩ := build_bounds distances nr_nodes nr_bins is_symm
  refine ⟨_, export_ok distances nr_nodes nr_bins is_symm hflag, h1, h2, ?_⟩
  intro hall
  have hz := build_min_zero distances nr_nodes nr_bins is_symm hall
  refine ⟨hz, ?_, ?_⟩
  · rw [build_bins, makeBins_getElem? _ _ nr_bins 0 (Nat.zero_le _), hz]
    norm_num
  · rw [build_bin_width, hz, sub_zero]

theorem minimum_starts_at_zero_witness :
    (∀ p ∈ scanPairs 1 4, 0 < scenario p.1 p.2) ∧
      ∃ h, export_distance_histogram scenario 4 1 3 = Except.ok h ∧
        h.min_bins = 0 ∧ h.bins[0]? = some 0 ∧ h.bin_width = h.max_bins / ((3 : Nat) : ℚ) := by
  obtain ⟨h, h1, _, _, h4⟩ := minimum_starts_at_zero scenario 4 3 1 (Or.inl rfl)
  exact ⟨scenario_positive, h, h1, h4 (fun p hp => le_of_lt (scenario_positive p hp))⟩

theorem scenario_iterate :
    sampleIterate scriptRng (cdrDraw scriptRng 3) 4 3 scenarioBins scenarioHist scenarioIndices
        (1 - 0) 1 (initialSampler [500, 0, 0]) =
      some (Except.ok
        { rng := []
          weights := fun i j => if i = 0 ∧ j = 1 then (0 : Int) + 1 else 0
          count_edges := 1 }) := by
  rw [sampleIterate, scenario_step 0 (by norm_num) 0 1 rfl rfl]
  rfl

/-! ## Index safety of one run of the loop body -/

theorem toSize_of_nonneg (x : Int) (h0 : 0 ≤ x) (h1 : x < 2 ^ 64) :
    toSize x = x.toNat ∧ (toSize x : Int) = x := by
  obtain ⟨n, rfl⟩ := Int.eq_ofNat_of_zero_le h0
  have hn : n < 2 ^ 64 := by exact_mod_cast h1
  rw [toSize_natCast n hn]
  exact ⟨by simp, rfl⟩

theorem toSize_le (x : Int) (h0 : 0 ≤ x) : (toSize x : Int) ≤ x := by
  unfold toSize SIZE_MOD
  push_cast
  omega

/-- Above the first boundary the search of the sampler returns `-1` or an index of
`dist_bins`, whatever the boundaries are. -/
theorem binary_search_in_range (bins : List ℚ) (w v : ℚ) (nr_bins : Nat)
    (hlen : bins.length = nr_bins + 1) (hsz : nr_bins + 1 < 2 ^ 64) (hv : bins.getD 0 0 < v) :
    ∃ r, binary_search (2 + nr_bins) bins (sizeAdd nr_bins 1) w v = some (Outcome.returned r) ∧
      (r = -1 ∨ ∃ m : Nat, r = (m : Int) ∧ m ≤ nr_bins) := by
  obtain ⟨trace, r, ht, _, _, hr⟩ := searchTrace_safe bins w v (by omega) hv (2 + nr_bins) 0
    nr_bins (by omega) (by omega) (by omega)
  refine ⟨r, ?_, ?_⟩
  · unfold binary_search
    rw [sizeAdd_of_lt hsz, sizeSub_of_le (by omega) hsz, Nat.add_sub_cancel,
      ← searchTrace_outcome, ht]
    rfl
  · rcases hr with hr | ⟨m, hm1, _, hm3⟩
    · exact Or.inl hr
    · exact Or.inr ⟨m, hm1, hm3⟩

/-- C25. Index safety of the sampler: for a histogram of `nr_bins + 1` boundaries, counts and
index lists, with counts in the range `0 .. 2^31 - 1` of an `int`, index lists of length
`2 * count` and stored node ids in `[0, nr_nodes)`, for a generator whose integer draws lie
below their bound, every run of the loop body on a distance draw `v > dist_bins[0]` completes
without an access outside an array: the search returns `-1` or an index below `nr_bins + 1`;
when a bin is located its count is read inside `dist_hist`; when that count is not `0` the drawn
`edge_idx` has `2 * edge_idx + 1 < 2 * count`, the two reads of `dist_indices[bin_idx]` are
inside the list, and the two node ids are below `nr_nodes`, whichever becomes the source. -/
theorem sampler_index_safety {σ : Type} (g : Rng σ) (draw : σ → ℚ × σ)
    (nr_nodes nr_bins : Nat) (dist_bins : List ℚ) (dist_hist : List Int)
    (dist_indices : List (List Int)) (bin_width : ℚ) (st : Sampler σ)
    (hg : RngContract g) (hsz : nr_bins + 1 < 2 ^ 64)
    (hbins : dist_bins.length = nr_bins + 1) (hhist : dist_hist.length = nr_bins + 1)
    (hind : dist_indices.length = nr_bins + 1)
    (hcount : ∀ c ∈ dist_hist, 0 ≤ c ∧ c < 2147483648)
    (hrow : ∀ p ∈ dist_hist.zip dist_indices, (p.2.length : Int) = 2 * p.1)
    (hids : ∀ row ∈ dist_indices, ∀ x ∈ row, 0 ≤ x ∧ x < (nr_nodes : Int))
    (hv : dist_bins.getD 0 0 < (draw st.rng).1) :
    ∃ (r : Int) (st1 : Sampler σ),
      binary_search (2 + nr_bins) dist_bins (sizeAdd nr_bins 1) bin_width (draw st.rng).1 =
        some (Outcome.returned r) ∧
      (r = -1 ∨ (0 ≤ r ∧ r < (nr_bins : Int) + 1)) ∧
      sampleStep g draw nr_nodes nr_bins dist_bins dist_hist dist_indices bin_width st =
        some (Except.ok st1) ∧
      (r ≠ -1 → ∃ c, dist_hist[toSize r]? = some c ∧
        (c ≠ 0 → ∃ (row : List Int) (a b : Int),
          dist_indices[toSize r]? = some row ∧
          2 * ((g.uniform_int (draw st.rng).2 (toSize c)).1 : Int) + 1 < 2 * c ∧
          row[2 * (g.uniform_int (draw st.rng).2 (toSize c)).1]? = some a ∧
          row[2 * (g.uniform_int (draw st.rng).2 (toSize c)).1 + 1]? = some b ∧
          toSize a < nr_nodes ∧ toSize b < nr_nodes)) := by
  obtain ⟨r, hbs, hr⟩ := binary_search_in_range dist_bins bin_width (draw st.rng).1 nr_bins
    hbins hsz hv
  rcases hr with hr | ⟨m, hm, hmle⟩
  · subst hr
    exact ⟨-1, { st with rng := (draw st.rng).2 }, hbs, Or.inl rfl,
      sampleStep_discard g draw nr_nodes nr_bins dist_bins dist_hist dist_indices bin_width st
        (-1) hbs (Or.inl rfl), fun h => absurd rfl h⟩
  · subst hm
    have hts : toSize (m : Int) = m := toSize_natCast m (by omega)
    have hne : toSize (m : Int) ≠ toSize (-1) := by
      rw [hts, toSize_neg_one]
      omega
    have hrange : (0 : Int) ≤ (m : Int) ∧ (m : Int) < (nr_bins : Int) + 1 := by
      constructor
      · exact Int.natCast_nonneg m
      · exact_mod_cast (by omega : m < nr_bins + 1)
    have hm1 : (m : Int) ≠ -1 := by
      have := hrange.1
      omega
    have hmh : m < dist_hist.length := by omega
    have hmi : m < dist_indices.length := by omega
    obtain ⟨c, hc⟩ : ∃ c, dist_hist[m]? = some c := ⟨_, List.getElem?_eq_getElem hmh⟩
    obtain ⟨row, hrw⟩ : ∃ row, dist_indices[m]? = some row :=
      ⟨_, List.getElem?_eq_getElem hmi⟩
    by_cases hc0 : c = 0
    · refine ⟨(m : Int), { st with rng := (draw st.rng).2 }, hbs, Or.inr hrange,
        sampleStep_discard g draw nr_nodes nr_bins dist_bins dist_hist dist_indices bin_width st
          (m : Int) hbs (Or.inr ⟨hne, by rw [hts, hc, hc0]⟩), ?_⟩
      intro _
      exact ⟨c, by rw [hts]; exact hc, fun h => absurd hc0 h⟩
    · have hcr := hcount c (List.getElem?_mem hc)
      have hcs := toSize_of_nonneg c hcr.1 (by have := hcr.2; omega)
      have hcpos : 0 < toSize c := by
        have h1 := hcs.2
        have h2 := hcr.1
        omega
      have he := hg.2 (draw st.rng).2 (toSize c) hcpos
      have hlen : (row.length : Int) = 2 * c :=
        hrow (c, row) (List.getElem?_mem (List.getElem?_zip_eq_some.mpr ⟨hc, hrw⟩))
      have hlt : 2 * (g.uniform_int (draw st.rng).2 (toSize c)).1 + 1 < row.length := by
        have h1 := hcs.2
        omega
      have hsmall : 2 * (g.uniform_int (draw st.rng).2 (toSize c)).1 + 1 < 2 ^ 64 := by
        have h1 := hcs.2
        have h2 := hcr.2
        omega
      have hmod : (2 * (g.uniform_int (draw st.rng).2 (toSize c)).1) % SIZE_MOD =
          2 * (g.uniform_int (draw st.rng).2 (toSize c)).1 := by
        unfold SIZE_MOD
        exact Nat.mod_eq_of_lt (by omega)
      have hadd : sizeAdd ((2 * (g.uniform_int (draw st.rng).2 (toSize c)).1) % SIZE_MOD) 1 =
          2 * (g.uniform_int (draw st.rng).2 (toSize c)).1 + 1 := by
        rw [hmod]
        exact sizeAdd_of_lt hsmall
      obtain ⟨a, ha⟩ : ∃ a, row[2 * (g.uniform_int (draw st.rng).2 (toSize c)).1]? = some a :=
        ⟨_, List.getElem?_eq_getElem (by omega)⟩
      obtain ⟨b, hb⟩ :
          ∃ b, row[2 * (g.uniform_int (draw st.rng).2 (toSize c)).1 + 1]? = some b :=
        ⟨_, List.getElem?_eq_getElem hlt⟩
      have hrmem : row ∈ dist_indices := List.getElem?_mem hrw
      have har := hids row hrmem a (List.getElem?_mem ha)
      have hbr := hids row hrmem b (List.getElem?_mem hb)
      have hta : toSize a < nr_nodes := by
        have h1 := toSize_le a har.1
        have := har.2
        omega
      have htb : toSize b < nr_nodes := by
        have h1 := toSize_le b hbr.1
        have := hbr.2
        omega
      refine ⟨(m : Int), _, hbs, Or.inr hrange,
        sampleStep_accept g draw nr_nodes nr_bins dist_bins dist_hist dist_indices bin_width st
          (m : Int) c a b row _ _ hbs hne (by rw [hts]; exact hc) hc0 (by rw [hts]; exact hrw)
          (by rw [hmod]; exact ha) (by rw [hadd]; exact hb) rfl rfl ?_ ?_, ?_⟩
      · split_ifs
        · exact htb
        · exact hta
      · split_ifs
        · exact hta
        · exact htb
      · intro _
        refine ⟨c, by rw [hts]; exact hc, fun _ => ⟨row, a, b, by rw [hts]; exact hrw, ?_, ha, hb,
          hta, htb⟩⟩
        have h1 := hcs.2
        omega

theorem sampler_index_safety_witness :
    ∃ (r : Int) (st1 : Sampler (List Nat)),
      binary_search (2 + 3) scenarioBins (sizeAdd 3 1) (1 - 0)
          (cdrDraw scriptRng 3 (initialSampler [500, 0, 0]).rng).1 =
        some (Outcome.returned r) ∧
      (r = -1 ∨ (0 ≤ r ∧ r < ((3 : Nat) : Int) + 1)) ∧
      sampleStep scriptRng (cdrDraw scriptRng 3) 4 3 scenarioBins scenarioHist scenarioIndices
          (1 - 0) (initialSampler [500, 0, 0]) = some (Except.ok st1) ∧
      (r ≠ -1 → ∃ c, scenarioHist[toSize r]? = some c ∧
        (c ≠ 0 → ∃ (row : List Int) (a b : Int),
          scenarioIndices[toSize r]? = some row ∧
          2 * ((scriptRng.uniform_int (cdrDraw scriptRng 3 (initialSampler [500, 0, 0]).rng).2
            (toSize c)).1 : Int) + 1 < 2 * c ∧
          row[2 * (scriptRng.uniform_int (cdrDraw scriptRng 3 (initialSampler [500, 0, 0]).rng).2
            (toSize c)).1]? = some a ∧
          row[2 * (scriptRng.uniform_int (cdrDraw scriptRng 3 (initialSampler [500, 0, 0]).rng).2
            (toSize c)).1 + 1]? = some b ∧
          toSize a < 4 ∧ toSize b < 4)) :=
  sampler_index_safety scriptRng (cdrDraw scriptRng 3) 4 3 scenarioBins scenarioHist
    scenarioIndices (1 - 0) (initialSampler [500, 0, 0]) scriptRng_contract (by norm_num) rfl rfl
    rfl (by decide) (by decide) (by decide)
    (by norm_num [cdrDraw, scriptRng, initialSampler, scenarioBins])

/-! ## The order of the draws and the discarded draw -/

/-- C24. The draws of one run of the loop body. A run that completes has drawn the distance
first and searched it; either the search returned `-1` or a bin whose count is `0`, and then
the run has only consumed the distance draw, `weights` and `count_edges` being as before; or
the located bin has a count `c != 0`, and then the generator has gone through the distance
draw, the draw of `edge_idx` below `c` and the draw of the direction below `2`, in this order.
Whenever the search returns `-1` or a bin with count `0` the run completes in the first way.
But a distance draw `v <= dist_bins[0]`, which lies in no bin, does not complete the run: on
ascending boundaries the search reads `dist_bins[2 ^ 63 - 1]`, outside the array. -/
theorem discard_frame {σ : Type} (g : Rng σ) (draw : σ → ℚ × σ)
    (nr_nodes nr_bins : Nat) (dist_bins : List ℚ) (dist_hist : List Int)
    (dist_indices : List (List Int)) (bin_width : ℚ) (st : Sampler σ) :
    (∀ st1, sampleStep g draw nr_nodes nr_bins dist_bins dist_hist dist_indices bin_width st =
        some (Except.ok st1) →
      ∃ r, binary_search (2 + nr_bins) dist_bins (sizeAdd nr_bins 1) bin_width
          (draw st.rng).1 = some (Outcome.returned r) ∧
        (((toSize r = toSize (-1) ∨ dist_hist[toSize r]? = some 0) ∧
            st1 = { st with rng := (draw st.rng).2 }) ∨
          ∃ c, toSize r ≠ toSize (-1) ∧ dist_hist[toSize r]? = some c ∧ c ≠ 0 ∧
            st1.rng = (g.uniform_int (g.uniform_int (draw st.rng).2 (toSize c)).2 2).2)) ∧
    (∀ r, binary_search (2 + nr_bins) dist_bins (sizeAdd nr_bins 1) bin_width
          (draw st.rng).1 = some (Outcome.returned r) →
      (toSize r = toSize (-1) ∨ dist_hist[toSize r]? = some 0) →
      sampleStep g draw nr_nodes nr_bins dist_bins dist_hist dist_indices bin_width st =
        some (Except.ok { st with rng := (draw st.rng).2 })) ∧
    (dist_bins.length = nr_bins + 1 → nr_bins + 1 < 2 ^ 63 → Ascending dist_bins →
      (draw st.rng).1 ≤ dist_bins.getD 0 0 →
      sampleStep g draw nr_nodes nr_bins dist_bins dist_hist dist_indices bin_width st =
        some (Except.error (Fault.binsRead (2 ^ 63 - 1)))) := by
  refine ⟨?_, ?_, ?_⟩
  · intro st1 hstep
    obtain ⟨r, hbs, hafter⟩ := sampleStep_ok g draw nr_nodes nr_bins dist_bins dist_hist
      dist_indices bin_width st st1 hstep
    refine ⟨r, hbs, ?_⟩
    rcases afterSearch_ok g nr_nodes dist_hist dist_indices r (draw st.rng).2 st st1 hafter with
      h | ⟨c, h1, h2, h3, hdraw⟩
    · exact Or.inl h
    · right
      obtain ⟨row, a, b, e, _, _, _, _, hins⟩ := drawEdge_ok g nr_nodes dist_indices (toSize r) c
        (draw st.rng).2 st st1 hdraw
      obtain ⟨source, target, _, _, _, hst1⟩ := insertEdge_ok nr_nodes _ a b _ st st1 hins
      refine ⟨c, h1, h2, h3, ?_⟩
      rw [hst1]
  · intro r hbs hr
    refine sampleStep_discard g draw nr_nodes nr_bins dist_bins dist_hist dist_indices bin_width
      st r hbs ?_
    by_cases h : toSize r = toSize (-1)
    · exact Or.inl h
    · rcases hr with hr | hr
      · exact absurd hr h
      · exact Or.inr ⟨h, hr⟩
  · intro hlen hsz hasc hv
    apply sampleStep_fault
    unfold binary_search
    rw [sizeAdd_of_lt (by omega), sizeSub_of_le (by omega) (by omega), Nat.add_sub_cancel]
    exact searchLoop_below dist_bins bin_width (draw st.rng).1 (by omega)
      (fun k hk => le_trans hv (hasc 0 k (Nat.zero_le _) hk)) (2 + nr_bins) nr_bins (by omega)
      (by omega)

theorem scenario_ascending : Ascending scenarioBins := by
  intro j k hjk hk
  have hk4 : k < 4 := hk
  interval_cases k <;> interval_cases j <;> norm_num [scenarioBins, List.getD]

theorem discard_frame_witness :
    sampleStep scriptRng (cdrDraw scriptRng 3) 4 3 scenarioBins scenarioHist scenarioIndices
        (1 - 0) (initialSampler [0, 0, 0]) =
      some (Except.error (Fault.binsRead (2 ^ 63 - 1))) :=
  (discard_frame scriptRng (cdrDraw scriptRng 3) 4 3 scenarioBins scenarioHist scenarioIndices
    (1 - 0) (initialSampler [0, 0, 0])).2.2 rfl (by norm_num) scenario_ascending
    (by norm_num [cdrDraw, scriptRng, initialSampler, scenarioBins])

/-! ## Rounding to a `double` -/

theorem roundHalfEven_of_floor (q : ℚ) (f : Int) (h1 : (f : ℚ) ≤ q) (h2 : q < (f : ℚ) + 1) :
    roundHalfEven q =
      if q - (f : ℚ) < 1 / 2 then f
      else if 1 / 2 < q - (f : ℚ) then f + 1
      else if f % 2 = 0 then f
      else f + 1 := by
  have hf : ⌊q⌋ = f := Int.floor_eq_iff.mpr ⟨h1, h2⟩
  unfold roundHalfEven
  rw [hf]

theorem ulpExponent_of_binade (q : ℚ) (e : Int) (h0 : 0 < q) (he : -1074 ≤ e)
    (h1 : (2 : ℚ) ^ (e + 52) ≤ q) (h2 : q < (2 : ℚ) ^ (e + 53)) : ulpExponent q = e := by
  have hlog : Int.log 2 |q| = e + 52 := by
    rw [abs_of_pos h0]
    have a1 : e + 52 ≤ Int.log 2 q := by
      rw [← Int.zpow_le_iff_le_log (by norm_num) h0]
      exact_mod_cast h1
    have a2 : Int.log 2 q < e + 53 := by
      rw [← Int.lt_zpow_iff_log_lt (by norm_num) h0]
      exact_mod_cast h2
    omega
  unfold ulpExponent
  rw [hlog]
  omega

/-- The `double` nearest to `q`, from the exponent `e` of its last place and the integer part
`f` of `q / 2 ^ e`. -/
theorem roundDouble_of (q : ℚ) (e f m : Int) (h0 : 0 < q) (he : -1074 ≤ e)
    (h1 : (2 : ℚ) ^ (e + 52) ≤ q) (h2 : q < (2 : ℚ) ^ (e + 53))
    (hf1 : (f : ℚ) ≤ q / 2 ^ e) (hf2 : q / 2 ^ e < (f : ℚ) + 1)
    (hm : m = if q / 2 ^ e - (f : ℚ) < 1 / 2 then f
      else if 1 / 2 < q / 2 ^ e - (f : ℚ) then f + 1
      else if f % 2 = 0 then f
      else f + 1) :
    roundDouble q = (m : ℚ) * 2 ^ e := by
  unfold roundDouble
  rw [ulpExponent_of_binade q e h0 he h1 h2, roundHalfEven_of_floor _ f hf1 hf2, ← hm]

theorem roundDouble_zero : roundDouble 0 = 0 := by
  unfold roundDouble roundHalfEven
  simp

/-- The `double` that `0.9` is read as. -/
theorem roundDouble_point_nine :
    roundDouble (9 / 10) = 8106479329266893 / 9007199254740992 := by
  rw [roundDouble_of (9 / 10) (-53) 8106479329266892
    8106479329266893 (by norm_num) (by norm_num) (by norm_num) (by norm_num) (by norm_num)
    (by norm_num) (by norm_num)]
  norm_num

/-- The roundings met on the matrix `pointNine` with three bins. -/
theorem pointNine_rounding :
    roundDouble (8106479329266893 / 9007199254740992) = 8106479329266893 / 9007199254740992 ∧
    roundDouble (8106479329266893 / 27021597764222976) = 5404319552844595 / 18014398509481984 ∧
    roundDouble (5404319552844595 / 18014398509481984) = 5404319552844595 / 18014398509481984 ∧
    roundDouble (5404319552844595 / 9007199254740992) = 5404319552844595 / 9007199254740992 ∧
    roundDouble (16212958658533785 / 18014398509481984) = 2026619832316723 / 2251799813685248 ∧
    roundDouble (2026619832316723 / 2251799813685248) = 2026619832316723 / 2251799813685248 ∧
    roundDouble (16212958658533786 / 5404319552844595) = 3 := by
  refine ⟨?_, ?_, ?_, ?_, ?_, ?_, ?_⟩
  · rw [roundDouble_of (8106479329266893 / 9007199254740992) (-53) 8106479329266893
      8106479329266893 (by norm_num) (by norm_num) (by norm_num) (by norm_num) (by norm_num)
      (by norm_num) (by norm_num)]
    norm_num
  · rw [roundDouble_of (8106479329266893 / 27021597764222976) (-54) 5404319552844595
      5404319552844595 (by norm_num) (by norm_num) (by norm_num) (by norm_num) (by norm_num)
      (by norm_num) (by norm_num)]
    norm_num
  · rw [roundDouble_of (5404319552844595 / 18014398509481984) (-54) 5404319552844595
      5404319552844595 (by norm_num) (by norm_num) (by norm_num) (by norm_num) (by norm_num)
      (by norm_num) (by norm_num)]
    norm_num
  · rw [roundDouble_of (5404319552844595 / 9007199254740992) (-53) 5404319552844595
      5404319552844595 (by norm_num) (by norm_num) (by norm_num) (by norm_num) (by norm_num)
      (by norm_num) (by norm_num)]
    norm_num
  · rw [roundDouble_of (16212958658533785 / 18014398509481984) (-53) 8106479329266892
      8106479329266892 (by norm_num) (by norm_num) (by norm_num) (by norm_num) (by norm_num)
      (by norm_num) (by norm_num)]
    norm_num
  · rw [roundDouble_of (2026619832316723 / 2251799813685248) (-53) 8106479329266892
      8106479329266892 (by norm_num) (by norm_num) (by norm_num) (by norm_num) (by norm_num)
      (by norm_num) (by norm_num)]
    norm_num
  · rw [roundDouble_of (16212958658533786 / 5404319552844595) (-51) 6755399441055744
      6755399441055744 (by norm_num) (by norm_num) (by norm_num) (by norm_num) (by norm_num)
      (by norm_num) (by norm_num)]
    norm_num

/-- The roundings met on the matrix `nineApart` with seven bins and in the search of `7`. -/
theorem nineApart_rounding :
    roundDouble (9) = 9 ∧
    roundDouble (9 / 7) = 5790342378047781 / 4503599627370496 ∧
    roundDouble (5790342378047781 / 4503599627370496) = 5790342378047781 / 4503599627370496 ∧
    roundDouble (5790342378047781 / 2251799813685248) = 5790342378047781 / 2251799813685248 ∧
    roundDouble (17371027134143343 / 4503599627370496) = 1085689195883959 / 281474976710656 ∧
    roundDouble (1085689195883959 / 281474976710656) = 1085689195883959 / 281474976710656 ∧
    roundDouble (5790342378047781 / 1125899906842624) = 5790342378047781 / 1125899906842624 ∧
    roundDouble (28951711890238905 / 4503599627370496) = 3618963986279863 / 562949953421312 ∧
    roundDouble (3618963986279863 / 562949953421312) = 3618963986279863 / 562949953421312 ∧
    roundDouble (17371027134143343 / 2251799813685248) = 1085689195883959 / 140737488355328 ∧
    roundDouble (1085689195883959 / 140737488355328) = 1085689195883959 / 140737488355328 ∧
    roundDouble (40532396646334467 / 4503599627370496) = 9 ∧
    roundDouble (13510798882111488 / 1930114126015927) = 7881299347898367 / 1125899906842624 ∧
    roundDouble (23161369512191125 / 4503599627370496) = 5790342378047781 / 1125899906842624 ∧
    roundDouble (34742054268286685 / 4503599627370496) = 8685513567071671 / 1125899906842624 := by
  refine ⟨?_, ?_, ?_, ?_, ?_, ?_, ?_, ?_, ?_, ?_, ?_, ?_, ?_, ?_, ?_⟩
  · rw [roundDouble_of (9) (-49) 5066549580791808
      5066549580791808 (by norm_num) (by norm_num) (by norm_num) (by norm_num) (by norm_num)
      (by norm_num) (by norm_num)]
    norm_num
  · rw [roundDouble_of (9 / 7) (-52) 5790342378047780
      5790342378047781 (by norm_num) (by norm_num) (by norm_num) (by norm_num) (by norm_num)
      (by norm_num) (by norm_num)]
    norm_num
  · rw [roundDouble_of (5790342378047781 / 4503599627370496) (-52) 5790342378047781
      5790342378047781 (by norm_num) (by norm_num) (by norm_num) (by norm_num) (by norm_num)
      (by norm_num) (by norm_num)]
    norm_num
  · rw [roundDouble_of (5790342378047781 / 2251799813685248) (-51) 5790342378047781
      5790342378047781 (by norm_num) (by norm_num) (by norm_num) (by norm_num) (by norm_num)
      (by norm_num) (by norm_num)]
    norm_num
  · rw [roundDouble_of (17371027134143343 / 4503599627370496) (-51) 8685513567071671
      8685513567071672 (by norm_num) (by norm_num) (by norm_num) (by norm_num) (by norm_num)
      (by norm_num) (by norm_num)]
    norm_num
  · rw [roundDouble_of (1085689195883959 / 281474976710656) (-51) 8685513567071672
      8685513567071672 (by norm_num) (by norm_num) (by norm_num) (by norm_num) (by norm_num)
      (by norm_num) (by norm_num)]
    norm_num
  · rw [roundDouble_of (5790342378047781 / 1125899906842624) (-50) 5790342378047781
      5790342378047781 (by norm_num) (by norm_num) (by norm_num) (by norm_num) (by norm_num)
      (by norm_num) (by norm_num)]
    norm_num
  · rw [roundDouble_of (28951711890238905 / 4503599627370496) (-50) 7237927972559726
      7237927972559726 (by norm_num) (by norm_num) (by norm_num) (by norm_num) (by norm_num)
      (by norm_num) (by norm_num)]
    norm_num
  · rw [roundDouble_of (3618963986279863 / 562949953421312) (-50) 7237927972559726
      7237927972559726 (by norm_num) (by norm_num) (by norm_num) (by norm_num) (by norm_num)
      (by norm_num) (by norm_num)]
    norm_num
  · rw [roundDouble_of (17371027134143343 / 2251799813685248) (-50) 8685513567071671
      8685513567071672 (by norm_num) (by norm_num) (by norm_num) (by norm_num) (by norm_num)
      (by norm_num) (by norm_num)]
    norm_num
  · rw [roundDouble_of (1085689195883959 / 140737488355328) (-50) 8685513567071672
      8685513567071672 (by norm_num) (by norm_num) (by norm_num) (by norm_num) (by norm_num)
      (by norm_num) (by norm_num)]
    norm_num
  · rw [roundDouble_of (40532396646334467 / 4503599627370496) (-49) 5066549580791808
      5066549580791808 (by norm_num) (by norm_num) (by norm_num) (by norm_num) (by norm_num)
      (by norm_num) (by norm_num)]
    norm_num
  · rw [roundDouble_of (13510798882111488 / 1930114126015927) (-50) 7881299347898367
      7881299347898367 (by norm_num) (by norm_num) (by norm_num) (by norm_num) (by norm_num)
      (by norm_num) (by norm_num)]
    norm_num
  · rw [roundDouble_of (23161369512191125 / 4503599627370496) (-50) 5790342378047781
      5790342378047781 (by norm_num) (by norm_num) (by norm_num) (by norm_num) (by norm_num)
      (by norm_num) (by norm_num)]
    norm_num
  · rw [roundDouble_of (34742054268286685 / 4503599627370496) (-50) 8685513567071671
      8685513567071671 (by norm_num) (by norm_num) (by norm_num) (by norm_num) (by norm_num)
      (by norm_num) (by norm_num)]
    norm_num

theorem binIndexFl_of (fl : ℚ → ℚ) (distances : Nat → Nat → ℚ) (m w : ℚ) (bins : List ℚ)
    (nb i j : Nat) (q : ℚ) (z : Nat) (hq : fl (fl (distances i j - m) / w) = q)
    (hz1 : (z : ℚ) ≤ q) (hz2 : q < (z : ℚ) + 1) :
    binIndexFl fl distances m w bins nb i j =
      if distances i j = bins.getD nb 0 then sizeSub z 1 else z := by
  have hf : ⌊q⌋ = (z : Int) := Int.floor_eq_iff.mpr ⟨by exact_mod_cast hz1, by exact_mod_cast hz2⟩
  unfold binIndexFl
  dsimp only
  rw [hq, hf, Int.toNat_ofNat]

theorem scanLoop_two {σ : Type} (body : σ → Nat → Nat → σ) (init : σ) :
    scanLoop 1 2 body init = body init 0 1 := rfl

/-- The histogram that the code builds for two nodes at the distance `0.9` with three bins: the
product `3 * bin_width` rounds to `0.8999999999999999`, below the maximum, the quotient
`0.9 / bin_width` rounds to `3`, and the test `d == bins[3]` fails. -/
theorem pointNine_build : buildHistogramFl roundDouble pointNine 2 1 3 =
    { min_bins := 0, max_bins := 8106479329266893 / 9007199254740992,
      bin_width := 5404319552844595 / 18014398509481984,
      bins := [0, 5404319552844595 / 18014398509481984, 5404319552844595 / 9007199254740992,
        2026619832316723 / 2251799813685248],
      hist := [0, 0, 0, 1], indices := [[], [], [], [0, 1]] } := by
  obtain ⟨r1, r2, r3, r4, r5, r6, r7⟩ := pointNine_rounding
  have hd : pointNine 0 1 = 8106479329266893 / 9007199254740992 := rfl
  have hmm : scanLoop 1 2 (minMaxStep pointNine) ((0 : ℚ), (0 : ℚ)) =
      (0, 8106479329266893 / 9007199254740992) := by
    rw [scanLoop_two]
    simp only [minMaxStep, hd]
    norm_num
  have hw : roundDouble (roundDouble ((8106479329266893 / 9007199254740992 : ℚ) - 0) /
      ((3 : Nat) : ℚ)) = 5404319552844595 / 18014398509481984 := by
    rw [sub_zero, r1]
    norm_num
    exact r2
  have hbins : makeBinsFl roundDouble 0 (5404319552844595 / 18014398509481984) 3 =
      [0, 5404319552844595 / 18014398509481984, 5404319552844595 / 9007199254740992,
        2026619832316723 / 2251799813685248] := by
    simp only [makeBinsFl, List.range, List.range.loop, List.map]
    norm_num [roundDouble_zero, r3, r4, r5, r6]
  have hb : binIndexFl roundDouble pointNine 0 (5404319552844595 / 18014398509481984)
      [0, 5404319552844595 / 18014398509481984, 5404319552844595 / 9007199254740992,
        2026619832316723 / 2251799813685248] 3 0 1 = 3 := by
    rw [binIndexFl_of roundDouble pointNine 0 _ _ 3 0 1 3 3
      (by rw [hd, sub_zero, r1]; norm_num; exact r7) (by norm_num) (by norm_num), hd]
    exact if_neg (by norm_num [List.getD])
  have hhist : scanLoop 1 2 (histStepFl roundDouble pointNine 0
      (5404319552844595 / 18014398509481984)
      [0, 5404319552844595 / 18014398509481984, 5404319552844595 / 9007199254740992,
        2026619832316723 / 2251799813685248] 3) (List.replicate (3 + 1) 0) = [0, 0, 0, 1] := by
    rw [scanLoop_two]
    simp only [histStepFl, hb]
    rw [if_pos (by rw [hd]; norm_num)]
    rfl
  have hidx : ∀ k, scanLoop 1 2 (indexStepFl roundDouble pointNine 0
      (5404319552844595 / 18014398509481984)
      [0, 5404319552844595 / 18014398509481984, 5404319552844595 / 9007199254740992,
        2026619832316723 / 2251799813685248] 3 k) [] = if 3 = k then [0, 1] else [] := by
    intro k
    rw [scanLoop_two]
    simp only [indexStepFl, hb]
    rw [if_pos (by rw [hd]; norm_num)]
    rfl
  have hrange : List.range (3 + 1) = [0, 1, 2, 3] := rfl
  unfold buildHistogramFl
  simp only [hmm, hw, hbins, hhist, hrange, List.map, hidx]
  rfl

/-- The histogram that the code builds for two nodes at the distance `9` with seven bins: the
quotient `9 / bin_width` rounds to `6.999999999999999`, whose integer part is `6`, the product
`7 * bin_width` rounds to `9`, the test `d == bins[7]` holds and takes the index down to `5`. -/
theorem nineApart_build : buildHistogramFl roundDouble nineApart 2 1 7 =
    { min_bins := 0, max_bins := 9, bin_width := 5790342378047781 / 4503599627370496,
      bins := [0, 5790342378047781 / 4503599627370496, 5790342378047781 / 2251799813685248,
        1085689195883959 / 281474976710656, 5790342378047781 / 1125899906842624,
        3618963986279863 / 562949953421312, 1085689195883959 / 140737488355328, 9],
      hist := [0, 0, 0, 0, 0, 1, 0, 0], indices := [[], [], [], [], [], [0, 1], [], []] } := by
  obtain ⟨r1, r2, r3, r4, r5, r6, r7, r8, r9, r10, r11, r12, r13, _, _⟩ := nineApart_rounding
  have hd : nineApart 0 1 = 9 := rfl
  have hmm : scanLoop 1 2 (minMaxStep nineApart) ((0 : ℚ), (0 : ℚ)) = (0, 9) := by
    rw [scanLoop_two]
    simp only [minMaxStep, hd]
    norm_num
  have hw : roundDouble (roundDouble ((9 : ℚ) - 0) / ((7 : Nat) : ℚ)) =
      5790342378047781 / 4503599627370496 := by
    rw [sub_zero, r1]
    norm_num
    exact r2
  have hbins : makeBinsFl roundDouble 0 (5790342378047781 / 4503599627370496) 7 =
      [0, 5790342378047781 / 4503599627370496, 5790342378047781 / 2251799813685248,
        1085689195883959 / 281474976710656, 5790342378047781 / 1125899906842624,
        3618963986279863 / 562949953421312, 1085689195883959 / 140737488355328, 9] := by
    simp only [makeBinsFl, List.range, List.range.loop, List.map]
    norm_num [roundDouble_zero, r1, r3, r4, r5, r6, r7, r8, r9, r10, r11, r12]
  have hb : binIndexFl roundDouble nineApart 0 (5790342378047781 / 4503599627370496)
      [0, 5790342378047781 / 4503599627370496, 5790342378047781 / 2251799813685248,
        1085689195883959 / 281474976710656, 5790342378047781 / 1125899906842624,
        3618963986279863 / 562949953421312, 1085689195883959 / 140737488355328, 9] 7 0 1 =
      5 := by
    rw [binIndexFl_of roundDouble nineApart 0 _ _ 7 0 1
      (7881299347898367 / 1125899906842624) 6
      (by rw [hd, sub_zero, r1]; norm_num; exact r13) (by norm_num) (by norm_num), hd]
    rw [if_pos (by norm_num [List.getD]), sizeSub_of_le (by norm_num) (by norm_num)]
  have hhist : scanLoop 1 2 (histStepFl roundDouble nineApart 0
      (5790342378047781 / 4503599627370496)
      [0, 5790342378047781 / 4503599627370496, 5790342378047781 / 2251799813685248,
        1085689195883959 / 281474976710656, 5790342378047781 / 1125899906842624,
        3618963986279863 / 562949953421312, 1085689195883959 / 140737488355328, 9] 7)
      (List.replicate (7 + 1) 0) = [0, 0, 0, 0, 0, 1, 0, 0] := by
    rw [scanLoop_two]
    simp only [histStepFl, hb]
    rw [if_pos (by rw [hd]; norm_num)]
    rfl
  have hidx : ∀ k, scanLoop 1 2 (indexStepFl roundDouble nineApart 0
      (5790342378047781 / 4503599627370496)
      [0, 5790342378047781 / 4503599627370496, 5790342378047781 / 2251799813685248,
        1085689195883959 / 281474976710656, 5790342378047781 / 1125899906842624,
        3618963986279863 / 562949953421312, 1085689195883959 / 140737488355328, 9] 7 k) [] =
      if 5 = k then [0, 1] else [] := by
    intro k
    rw [scanLoop_two]
    simp only [indexStepFl, hb]
    rw [if_pos (by rw [hd]; norm_num)]
    rfl
  have hrange : List.range (7 + 1) = [0, 1, 2, 3, 4, 5, 6, 7] := rfl
  unfold buildHistogramFl
  simp only [hmm, hw, hbins, hhist, hrange, List.map, hidx]
  rfl

/-- The search of `7` in the boundaries built for `nineApart` returns bin `5`. -/
theorem nineApart_search :
    binary_search 9
      [0, 5790342378047781 / 4503599627370496, 5790342378047781 / 2251799813685248,
        1085689195883959 / 281474976710656, 5790342378047781 / 1125899906842624,
        3618963986279863 / 562949953421312, 1085689195883959 / 140737488355328, 9] (7 + 1)
      (5790342378047781 / 4503599627370496) 7 = some (Outcome.returned 5) := by
  unfold binary_search
  rw [sizeSub_of_le (by norm_num) (by norm_num)]
  rw [searchLoop_step _ _ _ 8 0 (7 + 1 - 1) (1085689195883959 / 281474976710656) (by norm_num)
    (by norm_num) rfl]
  rw [if_neg (by norm_num), if_neg (by norm_num), sizeAdd_of_lt (by norm_num)]
  rw [searchLoop_step _ _ _ 7 (0 + (7 + 1 - 1 - 0) / 2 + 1) (7 + 1 - 1)
    (3618963986279863 / 562949953421312) (by norm_num) (by norm_num) rfl]
  rw [if_pos (by norm_num)]
  rfl

/-! ## The exact arithmetic as an instance -/

/-- Without rounding the builder in the arithmetic `fl` is the exact builder. -/
theorem buildHistogramFl_id (distances : Nat → Nat → ℚ) (nr_nodes nr_bins : Nat)
    (is_symm : Int) :
    buildHistogramFl id distances nr_nodes is_symm nr_bins =
      buildHistogram distances nr_nodes is_symm nr_bins := rfl

theorem export_fl_ok (fl : ℚ → ℚ) (distances : Nat → Nat → ℚ) (nr_nodes nr_bins : Nat)
    (is_symm : Int) (hflag : is_symm = 1 ∨ is_symm = 0) :
    export_distance_histogram_fl fl distances nr_nodes is_symm nr_bins =
      Except.ok (buildHistogramFl fl distances nr_nodes is_symm nr_bins) := by
  unfold export_distance_histogram_fl
  rw [if_pos hflag]

theorem pointNine_export :
    export_distance_histogram_fl roundDouble pointNine 2 1 3 = Except.ok
    { min_bins := 0, max_bins := 8106479329266893 / 9007199254740992,
      bin_width := 5404319552844595 / 18014398509481984,
      bins := [0, 5404319552844595 / 18014398509481984, 5404319552844595 / 9007199254740992,
        2026619832316723 / 2251799813685248],
      hist := [0, 0, 0, 1], indices := [[], [], [], [0, 1]] } := by
  rw [export_fl_ok roundDouble pointNine 2 3 1 (Or.inl rfl), pointNine_build]

theorem nineApart_export :
    export_distance_histogram_fl roundDouble nineApart 2 1 7 = Except.ok
    { min_bins := 0, max_bins := 9, bin_width := 5790342378047781 / 4503599627370496,
      bins := [0, 5790342378047781 / 4503599627370496, 5790342378047781 / 2251799813685248,
        1085689195883959 / 281474976710656, 5790342378047781 / 1125899906842624,
        3618963986279863 / 562949953421312, 1085689195883959 / 140737488355328, 9],
      hist := [0, 0, 0, 0, 0, 1, 0, 0], indices := [[], [], [], [], [], [0, 1], [], []] } := by
  rw [export_fl_ok roundDouble nineApart 2 7 1 (Or.inl rfl), nineApart_build]

/-- C9, on the code: the fold of the top boundary is decided by the test `d == bins[nr_bins]` on
rounded values, and it misses or fires once too often. For two nodes at the distance `0.9` and
three bins, `bins[3]` is `0.8999999999999999`, below the maximum, the pair at the maximum gets
the index `3` and is counted and stored in the overflow bin: `hist = [0, 0, 0, 1]`. For two nodes
at the distance `9` and seven bins, the quotient has the integer part `6` already and
`bins[7]` is `9`, so the test holds and the pair at the maximum is stored in bin `5`, not in bin
`nr_bins - 1 = 6`. -/
theorem overflow_bin_filled :
    (∃ h, export_distance_histogram_fl roundDouble pointNine 2 1 3 = Except.ok h ∧
      pointNine 0 1 = roundDouble (9 / 10) ∧ pointNine 0 1 = h.max_bins ∧
      h.bins.getD 3 0 < h.max_bins ∧
      h.hist = [0, 0, 0, 1] ∧ h.hist.getD 3 0 ≠ 0 ∧
      toPairs (h.indices.getD 3 []) = [(0, 1)] ∧ h.indices.getD (3 - 1) [] = []) ∧
    (∃ h, export_distance_histogram_fl roundDouble nineApart 2 1 7 = Except.ok h ∧
      nineApart 0 1 = h.max_bins ∧ h.bins.getD 7 0 = h.max_bins ∧
      h.hist = [0, 0, 0, 0, 0, 1, 0, 0] ∧
      toPairs (h.indices.getD 5 []) = [(0, 1)] ∧ h.indices.getD (7 - 1) [] = []) := by
  constructor
  · refine ⟨_, pointNine_export, ?_, rfl, ?_, rfl, ?_, rfl, rfl⟩
    · rw [roundDouble_point_nine]
      rfl
    · show (2026619832316723 / 2251799813685248 : ℚ) < 8106479329266893 / 9007199254740992
      norm_num
    · show (1 : Nat) ≠ 0
      exact one_ne_zero
  · exact ⟨_, nineApart_export, rfl, rfl, rfl, rfl, rfl⟩

/-- C12, on the code: the guarantee fails on a histogram that the builder has written. For two
nodes at the distance `9` and seven bins, the pair is stored in bin `5` (the fold fires on an
index that is `6` already); `binary_search` on the exported boundaries returns bin `5` for the
value `7` (the rounded sums `bins[middle] + bin_width` that the code compares decide the two
probes in the same way), and `|9 - 7| = 2` is more than the bin width `1.2857142857142858`. -/
theorem guarantee_broken_by_fold :
    ∃ h, export_distance_histogram_fl roundDouble nineApart 2 1 7 = Except.ok h ∧
      h.bins.getD 1 0 - h.bins.getD 0 0 = h.bin_width ∧
      (0, 1) ∈ toPairs (h.indices.getD 5 []) ∧ nineApart 0 1 = 9 ∧
      binary_search 9 h.bins (7 + 1) h.bin_width 7 = some (Outcome.returned 5) ∧
      roundDouble (h.bins.getD 3 0 + h.bin_width) < 7 ∧
      h.bins.getD 5 0 < 7 ∧ 7 ≤ roundDouble (h.bins.getD 5 0 + h.bin_width) ∧
      ¬ (|nineApart 0 1 - 7| ≤ h.bin_width) := by
  obtain ⟨_, _, _, _, _, _, _, _, _, _, _, _, _, r14, r15⟩ := nineApart_rounding
  refine ⟨_, nineApart_export, ?_, ?_, rfl, nineApart_search, ?_, ?_, ?_, ?_⟩
  · show (5790342378047781 / 4503599627370496 : ℚ) - 0 = 5790342378047781 / 4503599627370496
    norm_num
  · show (0, 1) ∈ [(0, 1)]
    exact List.mem_cons_self _ _
  · show roundDouble ((1085689195883959 / 281474976710656 : ℚ) +
      5790342378047781 / 4503599627370496) < 7
    norm_num [r14]
  · show (3618963986279863 / 562949953421312 : ℚ) < 7
    norm_num
  · show (7 : ℚ) ≤ roundDouble ((3618963986279863 / 562949953421312 : ℚ) +
      5790342378047781 / 4503599627370496)
    norm_num [r15]
  · show ¬ (|(9 : ℚ) - 7| ≤ 5790342378047781 / 4503599627370496)
    norm_num [abs_of_pos]

end EDRModel
